import Mathlib

/-!
# CLog: a shallow embedding of `src/CLog/log.c`

The C translation unit implements a logging engine: a `Logger` object owns a
bounded array of sink handles and (in async mode) a singly linked FIFO of
`LogMessage` nodes drained by a worker thread.

Memory is modelled by three typed heaps (loggers, sink handles, message nodes),
each a map from addresses to objects, and by a trace of observable events
(mutex operations, sink callbacks, queue mutations).  Every C function becomes a
function `Mem → Option Mem`; `none` stands for a fault (a dereference of a null
or dangling pointer, an out-of-bounds array access) or for an exhausted
iteration budget of an unbounded loop.

What the environment decides is passed in explicitly: the result of `malloc`,
the value of `time(NULL)`, the outcome of `mtx_trylock`, the expansion of the
format string.  The headers `log.h` and `log_internal.h` are not part of the
sources at hand; the two constants they define (`MAX_SINKS` and the size of the
message buffer) are parameters, and the record types list the fields that
`log.c` accesses.
-/

namespace CLog

/-- A non-null address.  A C pointer that may be `NULL` is an `Option Ptr`. -/
abbrev Ptr := Nat

/-- The enumeration `LogLevel`, by its ordinal. -/
abbrev LogLevel := Nat

/-- The two mutexes of a logger: `logger->mutex` and `logger->queue_mutex`. -/
inductive Mutex where
  | engine
  | queue
deriving DecidableEq, Repr

/-- The record `LogMessage`: one queue node.  The field `message` holds the bytes
that `vsnprintf` stored in the buffer, the terminating NUL included. -/
structure LogMessage where
  level : LogLevel
  file : String
  line : Int
  time : Int
  next : Option Ptr
  message : List Char
deriving DecidableEq, Repr

/-- The member `config` of a sink handle.  `write_fn` is a function pointer,
identified by a number; the code calls it without a null check. -/
structure SinkConfig where
  min_level : LogLevel
  write_fn : Nat
  format : Option Ptr
deriving DecidableEq, Repr

/-- The record `LogSink`: a sink handle.  `destroy` is a nullable function
pointer, `user_data` the `void*` context handed back to `write_fn`. -/
structure LogSink where
  config : SinkConfig
  logger : Option Ptr
  destroy : Option Nat
  user_data : Nat
deriving DecidableEq, Repr

/-- The record `LogConfig` read by `logger_create`. -/
structure LogConfig where
  logger_name : String
  async : Bool
  auto_flush : Bool
  flush_interval_ms : Int
  format : Option Ptr
deriving DecidableEq, Repr

/-- The record `Logger`.  `sinks` is the array `sinks[MAX_SINKS]` of nullable
handles, `sink_count` the C `int` counting the slots in use. -/
structure Logger where
  running : Bool
  name : String
  async : Bool
  sink_count : Nat
  sinks : List (Option Ptr)
  queue_head : Option Ptr
  queue_tail : Option Ptr
  auto_flush : Bool
  flush_interval_ms : Int
  last_flush_time : Int
  format : Option Ptr
deriving DecidableEq, Repr

/-- Observable events, in program order.  `write` is a call
`sinks[slot]->config.write_fn(msg, sinks[slot]->user_data)` together with the
content of `*msg` at the time of the call; `teardown` is a call
`sinks[slot]->destroy(sinks[slot])`; `enqueue` and `dequeue` mark the statements
that link a node into the queue and unlink it. -/
inductive Event where
  | lock (mx : Mutex)
  | trylock (mx : Mutex) (ok : Bool)
  | unlock (mx : Mutex)
  | mtx_init (mx : Mutex)
  | mtx_destroy (mx : Mutex)
  | thrd_create
  | thrd_join
  | thrd_yield
  | enqueue (msg : Ptr)
  | dequeue (msg : Ptr)
  | write (slot : Nat) (sink : Ptr) (write_fn : Nat) (msg : Ptr) (body : LogMessage)
      (user_data : Nat)
  | teardown (slot : Nat) (sink : Ptr) (destroy : Nat)
deriving DecidableEq, Repr

/-- The memory: the three heaps and the trace of events so far. -/
@[ext]
structure Mem where
  loggers : Ptr → Option Logger
  sinks : Ptr → Option LogSink
  msgs : Ptr → Option LogMessage
  trace : List Event

/-- Append one event to the trace. -/
def Mem.emit (m : Mem) (e : Event) : Mem :=
  { m with trace := m.trace ++ [e] }

/-- Store a logger object at address `p`. -/
def Mem.setLogger (m : Mem) (p : Ptr) (L : Logger) : Mem :=
  { m with loggers := fun q => if q = p then some L else m.loggers q }

/-- Release the logger object at address `p`. -/
def Mem.freeLogger (m : Mem) (p : Ptr) : Mem :=
  { m with loggers := fun q => if q = p then none else m.loggers q }

/-- Store a sink handle at address `p`. -/
def Mem.setSink (m : Mem) (p : Ptr) (s : LogSink) : Mem :=
  { m with sinks := fun q => if q = p then some s else m.sinks q }

/-- Store a message node at address `p`. -/
def Mem.setMsg (m : Mem) (p : Ptr) (n : LogMessage) : Mem :=
  { m with msgs := fun q => if q = p then some n else m.msgs q }

/-- The call `free(msg)`. -/
def Mem.freeMsg (m : Mem) (p : Ptr) : Mem :=
  { m with msgs := fun q => if q = p then none else m.msgs q }

/-- The bytes `vsnprintf(buf, size, ...)` stores when the expansion of the format
is `text`: at most `size - 1` characters, then a NUL; nothing when `size = 0`. -/
def vsnprintf (size : Nat) (text : List Char) : List Char :=
  if size = 0 then [] else text.take (size - 1) ++ [Char.ofNat 0]

/-- The fan-out loop of `process_all_messages` (lines 28-32) and of
`worker_thread_func` (lines 71-75), which are the same text:
`for (i = 0; i < sink_count; i++) if (msg->level >= sinks[i]->config.min_level) write_fn(...)`.
The first argument counts the iterations left, the second is `i`. -/
def dispatch_queued (lp msg : Ptr) : Nat → Nat → Mem → Option Mem
  | 0, _, m => some m
  | k + 1, i, m => do
    let L ← m.loggers lp
    let body ← m.msgs msg
    let sp ← (L.sinks[i]?).join
    let s ← m.sinks sp
    if s.config.min_level ≤ body.level then
      dispatch_queued lp msg k (i + 1)
        (m.emit (.write i sp s.config.write_fn msg body s.user_data))
    else
      dispatch_queued lp msg k (i + 1) m

/-- The fan-out loop of `logger_log` (lines 176-180), which compares the
parameter `level` instead of `msg->level`. -/
def dispatch_sync (lp msg : Ptr) (level : LogLevel) : Nat → Nat → Mem → Option Mem
  | 0, _, m => some m
  | k + 1, i, m => do
    let L ← m.loggers lp
    let sp ← (L.sinks[i]?).join
    let s ← m.sinks sp
    if s.config.min_level ≤ level then
      let body ← m.msgs msg
      dispatch_sync lp msg level k (i + 1)
        (m.emit (.write i sp s.config.write_fn msg body s.user_data))
    else
      dispatch_sync lp msg level k (i + 1) m

/-- The pop under the queue lock, lines 15-23 and 58-66: returns the unlinked
node (`msg`, possibly `NULL`) and the memory after `mtx_unlock`. -/
def pop_message (lp : Ptr) (m : Mem) : Option (Option Ptr × Mem) := do
  let m := m.emit (.lock .queue)
  let L ← m.loggers lp
  match L.queue_head with
  | none => some (none, m.emit (.unlock .queue))
  | some p =>
    let node ← m.msgs p
    let L1 := { L with queue_head := node.next }
    let L2 := if L1.queue_head = none then { L1 with queue_tail := none } else L1
    some (some p, ((m.setLogger lp L2).emit (.dequeue p)).emit (.unlock .queue))

/-- The function `process_all_messages`: `while (true)` pop, break on an empty
queue, dispatch, free.  The first argument bounds the number of iterations. -/
def process_all_messages (lp : Ptr) : Nat → Mem → Option Mem
  | 0, _ => none
  | fuel + 1, m => do
    let (msg, m) ← pop_message lp m
    match msg with
    | none => some m
    | some p =>
      let L ← m.loggers lp
      let m ← dispatch_queued lp p L.sink_count 0 m
      process_all_messages lp fuel (m.freeMsg p)

/-- What the environment decides in one iteration of the worker loop: the value
of `time(NULL)` and whether `mtx_trylock(&logger->mutex)` succeeds. -/
structure WorkerEnv where
  current_time : Int
  trylock_ok : Bool
deriving DecidableEq, Repr

/-- The value of an expression of type `time_t`, a 64-bit two's complement
integer: a result outside the range wraps around, as the machine arithmetic
does. -/
def time_t_wrap (x : Int) : Int :=
  (x + 2 ^ 63) % 2 ^ 64 - 2 ^ 63

/-- The expression `current_time * 1000 - logger->last_flush_time * 1000` of line
47, computed in `time_t`. -/
def elapsed_ms (current_time last_flush_time : Int) : Int :=
  time_t_wrap (time_t_wrap (current_time * 1000) - time_t_wrap (last_flush_time * 1000))

/-- The auto-flush part of a worker iteration, lines 45-55. -/
def worker_auto_flush (fuel : Nat) (lp : Ptr) (env : WorkerEnv) (m : Mem) : Option Mem := do
  let L ← m.loggers lp
  if L.auto_flush && decide (L.flush_interval_ms > 0) then
    if elapsed_ms env.current_time L.last_flush_time ≥ L.flush_interval_ms then
      if env.trylock_ok then
        let m := m.emit (.trylock .engine true)
        let m ← process_all_messages lp fuel m
        let L ← m.loggers lp
        let m := m.setLogger lp { L with last_flush_time := env.current_time }
        some (m.emit (.unlock .engine))
      else
        some (m.emit (.trylock .engine false))
    else some m
  else some m

/-- The single-message part of a worker iteration, lines 57-83: pop one node
under the queue lock; dispatch it under the engine lock and free it, or yield
when there was none. -/
def worker_single_step (lp : Ptr) (m : Mem) : Option Mem := do
  let (msg, m) ← pop_message lp m
  match msg with
  | some p =>
    let m := m.emit (.lock .engine)
    let L ← m.loggers lp
    let m ← dispatch_queued lp p L.sink_count 0 m
    let m := m.emit (.unlock .engine)
    some (m.freeMsg p)
  | none => some (m.emit .thrd_yield)

/-- One iteration of the loop of `worker_thread_func`, lines 42-83: the auto-flush
part, then the single-message part. -/
def worker_iteration (fuel : Nat) (lp : Ptr) (env : WorkerEnv) (m : Mem) : Option Mem := do
  let m ← worker_auto_flush fuel lp env m
  worker_single_step lp m

/-- The function `worker_thread_func`: iterate while `running || queue_head`.
One `WorkerEnv` is consumed per iteration; the result is `none` when the list is
used up before the loop condition turns false. -/
def worker_thread_func (fuel : Nat) (lp : Ptr) : List WorkerEnv → Mem → Option Mem
  | [], m => do
    let L ← m.loggers lp
    if L.running || L.queue_head.isSome then none else some m
  | env :: envs, m => do
    let L ← m.loggers lp
    if L.running || L.queue_head.isSome then
      let m ← worker_iteration fuel lp env m
      worker_thread_func fuel lp envs m
    else some m

/-- The function `logger_create`.  `alloc` is the result of `malloc` (`none` for
`NULL`), `junk` the content of the uninitialised array `sinks`, `now` the value
of `time(NULL)`.  Returns the handle, `NULL` when the allocation failed. -/
def logger_create (MAX_SINKS : Nat) (config : LogConfig) (alloc : Option Ptr)
    (junk : Nat → Option Ptr) (now : Int) (m : Mem) : Option Ptr × Mem :=
  match alloc with
  | none => (none, m)
  | some lp =>
    let L : Logger :=
      { running := true
        name := config.logger_name
        async := config.async
        sink_count := 0
        sinks := (List.range MAX_SINKS).map junk
        queue_head := none
        queue_tail := none
        auto_flush := config.auto_flush
        flush_interval_ms := config.flush_interval_ms
        last_flush_time := now
        format := none }
    let m := (m.setLogger lp L).emit (.mtx_init .engine)
    let m := if L.async then (m.emit (.mtx_init .queue)).emit .thrd_create else m
    (some lp, m.setLogger lp { L with format := config.format })

/-- The teardown loop of `logger_destroy`, lines 127-131.  The first argument
counts the iterations left, the second is `i`. -/
def teardown_sinks (lp : Ptr) : Nat → Nat → Mem → Option Mem
  | 0, _, m => some m
  | k + 1, i, m => do
    let L ← m.loggers lp
    let sp ← (L.sinks[i]?).join
    let s ← m.sinks sp
    match s.destroy with
    | some fn => teardown_sinks lp k (i + 1) (m.emit (.teardown i sp fn))
    | none => teardown_sinks lp k (i + 1) m

/-- The function `logger_destroy`.  `thrd_join` waits for the worker, which runs
its loop to the exit; `envs` are the inputs of the iterations it still makes. -/
def logger_destroy (fuel : Nat) (logger : Option Ptr) (envs : List WorkerEnv) (m : Mem) :
    Option Mem :=
  match logger with
  | none => some m
  | some lp => do
    let L ← m.loggers lp
    let m := m.setLogger lp { L with running := false }
    let m ← if L.async then do
        let m ← worker_thread_func fuel lp envs m
        some ((m.emit .thrd_join).emit (.mtx_destroy .queue))
      else some m
    let m := m.emit (.mtx_destroy .engine)
    let L ← m.loggers lp
    let m ← teardown_sinks lp L.sink_count 0 m
    some (m.freeLogger lp)

/-- The function `logger_add_sink`.  Its C return type is `void`. -/
def logger_add_sink (MAX_SINKS : Nat) (logger sink : Option Ptr) (m : Mem) : Option Mem :=
  match logger, sink with
  | some lp, some sp => do
    let L ← m.loggers lp
    if L.sink_count ≥ MAX_SINKS then some m
    else
      let m := m.emit (.lock .engine)
      if L.sink_count < L.sinks.length then
        let m := m.setLogger lp
          { L with sinks := L.sinks.set L.sink_count (some sp), sink_count := L.sink_count + 1 }
        let s ← m.sinks sp
        let m := m.setSink sp { s with logger := some lp }
        let s ← m.sinks sp
        let m := m.setSink sp { s with config := { s.config with format := none } }
        some (m.emit (.unlock .engine))
      else none
  | _, _ => some m

/-- The node `logger_log` fills in, lines 152-161: level, location, time stamp, a
null `next`, and the formatted text cut to the buffer. -/
def new_message (MSG_SIZE : Nat) (level : LogLevel) (file : String) (line : Int) (now : Int)
    (text : List Char) : LogMessage :=
  { level := level
    file := file
    line := line
    time := now
    next := none
    message := vsnprintf MSG_SIZE text }

/-- The function `logger_log`.  `fmt` is `none` for a null format and otherwise
the expansion of the format with the variadic arguments; `alloc` is the result
of `malloc`, `now` the value of `time(NULL)`; `MSG_SIZE` is
`sizeof(msg->message)`. -/
def logger_log (MSG_SIZE : Nat) (logger : Option Ptr) (level : LogLevel) (file : String)
    (line : Int) (fmt : Option (List Char)) (alloc : Option Ptr) (now : Int) (m : Mem) :
    Option Mem :=
  match logger, fmt with
  | some lp, some text =>
    match alloc with
    | none => some m
    | some p => do
      let m := m.setMsg p (new_message MSG_SIZE level file line now text)
      let L ← m.loggers lp
      if L.async then
        let m := m.emit (.lock .queue)
        let m ← match L.queue_tail with
          | none => some (m.setLogger lp { L with queue_head := some p })
          | some t => do
            let tn ← m.msgs t
            some (m.setMsg t { tn with next := some p })
        let L ← m.loggers lp
        let m := m.setLogger lp { L with queue_tail := some p }
        some ((m.emit (.enqueue p)).emit (.unlock .queue))
      else
        let m := m.emit (.lock .engine)
        let m ← dispatch_sync lp p level L.sink_count 0 m
        let m := m.emit (.unlock .engine)
        some (m.freeMsg p)
  | _, _ => some m

/-- The function `logger_flush`. -/
def logger_flush (fuel : Nat) (logger : Option Ptr) (m : Mem) : Option Mem :=
  match logger with
  | none => some m
  | some lp => do
    let L ← m.loggers lp
    if !L.async then some m
    else
      let m := m.emit (.lock .engine)
      let m ← process_all_messages lp fuel m
      some (m.emit (.unlock .engine))

/-- The sink callbacks in a trace: its `write` events. -/
def writes (t : List Event) : List Event :=
  t.filter fun e => match e with
    | .write _ _ _ _ _ _ => true
    | _ => false

/-- The sink teardowns in a trace: its `teardown` events. -/
def teardowns (t : List Event) : List Event :=
  t.filter fun e => match e with
    | .teardown _ _ _ => true
    | _ => false

/-- The sink handles `ss`, each with the object it points to, fill the slots
`i, i+1, ...` of the array `arr`. -/
def SinksFrom (sinks : Ptr → Option LogSink) (arr : List (Option Ptr)) :
    Nat → List (Ptr × LogSink) → Prop
  | _, [] => True
  | i, (sp, s) :: rest =>
    arr[i]? = some (some sp) ∧ sinks sp = some s ∧ SinksFrom sinks arr (i + 1) rest

/-- The registered sinks of `L` are exactly `ss`, in slot order. -/
def Registered (m : Mem) (L : Logger) (ss : List (Ptr × LogSink)) : Prop :=
  ss.length = L.sink_count ∧ SinksFrom m.sinks L.sinks 0 ss

/-- The linked list starting at `head` consists of the nodes `q` (address and
content), in order, and ends with a null `next`. -/
def Chain (msgs : Ptr → Option LogMessage) : Option Ptr → List (Ptr × LogMessage) → Prop
  | h, [] => h = none
  | h, (p, n) :: rest => h = some p ∧ msgs p = some n ∧ Chain msgs n.next rest

/-- The queue of `L` holds exactly the nodes `q`: `queue_head` starts the chain
and `queue_tail` is its last node (null when the queue is empty). -/
def Queue (m : Mem) (L : Logger) (q : List (Ptr × LogMessage)) : Prop :=
  Chain m.msgs L.queue_head q ∧ L.queue_tail = (q.getLast?).map Prod.fst

/-- The `write` events of one fan-out of the message at `msg` with content `body`,
compared at `level`, over the sinks `ss` that occupy the slots from `i` on: the
sinks whose `min_level` is met, in slot order. -/
def fan_out (ss : List (Ptr × LogSink)) (i : Nat) (msg : Ptr) (body : LogMessage)
    (level : LogLevel) : List Event :=
  ((ss.enumFrom i).filter fun x => decide (x.2.2.config.min_level ≤ level)).map
    fun x => Event.write x.1 x.2.1 x.2.2.config.write_fn msg body x.2.2.user_data

/-- The events of one run of `process_all_messages` over a queue holding the
nodes `q`, with registered sinks `ss`: per node the pop and its fan-out, then the
pop that finds the queue empty. -/
def drain_events (ss : List (Ptr × LogSink)) : List (Ptr × LogMessage) → List Event
  | [] => [.lock .queue, .unlock .queue]
  | (p, n) :: rest =>
    [.lock .queue, .dequeue p, .unlock .queue] ++ fan_out ss 0 p n n.level ++
      drain_events ss rest

/-- The message heap after the nodes `q` have been released. -/
def release (msgs : Ptr → Option LogMessage) (q : List (Ptr × LogMessage)) :
    Ptr → Option LogMessage :=
  fun a => if a ∈ q.map Prod.fst then none else msgs a

/-- The logger `L` with an empty queue. -/
def Logger.emptied (L : Logger) : Logger :=
  { L with queue_head := none, queue_tail := none }

/-- One call on the logger at a fixed address: a registration, a log call, a
flush, or one iteration of the worker loop, each with the inputs the environment
supplies. -/
inductive Op where
  | add_sink (sink : Option Ptr)
  | log (level : LogLevel) (file : String) (line : Int) (fmt : Option (List Char))
      (alloc : Option Ptr) (now : Int)
  | flush (fuel : Nat)
  | worker (fuel : Nat) (env : WorkerEnv)

/-- The effect of one call on the logger at `lp`. -/
def Op.apply (MAX_SINKS MSG_SIZE : Nat) (lp : Ptr) : Op → Mem → Option Mem
  | .add_sink sink, m => logger_add_sink MAX_SINKS (some lp) sink m
  | .log level file line fmt alloc now, m =>
    logger_log MSG_SIZE (some lp) level file line fmt alloc now m
  | .flush fuel, m => logger_flush fuel (some lp) m
  | .worker fuel env, m => worker_iteration fuel lp env m

/-- The effect of a sequence of calls on the logger at `lp`. -/
def run (MAX_SINKS MSG_SIZE : Nat) (lp : Ptr) : List Op → Mem → Option Mem
  | [], m => some m
  | op :: ops, m => (op.apply MAX_SINKS MSG_SIZE lp m).bind (run MAX_SINKS MSG_SIZE lp ops)

/-- The part of the logger at `lp` that the fan-out reads: `sink_count` and the
array `sinks`. -/
def sink_view (lp : Ptr) (m : Mem) : Option (Nat × List (Option Ptr)) :=
  (m.loggers lp).map fun L => (L.sink_count, L.sinks)

/-- A `write` event is admissible when its slot is in use, holds the handle the
event names, and the message meets the threshold of that handle; the callback
and the context are those of the handle.  Other events are always admissible. -/
def Event.admissible (view : Option (Nat × List (Option Ptr)))
    (sinks : Ptr → Option LogSink) : Event → Prop
  | .write slot sp fn _ body ud =>
    ∃ n arr s, view = some (n, arr) ∧ slot < n ∧ arr[slot]? = some (some sp) ∧
      sinks sp = some s ∧ s.config.min_level ≤ body.level ∧
      fn = s.config.write_fn ∧ ud = s.user_data
  | _ => True

/-- A step from `m` to `m2` that leaves the sink handles and the sink list alone
and adds only admissible events. -/
def Quiet (lp : Ptr) (m m2 : Mem) : Prop :=
  m2.sinks = m.sinks ∧ sink_view lp m2 = sink_view lp m ∧
    ∃ evs, m2.trace = m.trace ++ evs ∧ ∀ e ∈ evs, e.admissible (sink_view lp m) m.sinks

/-- Every event of the trace is admissible in the current memory. -/
def TraceOk (lp : Ptr) (m : Mem) : Prop :=
  ∀ e ∈ m.trace, e.admissible (sink_view lp m) m.sinks

/-- A sink handle with threshold 1 (Debug), a teardown function and a format. -/
def demo_sink_debug : LogSink :=
  { config := { min_level := 1, write_fn := 7, format := some 90 }
    logger := none
    destroy := some 8
    user_data := 41 }

/-- A sink handle with threshold 3 (Warn) and no teardown function. -/
def demo_sink_warn : LogSink :=
  { config := { min_level := 3, write_fn := 7, format := none }
    logger := none
    destroy := none
    user_data := 42 }

/-- A sink handle with threshold 4 (Error). -/
def demo_sink_error : LogSink :=
  { config := { min_level := 4, write_fn := 9, format := none }
    logger := none
    destroy := some 8
    user_data := 43 }

/-- A memory before any logger exists: three sink handles at the addresses 50, 51
and 52, no logger, no message, no event. -/
def demo_start : Mem :=
  { loggers := fun _ => none
    sinks := fun p =>
      if p = 50 then some demo_sink_debug
      else if p = 51 then some demo_sink_error
      else if p = 52 then some demo_sink_warn
      else none
    msgs := fun _ => none
    trace := [] }

/-- The configuration of an async logger without auto-flush. -/
def demo_config_async : LogConfig :=
  { logger_name := "demo", async := true, auto_flush := false, flush_interval_ms := 0,
    format := none }

/-- The configuration of a sync logger. -/
def demo_config_sync : LogConfig :=
  { logger_name := "demo", async := false, auto_flush := false, flush_interval_ms := 0,
    format := none }

/-- The scenario of the specification on an async logger at address 1 with one
sink at Warn: log (Info, "a"), (Error, "b"), (Warn, "c"), flush, and one
iteration of the worker. -/
def demo_ops : List Op :=
  [ .add_sink (some 52),
    .log 2 "main.c" 10 (some ['a']) (some 10) 1000,
    .log 4 "main.c" 11 (some ['b']) (some 11) 1000,
    .log 3 "main.c" 12 (some ['c']) (some 12) 1001,
    .flush 8,
    .log 5 "main.c" 13 (some ['d']) (some 13) 1002,
    .worker 8 { current_time := 1002, trylock_ok := true } ]

/-- The memory after `demo_ops` on a fresh async logger. -/
def demo_final : Mem :=
  (run 4 16 1 demo_ops
    (logger_create 4 demo_config_async (some 1) (fun _ => none) 999 demo_start).2).getD
    demo_start

/-- A sink handle after a successful `logger_add_sink` on the logger at `lp`: the
back-reference is set and `config.format` is null. -/
def LogSink.registered (lp : Ptr) (s : LogSink) : LogSink :=
  { { s with logger := some lp } with config := { s.config with format := none } }

/-- A sync logger at address 1 with the sinks 50 (Debug) and 51 (Error), as
`logger_create` and two registrations leave it. -/
def demo_sync : Mem :=
  (run 4 16 1 [.add_sink (some 50), .add_sink (some 51)]
    (logger_create 4 demo_config_sync (some 1) (fun _ => none) 999 demo_start).2).getD
    demo_start

/-- The logger object of `demo_sync`. -/
def demo_sync_logger : Logger :=
  { running := true
    name := "demo"
    async := false
    sink_count := 2
    sinks := [some 50, some 51, none, none]
    queue_head := none
    queue_tail := none
    auto_flush := false
    flush_interval_ms := 0
    last_flush_time := 999
    format := none }

/-- The registered sinks of `demo_sync`. -/
def demo_sync_sinks : List (Ptr × LogSink) :=
  [(50, demo_sink_debug.registered 1), (51, demo_sink_error.registered 1)]

/-- The queue `q` after the node `n` at address `p` is linked behind its last
node: the `next` link of the old last node now holds `p`. -/
def append_node : List (Ptr × LogMessage) → Ptr → LogMessage → List (Ptr × LogMessage)
  | [], p, n => [(p, n)]
  | [(t, tn)], p, n => [(t, { tn with next := some p }), (p, n)]
  | x :: y :: rest, p, n => x :: append_node (y :: rest) p n

/-- The message heap after `logger_log` has stored the node `n` at `p` and linked
it behind the last node of `q`. -/
def link_node (msgs : Ptr → Option LogMessage) (q : List (Ptr × LogMessage)) (p : Ptr)
    (n : LogMessage) : Ptr → Option LogMessage :=
  match q.getLast? with
  | none => fun a => if a = p then some n else msgs a
  | some (t, tn) => fun a =>
    if a = t then some { tn with next := some p } else if a = p then some n else msgs a

/-- A node without its `next` link. -/
def LogMessage.unlinked (n : LogMessage) : LogMessage :=
  { n with next := none }

/-- The logger after `logger_log` has linked the node at `p` into its queue:
`queue_tail` is `p`, and so is `queue_head` when the queue was empty. -/
def Logger.linked (L : Logger) (p : Ptr) : Logger :=
  { L with
    queue_head := if L.queue_tail = none then some p else L.queue_head
    queue_tail := some p }

/-- The `write` events of delivering the nodes `q`, one after the other, to the
registered sinks `ss`: message-major in queue order, sink-minor in slot order. -/
def deliveries (ss : List (Ptr × LogSink)) : List (Ptr × LogMessage) → List Event
  | [] => []
  | (p, n) :: rest => fan_out ss 0 p n n.level ++ deliveries ss rest

/-- A monitor on traces: every `write` of the message at address `a` comes after a
`dequeue a` that no `enqueue a` has followed.  `seen` holds the addresses that
are dequeued at the start. -/
def dequeued_first : List Ptr → List Event → Bool
  | _, [] => true
  | seen, .dequeue a :: t => dequeued_first (a :: seen) t
  | seen, .enqueue a :: t => dequeued_first (seen.filter fun b => b ≠ a) t
  | seen, .write _ _ _ a _ _ :: t => decide (a ∈ seen) && dequeued_first seen t
  | seen, .lock _ :: t => dequeued_first seen t
  | seen, .trylock _ _ :: t => dequeued_first seen t
  | seen, .unlock _ :: t => dequeued_first seen t
  | seen, .mtx_init _ :: t => dequeued_first seen t
  | seen, .mtx_destroy _ :: t => dequeued_first seen t
  | seen, .thrd_create :: t => dequeued_first seen t
  | seen, .thrd_join :: t => dequeued_first seen t
  | seen, .thrd_yield :: t => dequeued_first seen t
  | seen, .teardown _ _ _ :: t => dequeued_first seen t

/-- The fields of a logger other than the queue pointers and `last_flush_time`. -/
def Logger.settings (L : Logger) :
    Bool × String × Bool × Nat × List (Option Ptr) × Bool × Int × Option Ptr :=
  (L.running, L.name, L.async, L.sink_count, L.sinks, L.auto_flush, L.flush_interval_ms,
    L.format)

/-- The step from `m` to `m2` has delivered the nodes `d` to the sinks `ss` and
released them: the sink handles and the other loggers are untouched, the logger
at `lp` keeps its settings, the new `write` events are the deliveries of `d`,
there is no `teardown`, and every new `write` comes after the `dequeue` of its
message. -/
def Drained (lp : Ptr) (ss : List (Ptr × LogSink)) (m m2 : Mem)
    (d : List (Ptr × LogMessage)) : Prop :=
  m2.sinks = m.sinks ∧ m2.msgs = release m.msgs d ∧
    (∀ a, a ≠ lp → m2.loggers a = m.loggers a) ∧
    (∃ L L2, m.loggers lp = some L ∧ m2.loggers lp = some L2 ∧ L2.settings = L.settings) ∧
    ∃ evs, m2.trace = m.trace ++ evs ∧ writes evs = deliveries ss d ∧ teardowns evs = [] ∧
      ∀ seen, dequeued_first seen evs = true

/-- The logger at `lp` is live, its registered sinks are `ss` and its queue holds
the nodes `q`. -/
def Ready (lp : Ptr) (ss : List (Ptr × LogSink)) (m : Mem) (q : List (Ptr × LogMessage)) :
    Prop :=
  ∃ L, m.loggers lp = some L ∧ Registered m L ss ∧ Queue m L q

/-- The `teardown` events of the loop of `logger_destroy` over the sinks `ss` that
occupy the slots from `i` on: one per handle with a non-null `destroy`. -/
def teardown_events (ss : List (Ptr × LogSink)) (i : Nat) : List Event :=
  (ss.enumFrom i).filterMap fun x => x.2.2.destroy.map fun fn => Event.teardown x.1 x.2.1 fn

/-- The configuration of an async logger with auto-flush every 1000 ms. -/
def demo_config_flush : LogConfig :=
  { logger_name := "demo", async := true, auto_flush := true, flush_interval_ms := 1000,
    format := none }

/-- An async logger at address 1 with the sinks 52 (Warn) and 51 (Error) and
three queued messages: (Info, "a"), (Error, "b"), (Warn, "c"). -/
def demo_queued : Mem :=
  (run 4 16 1
    [ .add_sink (some 52), .add_sink (some 51),
      .log 2 "main.c" 10 (some ['a']) (some 10) 1000,
      .log 4 "main.c" 11 (some ['b']) (some 11) 1000,
      .log 3 "main.c" 12 (some ['c']) (some 12) 1001 ]
    (logger_create 4 demo_config_flush (some 1) (fun _ => none) 999 demo_start).2).getD
    demo_start

/-- The logger object of `demo_queued`. -/
def demo_queued_logger : Logger :=
  { running := true
    name := "demo"
    async := true
    sink_count := 2
    sinks := [some 52, some 51, none, none]
    queue_head := some 10
    queue_tail := some 12
    auto_flush := true
    flush_interval_ms := 1000
    last_flush_time := 999
    format := none }

/-- The registered sinks of `demo_queued`. -/
def demo_queued_sinks : List (Ptr × LogSink) :=
  [(52, demo_sink_warn.registered 1), (51, demo_sink_error.registered 1)]

/-- The queue of `demo_queued`. -/
def demo_queue : List (Ptr × LogMessage) :=
  [ (10, { new_message 16 2 "main.c" 10 1000 ['a'] with next := some 11 }),
    (11, { new_message 16 4 "main.c" 11 1000 ['b'] with next := some 12 }),
    (12, new_message 16 3 "main.c" 12 1001 ['c']) ]

/-- Inputs of three worker iterations: no flush due, a flush due with the engine
lock free, a flush due with the engine lock taken. -/
def demo_envs : List WorkerEnv :=
  [ { current_time := 999, trylock_ok := true },
    { current_time := 1000, trylock_ok := true },
    { current_time := 1003, trylock_ok := false } ]

/-- The inputs of one `logger_log` call with a non-null format whose allocation
succeeds: level, location, expansion of the format, the address `malloc`
returns and the value of `time(NULL)`. -/
structure LogCall where
  level : LogLevel
  file : String
  line : Int
  text : List Char
  addr : Ptr
  now : Int
deriving DecidableEq, Repr

/-- The node the call fills in. -/
def LogCall.node (MSG_SIZE : Nat) (c : LogCall) : LogMessage :=
  new_message MSG_SIZE c.level c.file c.line c.now c.text

/-- The call, on the logger at `lp`. -/
def LogCall.apply (MSG_SIZE : Nat) (lp : Ptr) (c : LogCall) (m : Mem) : Option Mem :=
  logger_log MSG_SIZE (some lp) c.level c.file c.line (some c.text) (some c.addr) c.now m

/-- A sequence of `logger_log` calls on the logger at `lp`. -/
def log_all (MSG_SIZE : Nat) (lp : Ptr) : List LogCall → Mem → Option Mem
  | [], m => some m
  | c :: cs, m => (c.apply MSG_SIZE lp m).bind (log_all MSG_SIZE lp cs)

/-- The queue that holds the nodes of the calls `cs` in call order: the `next`
link of each node is the address of the node of the following call. -/
def enqueued (MSG_SIZE : Nat) : List LogCall → List (Ptr × LogMessage)
  | [] => []
  | c :: cs =>
    (c.addr, { c.node MSG_SIZE with next := (cs.head?).map fun c2 => c2.addr }) ::
      enqueued MSG_SIZE cs

/-- The `write` events of a trace that went to the sink in slot `i`. -/
def writes_to (i : Nat) (t : List Event) : List Event :=
  t.filter fun e => match e with
    | .write slot _ _ _ _ _ => slot == i
    | _ => false

/-- The C string in a buffer: the bytes before the first NUL. -/
def c_string (bytes : List Char) : List Char :=
  bytes.takeWhile fun ch => ch ≠ Char.ofNat 0

/-- The text a `write` event hands to the sink. -/
def Event.text : Event → List Char
  | .write _ _ _ _ body _ => c_string body.message
  | _ => []

/-- An async logger at address 1 with the single sink 52 (Warn) and an empty
queue. -/
def demo_async : Mem :=
  (run 4 16 1 [.add_sink (some 52)]
    (logger_create 4 demo_config_async (some 1) (fun _ => none) 999 demo_start).2).getD
    demo_start

/-- The logger object of `demo_async`. -/
def demo_async_logger : Logger :=
  { running := true
    name := "demo"
    async := true
    sink_count := 1
    sinks := [some 52, none, none, none]
    queue_head := none
    queue_tail := none
    auto_flush := false
    flush_interval_ms := 0
    last_flush_time := 999
    format := none }

/-- The registered sinks of `demo_async`. -/
def demo_async_sinks : List (Ptr × LogSink) :=
  [(52, demo_sink_warn.registered 1)]

/-- The three calls of the scenario: (Info, "a"), (Error, "b"), (Warn, "c"). -/
def demo_calls : List LogCall :=
  [ { level := 2, file := "main.c", line := 10, text := ['a'], addr := 10, now := 1000 },
    { level := 4, file := "main.c", line := 11, text := ['b'], addr := 11, now := 1000 },
    { level := 3, file := "main.c", line := 12, text := ['c'], addr := 12, now := 1001 } ]

/-- The state of a memory and its delivery trace: the three heaps and the `write`
events so far. -/
def Mem.observable (m : Mem) :
    (Ptr → Option Logger) × (Ptr → Option LogSink) × (Ptr → Option LogMessage) × List Event :=
  (m.loggers, m.sinks, m.msgs, writes m.trace)

/-- The logger after `logger_add_sink` has stored the handle `sp`: the handle is
in slot `sink_count`, and `sink_count` is one more. -/
def Logger.with_sink (L : Logger) (sp : Ptr) : Logger :=
  { L with sinks := L.sinks.set L.sink_count (some sp), sink_count := L.sink_count + 1 }

/-- What the caller of `logger_add_sink` gets back: the function is declared
`void`, so the call yields no value, only the memory after it. -/
def logger_add_sink_call (MAX_SINKS : Nat) (logger sink : Option Ptr) (m : Mem) :
    Option (Unit × Mem) :=
  (logger_add_sink MAX_SINKS logger sink m).map fun m2 => ((), m2)

/-- A sequence of `logger_add_sink` calls on the logger at `lp`. -/
def register_all (MAX_SINKS : Nat) (lp : Ptr) : List Ptr → Mem → Option Mem
  | [], m => some m
  | h :: hs, m => (logger_add_sink MAX_SINKS (some lp) (some h) m).bind
      (register_all MAX_SINKS lp hs)

/-- A sync logger at address 1 created with `MAX_SINKS = 2` and filled with the
sinks 50 (Debug) and 51 (Error). -/
def demo_full : Mem :=
  (register_all 2 1 [50, 51]
    (logger_create 2 demo_config_sync (some 1) (fun _ => none) 999 demo_start).2).getD
    demo_start

/-- The logger object of `demo_full`. -/
def demo_full_logger : Logger :=
  { running := true
    name := "demo"
    async := false
    sink_count := 2
    sinks := [some 50, some 51]
    queue_head := none
    queue_tail := none
    auto_flush := false
    flush_interval_ms := 0
    last_flush_time := 999
    format := none }

/-- A sync logger at address 1 created with `MAX_SINKS = 2` that holds the single
sink 50 (Debug). -/
def demo_half : Mem :=
  (register_all 2 1 [50]
    (logger_create 2 demo_config_sync (some 1) (fun _ => none) 999 demo_start).2).getD
    demo_start

/-- The logger object of `demo_half`. -/
def demo_half_logger : Logger :=
  { running := true
    name := "demo"
    async := false
    sink_count := 1
    sinks := [some 50, none]
    queue_head := none
    queue_tail := none
    auto_flush := false
    flush_interval_ms := 0
    last_flush_time := 999
    format := none }

/-- A memory right after `logger_create` with `MAX_SINKS = 2` in sync mode: the
logger at address 1 has no sink yet. -/
def demo_fresh : Mem :=
  (logger_create 2 demo_config_sync (some 1) (fun _ => none) 999 demo_start).2

/-- The logger object of `demo_fresh`. -/
def demo_fresh_logger : Logger :=
  { running := true
    name := "demo"
    async := false
    sink_count := 0
    sinks := [none, none]
    queue_head := none
    queue_tail := none
    auto_flush := false
    flush_interval_ms := 0
    last_flush_time := 999
    format := none }

/-- A text of five characters, more than a buffer of size 4 can hold. -/
def demo_long_text : List Char :=
  ['h', 'e', 'l', 'l', 'o']

/-- The address a call takes from `malloc` is free in the message heap (or the
call takes none). -/
def Op.fresh (m : Mem) : Op → Bool
  | .log _ _ _ (some _) (some p) _ => (m.msgs p).isNone
  | _ => true

/-- The effect of a sequence of calls in which `malloc` only hands out free
addresses; `none` also when it does not. -/
def run_fresh (MAX_SINKS MSG_SIZE : Nat) (lp : Ptr) : List Op → Mem → Option Mem
  | [], m => some m
  | op :: ops, m =>
    if op.fresh m then
      (op.apply MAX_SINKS MSG_SIZE lp m).bind (run_fresh MAX_SINKS MSG_SIZE lp ops)
    else none

/-- The logger at `lp` is live and its queue is a well-formed list. -/
def QueueOk (lp : Ptr) (m : Mem) : Prop :=
  ∃ L q, m.loggers lp = some L ∧ Queue m L q

/-- The logger after an auto-flush at time `t`: the queue is empty and
`last_flush_time` is `t`. -/
def Logger.flushed (L : Logger) (t : Int) : Logger :=
  { L.emptied with last_flush_time := t }

/-- The configuration of an async logger with auto-flush enabled and an interval
of 0 ms. -/
def demo_config_zero : LogConfig :=
  { logger_name := "demo", async := true, auto_flush := true, flush_interval_ms := 0,
    format := none }

/-- An async logger at address 1 with auto-flush enabled and interval 0, the sinks
52 (Warn) and 51 (Error) and three queued messages. -/
def demo_zero : Mem :=
  (run 4 16 1
    [ .add_sink (some 52), .add_sink (some 51),
      .log 2 "main.c" 10 (some ['a']) (some 10) 1000,
      .log 4 "main.c" 11 (some ['b']) (some 11) 1000,
      .log 3 "main.c" 12 (some ['c']) (some 12) 1001 ]
    (logger_create 4 demo_config_zero (some 1) (fun _ => none) 999 demo_start).2).getD
    demo_start

/-- The logger object of `demo_zero`. -/
def demo_zero_logger : Logger :=
  { running := true
    name := "demo"
    async := true
    sink_count := 2
    sinks := [some 52, some 51, none, none]
    queue_head := some 10
    queue_tail := some 12
    auto_flush := true
    flush_interval_ms := 0
    last_flush_time := 999
    format := none }

/-- A worker iteration at clock value 1005 with the engine lock free. -/
def demo_env_late : WorkerEnv :=
  { current_time := 1005, trylock_ok := true }


/-- The logger object of `demo_queued` after `running` was cleared. -/
def demo_stopping_logger : Logger :=
  { demo_queued_logger with running := false }

/-- The state `demo_queued` after `running` was cleared, as `logger_destroy`
does before it joins the worker. -/
def demo_stopping : Mem :=
  demo_queued.setLogger 1 demo_stopping_logger

/-- One event against the locks the executing thread holds, as the pair (engine
lock held, queue lock held).  The result is `none` when the event breaks the
discipline: a lock is acquired that is already held or released that is not
held, the engine lock is acquired while the queue lock is held, or, unless
`nested` is set, the queue lock is acquired while the engine lock is held. -/
def lock_step (nested : Bool) : Bool × Bool → Event → Option (Bool × Bool)
  | (e, q), .lock .engine => if e || q then none else some (true, q)
  | (e, q), .trylock .engine ok =>
    if ok then (if e || q then none else some (true, q)) else some (e, q)
  | (e, q), .unlock .engine => if e then some (false, q) else none
  | (e, q), .lock .queue => if q || (e && !nested) then none else some (e, true)
  | (e, q), .trylock .queue ok =>
    if ok then (if q || (e && !nested) then none else some (e, true)) else some (e, q)
  | (e, q), .unlock .queue => if q then some (e, false) else none
  | h, _ => some h

/-- Run `lock_step` over a list of events. -/
def lock_run (nested : Bool) : Bool × Bool → List Event → Option (Bool × Bool)
  | h, [] => some h
  | h, e :: t => (lock_step nested h e).bind fun h2 => lock_run nested h2 t

/-- The step from `m` to `m2` adds events that keep the lock discipline and take
the held locks from `h` to `h2`. -/
def Locked (nested : Bool) (h h2 : Bool × Bool) (m m2 : Mem) : Prop :=
  ∃ evs, m2.trace = m.trace ++ evs ∧ lock_run nested h evs = some h2

/-- What a `write` event passes to the sink, apart from the address of the node
and its `next` link: the slot, the handle, the callback, what `logger_log`
stored in the node, and the context. -/
def Event.invocation : Event → Option (Nat × Ptr × Nat × LogMessage × Nat)
  | .write slot sp fn _ body ud => some (slot, sp, fn, body.unlinked, ud)
  | _ => none

/-- The (sink, message) invocations in a list of events. -/
def invocations (t : List Event) : List (Nat × Ptr × Nat × LogMessage × Nat) :=
  t.filterMap Event.invocation

/-- The invocations for one message with content `n` over the sinks `ss`: the
sinks whose `min_level` is met, in slot order. -/
def invoked (ss : List (Ptr × LogSink)) (n : LogMessage) :
    List (Nat × Ptr × Nat × LogMessage × Nat) :=
  ((ss.enumFrom 0).filter fun x => decide (x.2.2.config.min_level ≤ n.level)).map
    fun x => (x.1, x.2.1, x.2.2.config.write_fn, n, x.2.2.user_data)

/-- The invocations for the messages `ns` over the sinks `ss`: message-major in
the order of `ns`, sink-minor in slot order. -/
def invoked_all (ss : List (Ptr × LogSink)) : List LogMessage →
    List (Nat × Ptr × Nat × LogMessage × Nat)
  | [] => []
  | n :: ns => invoked ss n ++ invoked_all ss ns

/-- Single-message steps of the worker, repeated until `queue_head` is null; the
result is `none` when `k` steps do not empty the queue. -/
def single_steps (lp : Ptr) : Nat → Mem → Option Mem
  | 0, m => do
    let L ← m.loggers lp
    if L.queue_head.isSome then none else some m
  | k + 1, m => do
    let L ← m.loggers lp
    if L.queue_head.isSome then (worker_single_step lp m).bind (single_steps lp k) else some m

/-- An async logger at address 1 with the sinks 50 (Debug) and 51 (Error) and an
empty queue: the sink list of `demo_sync`. -/
def demo_async_two : Mem :=
  (run 4 16 1 [.add_sink (some 50), .add_sink (some 51)]
    (logger_create 4 demo_config_async (some 1) (fun _ => none) 999 demo_start).2).getD
    demo_start

/-- The logger object of `demo_async_two`. -/
def demo_async_two_logger : Logger :=
  { demo_sync_logger with async := true }

/-- The integer `x` is a value of `time_t`: it fits in 64 bits, sign included. -/
def time_t_fits (x : Int) : Prop :=
  -(2 ^ 63) ≤ x ∧ x < 2 ^ 63

/-- A clock value so large that the milliseconds elapsed since 999 do not fit in
`time_t`. -/
def demo_env_overflow : WorkerEnv :=
  { current_time := 9223372036855777, trylock_ok := true }

/-- The three calls of `demo_calls` as a sync logger may see them: `malloc` hands
out the address 10 again after each `free`. -/
def demo_calls_reuse : List LogCall :=
  [ { level := 2, file := "main.c", line := 10, text := ['a'], addr := 10, now := 1000 },
    { level := 4, file := "main.c", line := 11, text := ['b'], addr := 10, now := 1000 },
    { level := 3, file := "main.c", line := 12, text := ['c'], addr := 10, now := 1001 } ]

/-- The `write` events of a trace that called the sink handle `sp`. -/
def writes_of (sp : Ptr) (t : List Event) : List Event :=
  t.filter fun e => match e with
    | .write _ sink _ _ _ _ => sink == sp
    | _ => false

/-- An async logger at address 1 on which the handle 50 (Debug, with a teardown
function) was registered twice: it fills the slots 0 and 1.  The queue is
empty. -/
def demo_twice : Mem :=
  (run 4 16 1 [.add_sink (some 50), .add_sink (some 50)]
    (logger_create 4 demo_config_async (some 1) (fun _ => none) 999 demo_start).2).getD
    demo_start

/-- The state `demo_twice` after the three calls of `demo_calls`: the queue holds
(Info, "a"), (Error, "b"), (Warn, "c"). -/
def demo_twice_queued : Mem :=
  (log_all 16 1 demo_calls demo_twice).getD demo_twice

@[simp] theorem Mem.emit_loggers (m : Mem) (e : Event) : (m.emit e).loggers = m.loggers := rfl
@[simp] theorem Mem.emit_sinks (m : Mem) (e : Event) : (m.emit e).sinks = m.sinks := rfl
@[simp] theorem Mem.emit_msgs (m : Mem) (e : Event) : (m.emit e).msgs = m.msgs := rfl
@[simp] theorem Mem.emit_trace (m : Mem) (e : Event) : (m.emit e).trace = m.trace ++ [e] := rfl

@[simp] theorem Mem.setLogger_sinks (m : Mem) (p : Ptr) (L : Logger) :
    (m.setLogger p L).sinks = m.sinks := rfl
@[simp] theorem Mem.setLogger_msgs (m : Mem) (p : Ptr) (L : Logger) :
    (m.setLogger p L).msgs = m.msgs := rfl
@[simp] theorem Mem.setLogger_trace (m : Mem) (p : Ptr) (L : Logger) :
    (m.setLogger p L).trace = m.trace := rfl
@[simp] theorem Mem.setLogger_loggers (m : Mem) (p : Ptr) (L : Logger) (q : Ptr) :
    (m.setLogger p L).loggers q = if q = p then some L else m.loggers q := rfl
@[simp] theorem Mem.setMsg_sinks (m : Mem) (p : Ptr) (n : LogMessage) :
    (m.setMsg p n).sinks = m.sinks := rfl
@[simp] theorem Mem.setMsg_loggers (m : Mem) (p : Ptr) (n : LogMessage) :
    (m.setMsg p n).loggers = m.loggers := rfl
@[simp] theorem Mem.setMsg_trace (m : Mem) (p : Ptr) (n : LogMessage) :
    (m.setMsg p n).trace = m.trace := rfl
@[simp] theorem Mem.setMsg_msgs (m : Mem) (p : Ptr) (n : LogMessage) (q : Ptr) :
    (m.setMsg p n).msgs q = if q = p then some n else m.msgs q := rfl
@[simp] theorem Mem.freeMsg_sinks (m : Mem) (p : Ptr) : (m.freeMsg p).sinks = m.sinks := rfl
@[simp] theorem Mem.freeMsg_loggers (m : Mem) (p : Ptr) :
    (m.freeMsg p).loggers = m.loggers := rfl
@[simp] theorem Mem.freeMsg_trace (m : Mem) (p : Ptr) : (m.freeMsg p).trace = m.trace := rfl
@[simp] theorem Mem.freeMsg_msgs (m : Mem) (p : Ptr) (q : Ptr) :
    (m.freeMsg p).msgs q = if q = p then none else m.msgs q := rfl
@[simp] theorem Mem.setSink_loggers (m : Mem) (p : Ptr) (s : LogSink) :
    (m.setSink p s).loggers = m.loggers := rfl
@[simp] theorem Mem.setSink_msgs (m : Mem) (p : Ptr) (s : LogSink) :
    (m.setSink p s).msgs = m.msgs := rfl
@[simp] theorem Mem.setSink_trace (m : Mem) (p : Ptr) (s : LogSink) :
    (m.setSink p s).trace = m.trace := rfl
@[simp] theorem Mem.setSink_sinks (m : Mem) (p : Ptr) (s : LogSink) (q : Ptr) :
    (m.setSink p s).sinks q = if q = p then some s else m.sinks q := rfl
@[simp] theorem Mem.freeLogger_sinks (m : Mem) (p : Ptr) :
    (m.freeLogger p).sinks = m.sinks := rfl
@[simp] theorem Mem.freeLogger_msgs (m : Mem) (p : Ptr) : (m.freeLogger p).msgs = m.msgs := rfl
@[simp] theorem Mem.freeLogger_trace (m : Mem) (p : Ptr) :
    (m.freeLogger p).trace = m.trace := rfl
@[simp] theorem Mem.freeLogger_loggers (m : Mem) (p : Ptr) (q : Ptr) :
    (m.freeLogger p).loggers q = if q = p then none else m.loggers q := rfl

theorem fan_out_nil (i : Nat) (msg : Ptr) (body : LogMessage) (level : LogLevel) :
    fan_out [] i msg body level = [] := rfl

theorem fan_out_cons (sp : Ptr) (s : LogSink) (rest : List (Ptr × LogSink)) (i : Nat)
    (msg : Ptr) (body : LogMessage) (level : LogLevel) :
    fan_out ((sp, s) :: rest) i msg body level =
      (if s.config.min_level ≤ level then
        [Event.write i sp s.config.write_fn msg body s.user_data] else []) ++
        fan_out rest (i + 1) msg body level := by
  by_cases h : s.config.min_level ≤ level <;> simp [fan_out, List.enumFrom, List.filter, h]

theorem dispatch_queued_trace (lp msg : Ptr) (L : Logger) (body : LogMessage) :
    ∀ (ss : List (Ptr × LogSink)) (i : Nat) (m : Mem),
      m.loggers lp = some L → m.msgs msg = some body → SinksFrom m.sinks L.sinks i ss →
      dispatch_queued lp msg ss.length i m =
        some { m with trace := m.trace ++ fan_out ss i msg body body.level } := by
  intro ss
  induction ss with
  | nil => intro i m _ _ _; simp [dispatch_queued, fan_out_nil]
  | cons x rest ih =>
    intro i m hL hb hs
    obtain ⟨sp, s⟩ := x
    obtain ⟨h1, h2, h3⟩ := hs
    by_cases hlv : s.config.min_level ≤ body.level
    · have := ih (i + 1) (m.emit (.write i sp s.config.write_fn msg body s.user_data)) hL hb h3
      simp [dispatch_queued, hL, hb, h1, h2, hlv, this, fan_out_cons]
    · simp [dispatch_queued, hL, hb, h1, h2, hlv, ih (i + 1) m hL hb h3, fan_out_cons]

theorem dispatch_sync_trace (lp msg : Ptr) (L : Logger) (body : LogMessage) (level : LogLevel) :
    ∀ (ss : List (Ptr × LogSink)) (i : Nat) (m : Mem),
      m.loggers lp = some L → m.msgs msg = some body → SinksFrom m.sinks L.sinks i ss →
      dispatch_sync lp msg level ss.length i m =
        some { m with trace := m.trace ++ fan_out ss i msg body level } := by
  intro ss
  induction ss with
  | nil => intro i m _ _ _; simp [dispatch_sync, fan_out_nil]
  | cons x rest ih =>
    intro i m hL hb hs
    obtain ⟨sp, s⟩ := x
    obtain ⟨h1, h2, h3⟩ := hs
    by_cases hlv : s.config.min_level ≤ level
    · have := ih (i + 1) (m.emit (.write i sp s.config.write_fn msg body s.user_data)) hL hb h3
      simp [dispatch_sync, hL, hb, h1, h2, hlv, this, fan_out_cons]
    · simp [dispatch_sync, hL, hb, h1, h2, hlv, ih (i + 1) m hL hb h3, fan_out_cons]

theorem Chain.congr_heap {msgs msgs2 : Ptr → Option LogMessage} :
    ∀ (q : List (Ptr × LogMessage)) (h : Option Ptr),
      (∀ a ∈ q.map Prod.fst, msgs2 a = msgs a) → Chain msgs h q → Chain msgs2 h q := by
  intro q
  induction q with
  | nil => intro h _ hc; exact hc
  | cons x rest ih =>
    intro h hsame hc
    obtain ⟨p, n⟩ := x
    obtain ⟨h1, h2, h3⟩ := hc
    refine ⟨h1, ?_, ih _ (fun a ha => hsame a (by simp [ha])) h3⟩
    rw [hsame p (by simp)]; exact h2

theorem Chain.unique {msgs : Ptr → Option LogMessage} :
    ∀ (q1 q2 : List (Ptr × LogMessage)) (h : Option Ptr),
      Chain msgs h q1 → Chain msgs h q2 → q1 = q2 := by
  intro q1
  induction q1 with
  | nil =>
    intro q2 h h1 h2
    cases q2 with
    | nil => rfl
    | cons y r =>
      obtain ⟨p, n⟩ := y
      have : h = none := h1
      rw [this] at h2
      exact absurd h2.1 (by simp)
  | cons x rest ih =>
    intro q2 h h1 h2
    obtain ⟨p, n⟩ := x
    obtain ⟨a1, a2, a3⟩ := h1
    cases q2 with
    | nil =>
      have : h = none := h2
      rw [this] at a1
      exact absurd a1 (by simp)
    | cons y r =>
      obtain ⟨p2, n2⟩ := y
      obtain ⟨b1, b2, b3⟩ := h2
      have hp : p = p2 := by rw [a1] at b1; exact Option.some.inj b1
      subst hp
      have hn : n = n2 := by rw [a2] at b2; exact Option.some.inj b2
      subst hn
      rw [ih r _ a3 b3]

theorem Chain.from_member {msgs : Ptr → Option LogMessage} :
    ∀ (q : List (Ptr × LogMessage)) (h : Option Ptr) (a : Ptr),
      Chain msgs h q → a ∈ q.map Prod.fst →
      ∃ q2, q2.length ≤ q.length ∧ Chain msgs (some a) q2 := by
  intro q
  induction q with
  | nil => intro h a _ ha; simp at ha
  | cons x rest ih =>
    intro h a hc ha
    obtain ⟨p, n⟩ := x
    obtain ⟨h1, h2, h3⟩ := hc
    simp only [List.map_cons, List.mem_cons] at ha
    rcases ha with ha | ha
    · subst ha
      exact ⟨(a, n) :: rest, le_refl _, rfl, h2, h3⟩
    · obtain ⟨q2, hl, hq⟩ := ih _ a h3 ha
      exact ⟨q2, by simp only [List.length_cons]; omega, hq⟩

theorem Chain.nodup {msgs : Ptr → Option LogMessage} :
    ∀ (q : List (Ptr × LogMessage)) (h : Option Ptr),
      Chain msgs h q → (q.map Prod.fst).Nodup := by
  intro q
  induction q with
  | nil => intro h _; simp
  | cons x rest ih =>
    intro h hc
    obtain ⟨p, n⟩ := x
    have hc2 := hc
    obtain ⟨h1, h2, h3⟩ := hc
    simp only [List.map_cons, List.nodup_cons]
    refine ⟨?_, ih _ h3⟩
    intro hmem
    obtain ⟨q2, hl, hq⟩ := Chain.from_member rest _ p h3 hmem
    have hfull : Chain msgs (some p) ((p, n) :: rest) := ⟨rfl, h2, h3⟩
    have := Chain.unique _ _ _ hq hfull
    rw [this] at hl
    simp only [List.length_cons] at hl
    omega

theorem pop_message_nil (lp : Ptr) (m : Mem) (L : Logger) (hL : m.loggers lp = some L)
    (hh : L.queue_head = none) :
    pop_message lp m = some (none, (m.emit (.lock .queue)).emit (.unlock .queue)) := by
  simp [pop_message, hL, hh]

/-- The logger after the head node `n` of a queue with remainder `rest` is unlinked. -/
theorem pop_message_cons (lp : Ptr) (m : Mem) (L : Logger) (p : Ptr) (n : LogMessage)
    (hL : m.loggers lp = some L) (hh : L.queue_head = some p) (hn : m.msgs p = some n) :
    pop_message lp m = some (some p,
      { m with
        loggers := fun a => if a = lp then
          some (if n.next = none then { L with queue_head := none, queue_tail := none }
            else { L with queue_head := n.next }) else m.loggers a
        trace := m.trace ++ [.lock .queue, .dequeue p, .unlock .queue] }) := by
  by_cases hx : n.next = none
  · simp [pop_message, hL, hh, hn, hx, Mem.setLogger, Mem.emit]
  · simp [pop_message, hL, hh, hn, hx, Mem.setLogger, Mem.emit]

theorem Chain.next_eq_none_iff {msgs : Ptr → Option LogMessage} {h : Option Ptr}
    {q : List (Ptr × LogMessage)} (hc : Chain msgs h q) : h = none ↔ q = [] := by
  cases q with
  | nil => simpa using hc
  | cons x r =>
    obtain ⟨p, n⟩ := x
    obtain ⟨h1, _, _⟩ := hc
    simp [h1]

theorem process_all_messages_drain (lp : Ptr) (ss : List (Ptr × LogSink)) :
    ∀ (q : List (Ptr × LogMessage)) (m : Mem) (L : Logger) (fuel : Nat),
      m.loggers lp = some L → Registered m L ss → Queue m L q → q.length < fuel →
      process_all_messages lp fuel m = some
        { loggers := fun a => if a = lp then some L.emptied else m.loggers a
          sinks := m.sinks
          msgs := release m.msgs q
          trace := m.trace ++ drain_events ss q } := by
  intro q
  induction q with
  | nil =>
    intro m L fuel hL _ hq hf
    obtain ⟨hc, ht⟩ := hq
    have hh : L.queue_head = none := hc
    have ht2 : L.queue_tail = none := by simpa using ht
    obtain ⟨k, rfl⟩ : ∃ k, fuel = k + 1 := ⟨fuel - 1, by omega⟩
    simp only [process_all_messages, pop_message_nil lp m L hL hh, Option.bind_eq_bind,
      Option.some_bind]
    congr 1
    apply Mem.ext
    · funext a
      by_cases ha : a = lp
      · subst ha
        simp only [Mem.emit_loggers, hL, if_true, Logger.emptied]
        congr 1
        cases L
        simp_all
      · simp [ha]
    · rfl
    · funext a; simp [release]
    · simp [drain_events, Mem.emit]
  | cons x rest ih =>
    intro m L fuel hL hreg hq hf
    obtain ⟨p, n⟩ := x
    have hnd := Chain.nodup _ _ hq.1
    obtain ⟨⟨h1, h2, h3⟩, ht⟩ := hq
    obtain ⟨k, rfl⟩ : ∃ k, fuel = k + 1 := ⟨fuel - 1, by omega⟩
    simp only [List.length_cons] at hf
    simp only [List.map_cons, List.nodup_cons] at hnd
    -- the logger after the pop
    obtain ⟨L2, hL2, hsc, hsk, hhd, htl, hem⟩ : ∃ L2 : Logger,
        (if n.next = none then { L with queue_head := none, queue_tail := none }
          else { L with queue_head := n.next }) = L2 ∧
        L2.sink_count = L.sink_count ∧ L2.sinks = L.sinks ∧ L2.queue_head = n.next ∧
        L2.queue_tail = (rest.getLast?).map Prod.fst ∧ L2.emptied = L.emptied := by
      refine ⟨_, rfl, ?_⟩
      by_cases hx : n.next = none
      · have hr : rest = [] := (Chain.next_eq_none_iff h3).1 hx
        simp [hx, hr, Logger.emptied]
      · have hr : rest ≠ [] := fun h => hx ((Chain.next_eq_none_iff h3).2 h)
        simp only [hx, if_false, Logger.emptied, true_and]
        obtain ⟨y, r2, rfl⟩ := List.exists_cons_of_ne_nil hr
        rw [ht, List.getLast?_cons_cons]
        exact ⟨rfl, trivial⟩
    simp only [process_all_messages, pop_message_cons lp m L p n hL h1 h2, Option.bind_eq_bind,
      Option.some_bind, hL2, if_true]
    rw [hsc, ← hreg.1]
    rw [dispatch_queued_trace lp p L2 n ss 0 _ (by simp) (by simpa using h2)
      (by simpa [hsk] using hreg.2)]
    simp only [Option.some_bind]
    rw [ih _ L2 k (by simp [Mem.freeMsg]) ⟨by rw [hsc]; exact hreg.1, by simpa [Mem.freeMsg, hsk] using hreg.2⟩
      ⟨by
        rw [hhd]
        refine Chain.congr_heap rest _ ?_ h3
        intro a ha
        have : a ≠ p := fun h => hnd.1 (h ▸ ha)
        simp [Mem.freeMsg, this], htl⟩ (by omega)]
    congr 1
    apply Mem.ext
    · funext a
      by_cases ha : a = lp
      · simp [ha, hem]
      · simp [ha, Mem.freeMsg]
    · rfl
    · funext a
      by_cases ha : a = p
      · simp [ha, release, Mem.freeMsg]
      · have hiff : a ∈ p :: List.map Prod.fst rest ↔ a ∈ List.map Prod.fst rest := by
          simp [List.mem_cons, ha]
        simp only [release, Mem.freeMsg, List.map_cons, ha, if_false, hiff]
    · simp [drain_events, Mem.freeMsg]

theorem logger_log_sync_eq (MSG_SIZE : Nat) (m : Mem) (lp : Ptr) (L : Logger)
    (ss : List (Ptr × LogSink)) (level : LogLevel) (file : String) (line : Int)
    (text : List Char) (p : Ptr) (now : Int)
    (hL : m.loggers lp = some L) (hsync : L.async = false) (hreg : Registered m L ss)
    (hfresh : m.msgs p = none) :
    logger_log MSG_SIZE (some lp) level file line (some text) (some p) now m =
      some { m with trace := (m.trace ++ [.lock .engine] ++
        fan_out ss 0 p (new_message MSG_SIZE level file line now text) level ++
        [.unlock .engine]) } := by
  simp only [logger_log, Option.bind_eq_bind]
  have h1 : (m.setMsg p (new_message MSG_SIZE level file line now text)).loggers lp = some L := hL
  rw [h1]
  simp only [Option.some_bind, hsync]
  rw [← hreg.1]
  rw [dispatch_sync_trace lp p L (new_message MSG_SIZE level file line now text) level ss 0 _
    (by simpa using hL) (by simp [Mem.setMsg])
    (by simpa [Mem.setMsg] using hreg.2)]
  simp only [Option.some_bind, Bool.false_eq_true, if_false]
  congr 1
  apply Mem.ext
  · rfl
  · rfl
  · funext a
    by_cases ha : a = p
    · simp [ha, Mem.freeMsg, hfresh]
    · simp [ha, Mem.freeMsg, Mem.setMsg]
  · simp [Mem.freeMsg, Mem.setMsg, Mem.emit]

theorem Quiet.quiet_refl (lp : Ptr) (m : Mem) : Quiet lp m m :=
  ⟨rfl, rfl, [], by simp, by simp⟩

theorem Quiet.quiet_trans {lp : Ptr} {m1 m2 m3 : Mem} (h12 : Quiet lp m1 m2) (h23 : Quiet lp m2 m3) :
    Quiet lp m1 m3 := by
  obtain ⟨a1, a2, e1, a3, a4⟩ := h12
  obtain ⟨b1, b2, e2, b3, b4⟩ := h23
  refine ⟨b1.trans a1, b2.trans a2, e1 ++ e2, by rw [b3, a3, List.append_assoc], ?_⟩
  intro e he
  rcases List.mem_append.1 he with he | he
  · exact a4 e he
  · have := b4 e he
    rwa [a1, a2] at this

/-- A step that changes neither the sink handles nor the sink view and adds one
event that is not a `write`. -/
theorem Quiet.of_silent {lp : Ptr} {m m2 : Mem} (e : Event) (hs : m2.sinks = m.sinks)
    (hv : sink_view lp m2 = sink_view lp m) (ht : m2.trace = m.trace ++ [e])
    (he : e.admissible (sink_view lp m) m.sinks) : Quiet lp m m2 :=
  ⟨hs, hv, [e], ht, by intro x hx; rw [List.mem_singleton.1 hx]; exact he⟩

/-- A step that changes neither the sink handles, the sink view nor the trace. -/
theorem Quiet.of_same {lp : Ptr} {m m2 : Mem} (hs : m2.sinks = m.sinks)
    (hv : sink_view lp m2 = sink_view lp m) (ht : m2.trace = m.trace) : Quiet lp m m2 :=
  ⟨hs, hv, [], by simp [ht], by simp⟩

theorem Quiet.emit_event (lp : Ptr) (m : Mem) (e : Event)
    (he : e.admissible (sink_view lp m) m.sinks) : Quiet lp m (m.emit e) :=
  Quiet.of_silent e rfl rfl rfl he

theorem sink_view_setLogger (lp : Ptr) (m : Mem) (L L2 : Logger) (hL : m.loggers lp = some L)
    (h1 : L2.sink_count = L.sink_count) (h2 : L2.sinks = L.sinks) :
    sink_view lp (m.setLogger lp L2) = sink_view lp m := by
  simp [sink_view, Mem.setLogger, hL, h1, h2]

theorem Quiet.quiet_setLogger (lp : Ptr) (m : Mem) (L L2 : Logger) (hL : m.loggers lp = some L)
    (h1 : L2.sink_count = L.sink_count) (h2 : L2.sinks = L.sinks) :
    Quiet lp m (m.setLogger lp L2) :=
  Quiet.of_same rfl (sink_view_setLogger lp m L L2 hL h1 h2) rfl

theorem dispatch_queued_quiet (lp msg : Ptr) :
    ∀ (k i : Nat) (m m2 : Mem),
      (∀ L, m.loggers lp = some L → i + k ≤ L.sink_count) →
      dispatch_queued lp msg k i m = some m2 → Quiet lp m m2 ∧ m2.msgs = m.msgs ∧
        m2.loggers = m.loggers := by
  intro k
  induction k with
  | zero =>
    intro i m m2 _ h
    simp only [dispatch_queued, Option.some.injEq] at h
    subst h
    exact ⟨Quiet.quiet_refl _ _, rfl, rfl⟩
  | succ k ih =>
    intro i m m2 hb h
    simp only [dispatch_queued, Option.bind_eq_bind, Option.bind_eq_some] at h
    obtain ⟨L, hL, body, hbody, sp, hsp, s, hs, h⟩ := h
    have hi := hb L hL
    split at h
    · rename_i hlv
      obtain ⟨q, hm, hl⟩ := ih (i + 1) _ m2 (fun L0 h0 => by
        have := hb L0 (by simpa using h0); omega) h
      have hq : Quiet lp m (m.emit (.write i sp s.config.write_fn msg body s.user_data)) := by
        refine Quiet.of_silent _ rfl rfl rfl ?_
        refine ⟨L.sink_count, L.sinks, s, by simp [sink_view, hL], by omega, ?_, hs, hlv, rfl, rfl⟩
        cases hx : L.sinks[i]? with
        | none => simp [hx] at hsp
        | some v => simpa [hx] using hsp
      exact ⟨Quiet.quiet_trans hq q, by simpa using hm, by simpa using hl⟩
    · exact ih (i + 1) m m2 (fun L0 h0 => by have := hb L0 h0; omega) h

theorem dispatch_sync_quiet (lp msg : Ptr) (level : LogLevel) :
    ∀ (k i : Nat) (m m2 : Mem),
      (∀ L, m.loggers lp = some L → i + k ≤ L.sink_count) →
      (∀ body, m.msgs msg = some body → body.level = level) →
      dispatch_sync lp msg level k i m = some m2 → Quiet lp m m2 := by
  intro k
  induction k with
  | zero =>
    intro i m m2 _ _ h
    simp only [dispatch_sync, Option.some.injEq] at h
    subst h
    exact Quiet.quiet_refl _ _
  | succ k ih =>
    intro i m m2 hb hlev h
    simp only [dispatch_sync, Option.bind_eq_bind, Option.bind_eq_some] at h
    obtain ⟨L, hL, sp, hsp, s, hs, h⟩ := h
    have hi := hb L hL
    split at h
    · rename_i hlv
      simp only [Option.bind_eq_some] at h
      obtain ⟨body, hbody, h⟩ := h
      have q := ih (i + 1) _ m2 (fun L0 h0 => by
        have := hb L0 (by simpa using h0); omega) (fun b hb0 => hlev b (by simpa using hb0)) h
      have hq : Quiet lp m (m.emit (.write i sp s.config.write_fn msg body s.user_data)) := by
        refine Quiet.of_silent _ rfl rfl rfl ?_
        refine ⟨L.sink_count, L.sinks, s, by simp [sink_view, hL], by omega, ?_, hs,
          by rw [hlev body hbody]; exact hlv, rfl, rfl⟩
        cases hx : L.sinks[i]? with
        | none => simp [hx] at hsp
        | some v => simpa [hx] using hsp
      exact Quiet.quiet_trans hq q
    · exact ih (i + 1) m m2 (fun L0 h0 => by have := hb L0 h0; omega) hlev h

theorem pop_message_quiet (lp : Ptr) (m m2 : Mem) (r : Option Ptr)
    (h : pop_message lp m = some (r, m2)) : Quiet lp m m2 := by
  simp only [pop_message, Option.bind_eq_bind, Option.bind_eq_some] at h
  obtain ⟨L, hL, h⟩ := h
  have hL0 : m.loggers lp = some L := hL
  split at h
  · simp only [Option.some.injEq, Prod.mk.injEq] at h
    obtain ⟨_, rfl⟩ := h
    exact Quiet.quiet_trans (Quiet.emit_event lp m (.lock .queue) trivial)
      (Quiet.emit_event lp _ (.unlock .queue) trivial)
  · rename_i p hp
    simp only [Option.bind_eq_some, Option.some.injEq, Prod.mk.injEq] at h
    obtain ⟨node, hnode, _, rfl⟩ := h
    refine ⟨rfl, ?_, [.lock .queue, .dequeue p, .unlock .queue], by simp [Mem.emit, Mem.setLogger],
      ?_⟩
    · simp only [Mem.emit, Mem.setLogger, sink_view, if_true, hL0, Option.map_some']
      split <;> rfl
    · intro e he
      simp only [List.mem_cons, List.mem_singleton, List.not_mem_nil, or_false] at he
      rcases he with rfl | rfl | rfl <;> trivial

theorem process_all_messages_quiet (lp : Ptr) :
    ∀ (fuel : Nat) (m m2 : Mem), process_all_messages lp fuel m = some m2 → Quiet lp m m2 := by
  intro fuel
  induction fuel with
  | zero => intro m m2 h; simp [process_all_messages] at h
  | succ k ih =>
    intro m m2 h
    simp only [process_all_messages, Option.bind_eq_bind, Option.bind_eq_some] at h
    obtain ⟨⟨r, m1⟩, hpop, h⟩ := h
    have q1 := pop_message_quiet lp m m1 r hpop
    cases r with
    | none =>
      simp only [Option.some.injEq] at h
      subst h
      exact q1
    | some p =>
      simp only [Option.bind_eq_some] at h
      obtain ⟨L, hL, m3, hd, h⟩ := h
      obtain ⟨q2, _, _⟩ := dispatch_queued_quiet lp p L.sink_count 0 m1 m3 (fun L0 h0 => by
        rw [hL] at h0; cases h0; omega) hd
      have q3 : Quiet lp m3 (m3.freeMsg p) := Quiet.of_same rfl rfl rfl
      exact Quiet.quiet_trans q1 (Quiet.quiet_trans q2 (Quiet.quiet_trans q3 (ih _ _ h)))

theorem worker_auto_flush_quiet (fuel : Nat) (lp : Ptr) (env : WorkerEnv) (m m2 : Mem)
    (h : worker_auto_flush fuel lp env m = some m2) : Quiet lp m m2 := by
  simp only [worker_auto_flush, Option.bind_eq_bind, Option.bind_eq_some] at h
  obtain ⟨L, hL, h⟩ := h
  split at h
  · split at h
    · split at h
      · simp only [Option.bind_eq_some, Option.some.injEq] at h
        obtain ⟨m1, hd, L1, hL1, rfl⟩ := h
        have q1 := process_all_messages_quiet lp fuel _ m1 hd
        have q0 : Quiet lp m (m.emit (.trylock .engine true)) := Quiet.emit_event lp m _ trivial
        have q2 : Quiet lp m1 (m1.setLogger lp { L1 with last_flush_time := env.current_time }) :=
          Quiet.of_same rfl (sink_view_setLogger lp m1 L1 _ hL1 rfl rfl) rfl
        exact Quiet.quiet_trans q0 (Quiet.quiet_trans q1 (Quiet.quiet_trans q2 (Quiet.emit_event lp _ _ trivial)))
      · simp only [Option.some.injEq] at h
        subst h
        exact Quiet.emit_event lp m _ trivial
    · simp only [Option.some.injEq] at h
      subst h
      exact Quiet.quiet_refl _ _
  · simp only [Option.some.injEq] at h
    subst h
    exact Quiet.quiet_refl _ _

theorem worker_single_step_quiet (lp : Ptr) (m m2 : Mem)
    (h : worker_single_step lp m = some m2) : Quiet lp m m2 := by
  simp only [worker_single_step, Option.bind_eq_bind, Option.bind_eq_some] at h
  obtain ⟨⟨r, m3⟩, hpop, h⟩ := h
  have q2 := pop_message_quiet lp m m3 r hpop
  cases r with
  | none =>
    simp only [Option.some.injEq] at h
    subst h
    exact Quiet.quiet_trans q2 (Quiet.emit_event lp _ _ trivial)
  | some p =>
    simp only [Option.bind_eq_some, Option.some.injEq] at h
    obtain ⟨L, hL, m4, hd, rfl⟩ := h
    obtain ⟨q3, _, _⟩ := dispatch_queued_quiet lp p L.sink_count 0 _ m4 (fun L0 h0 => by
      rw [hL] at h0; cases h0; omega) hd
    have q0 : Quiet lp m3 (m3.emit (.lock .engine)) := Quiet.emit_event lp m3 _ trivial
    have q4 : Quiet lp m4 (m4.emit (.unlock .engine)) := Quiet.emit_event lp m4 _ trivial
    have q5 : Quiet lp (m4.emit (.unlock .engine)) ((m4.emit (.unlock .engine)).freeMsg p) :=
      Quiet.of_same rfl rfl rfl
    exact Quiet.quiet_trans q2 (Quiet.quiet_trans q0 (Quiet.quiet_trans q3 (Quiet.quiet_trans q4 q5)))

theorem worker_iteration_quiet (fuel : Nat) (lp : Ptr) (env : WorkerEnv) (m m2 : Mem)
    (h : worker_iteration fuel lp env m = some m2) : Quiet lp m m2 := by
  simp only [worker_iteration, Option.bind_eq_bind, Option.bind_eq_some] at h
  obtain ⟨m1, hf, h⟩ := h
  exact Quiet.quiet_trans (worker_auto_flush_quiet fuel lp env m m1 hf)
    (worker_single_step_quiet lp m1 m2 h)

theorem logger_flush_quiet (fuel : Nat) (lp : Ptr) (m m2 : Mem)
    (h : logger_flush fuel (some lp) m = some m2) : Quiet lp m m2 := by
  simp only [logger_flush, Option.bind_eq_bind, Option.bind_eq_some] at h
  obtain ⟨L, hL, h⟩ := h
  split at h
  · simp only [Option.some.injEq] at h
    subst h
    exact Quiet.quiet_refl _ _
  · simp only [Option.bind_eq_some, Option.some.injEq] at h
    obtain ⟨m1, hd, rfl⟩ := h
    exact Quiet.quiet_trans (Quiet.emit_event lp m (.lock .engine) trivial)
      (Quiet.quiet_trans (process_all_messages_quiet lp fuel _ m1 hd)
        (Quiet.emit_event lp m1 (.unlock .engine) trivial))

theorem logger_log_quiet (MSG_SIZE : Nat) (lp : Ptr) (level : LogLevel) (file : String)
    (line : Int) (fmt : Option (List Char)) (alloc : Option Ptr) (now : Int) (m m2 : Mem)
    (h : logger_log MSG_SIZE (some lp) level file line fmt alloc now m = some m2) :
    Quiet lp m m2 := by
  cases fmt with
  | none =>
    simp only [logger_log, Option.some.injEq] at h
    subst h
    exact Quiet.quiet_refl _ _
  | some text =>
    cases alloc with
    | none =>
      simp only [logger_log, Option.some.injEq] at h
      subst h
      exact Quiet.quiet_refl _ _
    | some p =>
      simp only [logger_log, Option.bind_eq_bind, Option.bind_eq_some] at h
      obtain ⟨L, hL, h⟩ := h
      have hL0 : m.loggers lp = some L := hL
      have q0 : Quiet lp m (m.setMsg p (new_message MSG_SIZE level file line now text)) :=
        Quiet.of_same rfl rfl rfl
      refine Quiet.quiet_trans q0 ?_
      split at h
      · split at h
        · simp only [Option.some_bind, Option.bind_eq_some, Option.some.injEq] at h
          obtain ⟨L1, hL1, rfl⟩ := h
          have q1 : Quiet lp ((m.setMsg p (new_message MSG_SIZE level file line now text)).emit
              (.lock .queue)) (((m.setMsg p (new_message MSG_SIZE level file line now text)).emit
              (.lock .queue)).setLogger lp { L with queue_head := some p }) :=
            Quiet.of_same rfl (sink_view_setLogger lp _ L _ hL rfl rfl) rfl
          have q2 := Quiet.quiet_setLogger lp _ L1 { L1 with queue_tail := some p } hL1 rfl rfl
          exact Quiet.quiet_trans (Quiet.emit_event lp _ (.lock .queue) trivial) (Quiet.quiet_trans q1
            (Quiet.quiet_trans q2 (Quiet.quiet_trans (Quiet.emit_event lp _ (.enqueue p) trivial)
              (Quiet.emit_event lp _ (.unlock .queue) trivial))))
        · rename_i t _
          simp only [Option.some_bind, Option.bind_eq_some, Option.some.injEq] at h
          obtain ⟨tn, _, L1, hL1, rfl⟩ := h
          have q1 : Quiet lp ((m.setMsg p (new_message MSG_SIZE level file line now text)).emit
              (.lock .queue)) (((m.setMsg p (new_message MSG_SIZE level file line now text)).emit
              (.lock .queue)).setMsg t { tn with next := some p }) :=
            Quiet.of_same rfl rfl rfl
          have q2 := Quiet.quiet_setLogger lp _ L1 { L1 with queue_tail := some p } hL1 rfl rfl
          exact Quiet.quiet_trans (Quiet.emit_event lp _ (.lock .queue) trivial) (Quiet.quiet_trans q1
            (Quiet.quiet_trans q2 (Quiet.quiet_trans (Quiet.emit_event lp _ (.enqueue p) trivial)
              (Quiet.emit_event lp _ (.unlock .queue) trivial))))
      · simp only [Option.bind_eq_some, Option.some.injEq] at h
        obtain ⟨m1, hd, rfl⟩ := h
        have q1 := dispatch_sync_quiet lp p level L.sink_count 0 _ m1 (fun L0 h0 => by
          have h1 : m.loggers lp = some L0 := h0
          rw [hL0] at h1; cases h1; omega) (fun b hb => by
          simp only [Mem.emit_msgs, Mem.setMsg, if_true, Option.some.injEq] at hb
          subst hb; rfl) hd
        have q5 : Quiet lp (m1.emit (.unlock .engine)) ((m1.emit (.unlock .engine)).freeMsg p) :=
          Quiet.of_same rfl rfl rfl
        exact Quiet.quiet_trans (Quiet.emit_event lp _ (.lock .engine) trivial) (Quiet.quiet_trans q1
          (Quiet.quiet_trans (Quiet.emit_event lp _ (.unlock .engine) trivial) q5))

theorem Event.admissible_mono {view view2 : Option (Nat × List (Option Ptr))}
    {sinks sinks2 : Ptr → Option LogSink} (e : Event)
    (hv : ∀ n arr, view = some (n, arr) → ∃ n2 arr2, view2 = some (n2, arr2) ∧ n ≤ n2 ∧
      ∀ i, i < n → arr2[i]? = arr[i]?)
    (hs : ∀ sp s, sinks sp = some s → ∃ s2, sinks2 sp = some s2 ∧
      s2.config.min_level = s.config.min_level ∧ s2.config.write_fn = s.config.write_fn ∧
      s2.user_data = s.user_data)
    (h : e.admissible view sinks) : e.admissible view2 sinks2 := by
  cases e with
  | write slot sp fn msg body ud =>
    obtain ⟨n, arr, s, h1, h2, h3, h4, h5, h6, h7⟩ := h
    obtain ⟨n2, arr2, g1, g2, g3⟩ := hv n arr h1
    obtain ⟨s2, k1, k2, k3, k4⟩ := hs sp s h4
    exact ⟨n2, arr2, s2, g1, by omega, by rw [g3 slot h2]; exact h3, k1, by rw [k2]; exact h5,
      by rw [k3]; exact h6, by rw [k4]; exact h7⟩
  | _ => trivial

theorem TraceOk.of_quiet {lp : Ptr} {m m2 : Mem} (hq : Quiet lp m m2) (h : TraceOk lp m) :
    TraceOk lp m2 := by
  obtain ⟨a1, a2, evs, a3, a4⟩ := hq
  intro e he
  rw [a3] at he
  rw [a1, a2]
  rcases List.mem_append.1 he with he | he
  · exact h e he
  · exact a4 e he

theorem logger_add_sink_traceOk (MAX_SINKS : Nat) (lp : Ptr) (sink : Option Ptr) (m m2 : Mem)
    (hr : logger_add_sink MAX_SINKS (some lp) sink m = some m2) (h : TraceOk lp m) :
    TraceOk lp m2 ∧ ((m.loggers lp).isSome → (m2.loggers lp).isSome) := by
  cases sink with
  | none =>
    simp only [logger_add_sink, Option.some.injEq] at hr
    subst hr
    exact ⟨h, id⟩
  | some sp =>
    simp only [logger_add_sink, Option.bind_eq_bind, Option.bind_eq_some] at hr
    obtain ⟨L, hL, hr⟩ := hr
    split at hr
    · simp only [Option.some.injEq] at hr
      subst hr
      exact ⟨h, id⟩
    · split at hr
      · rename_i hcap hlen
        simp only [Option.bind_eq_some, Option.some.injEq] at hr
        obtain ⟨s, hs, s1, hs1, rfl⟩ := hr
        have hs0 : m.sinks sp = some s := hs
        refine ⟨?_, fun _ => by simp [Mem.emit, Mem.setSink, Mem.setLogger]⟩
        intro e he
        simp only [Mem.emit, Mem.setSink, Mem.setLogger, List.append_assoc, List.mem_append,
          List.mem_cons, List.mem_singleton, List.not_mem_nil, or_false] at he
        rcases he with he | rfl | rfl
        · refine Event.admissible_mono e ?_ ?_ (h e he)
          · intro n arr hv
            simp only [sink_view, hL, Option.map_some', Option.some.injEq, Prod.mk.injEq] at hv
            obtain ⟨rfl, rfl⟩ := hv
            refine ⟨L.sink_count + 1, L.sinks.set L.sink_count (some sp), ?_, by omega, ?_⟩
            · simp [sink_view, Mem.emit, Mem.setSink, Mem.setLogger]
            · intro i hi
              rw [List.getElem?_set_ne (by omega)]
          · intro q t ht
            by_cases hq : q = sp
            · subst hq
              rw [hs0] at ht
              cases ht
              simp only [Mem.emit, Mem.setSink, Mem.setLogger, if_true,
                Option.some.injEq] at hs1
              subst hs1
              refine ⟨{ { s with logger := some lp } with config := { s.config with format := none } },
                by simp [Mem.emit, Mem.setSink, Mem.setLogger], rfl, rfl, rfl⟩
            · exact ⟨t, by simpa [Mem.emit, Mem.setSink, Mem.setLogger, hq] using ht, rfl, rfl, rfl⟩
        · trivial
        · trivial
      · simp at hr

theorem Quiet.isSome {lp : Ptr} {m m2 : Mem} (hq : Quiet lp m m2)
    (h : (m.loggers lp).isSome) : (m2.loggers lp).isSome := by
  have hv := hq.2.1
  simp only [sink_view] at hv
  cases h2 : m2.loggers lp with
  | none =>
    cases h1 : m.loggers lp with
    | none => simp [h1] at h
    | some L => simp [h1, h2] at hv
  | some L => rfl

theorem Op.apply_traceOk (MAX_SINKS MSG_SIZE : Nat) (lp : Ptr) (op : Op) (m m2 : Mem)
    (hr : op.apply MAX_SINKS MSG_SIZE lp m = some m2) (h : TraceOk lp m)
    (hl : (m.loggers lp).isSome) : TraceOk lp m2 ∧ (m2.loggers lp).isSome := by
  cases op with
  | add_sink sink =>
    obtain ⟨a, b⟩ := logger_add_sink_traceOk MAX_SINKS lp sink m m2 hr h
    exact ⟨a, b hl⟩
  | log level file line fmt alloc now =>
    have q := logger_log_quiet MSG_SIZE lp level file line fmt alloc now m m2 hr
    exact ⟨TraceOk.of_quiet q h, q.isSome hl⟩
  | flush fuel =>
    have q := logger_flush_quiet fuel lp m m2 hr
    exact ⟨TraceOk.of_quiet q h, q.isSome hl⟩
  | worker fuel env =>
    have q := worker_iteration_quiet fuel lp env m m2 hr
    exact ⟨TraceOk.of_quiet q h, q.isSome hl⟩

theorem run_traceOk (MAX_SINKS MSG_SIZE : Nat) (lp : Ptr) :
    ∀ (ops : List Op) (m m2 : Mem), run MAX_SINKS MSG_SIZE lp ops m = some m2 →
      TraceOk lp m → (m.loggers lp).isSome → TraceOk lp m2 ∧ (m2.loggers lp).isSome := by
  intro ops
  induction ops with
  | nil =>
    intro m m2 hr h hl
    simp only [run, Option.some.injEq] at hr
    subst hr
    exact ⟨h, hl⟩
  | cons op ops ih =>
    intro m m2 hr h hl
    simp only [run, Option.bind_eq_some] at hr
    obtain ⟨m1, h1, h2⟩ := hr
    obtain ⟨a, b⟩ := Op.apply_traceOk MAX_SINKS MSG_SIZE lp op m m1 h1 h hl
    exact ih m1 m2 h2 a b

theorem logger_create_traceOk (MAX_SINKS : Nat) (config : LogConfig) (lp : Ptr)
    (junk : Nat → Option Ptr) (now : Int) (m0 : Mem) (h0 : m0.trace = []) :
    TraceOk lp (logger_create MAX_SINKS config (some lp) junk now m0).2 ∧
      (((logger_create MAX_SINKS config (some lp) junk now m0).2).loggers lp).isSome := by
  constructor
  · intro e he
    cases hc : config.async <;>
      simp [logger_create, Mem.emit, Mem.setLogger, h0, hc] at he <;>
      rcases he with rfl | rfl | rfl <;> trivial
  · simp [logger_create, Mem.setLogger]

/-- C2: in every state reachable from `logger_create` by registrations, log calls,
flushes and worker iterations, every `write` event of the trace went to a sink
in a used slot whose threshold the message meets; hence no `write` event carries
a message that is below the threshold of every registered sink. -/
theorem C2_threshold_respected (MAX_SINKS MSG_SIZE : Nat) (config : LogConfig) (lp : Ptr)
    (junk : Nat → Option Ptr) (now : Int) (m0 m : Mem) (ops : List Op)
    (h0 : m0.trace = [])
    (hrun : run MAX_SINKS MSG_SIZE lp ops
      (logger_create MAX_SINKS config (some lp) junk now m0).2 = some m) :
    ∃ L, m.loggers lp = some L ∧
      (∀ slot sp fn msg body ud, Event.write slot sp fn msg body ud ∈ m.trace →
        slot < L.sink_count ∧ L.sinks[slot]? = some (some sp) ∧
          ∃ s, m.sinks sp = some s ∧ s.config.min_level ≤ body.level) ∧
      (∀ body : LogMessage,
        (∀ slot sp s, slot < L.sink_count → L.sinks[slot]? = some (some sp) →
          m.sinks sp = some s → body.level < s.config.min_level) →
        ∀ slot sp fn msg ud, Event.write slot sp fn msg body ud ∉ m.trace) := by
  obtain ⟨a, b⟩ := logger_create_traceOk MAX_SINKS config lp junk now m0 h0
  obtain ⟨hok, hsome⟩ := run_traceOk MAX_SINKS MSG_SIZE lp ops _ m hrun a b
  obtain ⟨L, hL⟩ := Option.isSome_iff_exists.1 hsome
  have key : ∀ slot sp fn msg body ud, Event.write slot sp fn msg body ud ∈ m.trace →
      slot < L.sink_count ∧ L.sinks[slot]? = some (some sp) ∧
        ∃ s, m.sinks sp = some s ∧ s.config.min_level ≤ body.level := by
    intro slot sp fn msg body ud he
    obtain ⟨n, arr, s, h1, h2, h3, h4, h5, _, _⟩ := hok _ he
    simp only [sink_view, hL, Option.map_some', Option.some.injEq, Prod.mk.injEq] at h1
    obtain ⟨rfl, rfl⟩ := h1
    exact ⟨h2, h3, s, h4, h5⟩
  refine ⟨L, hL, key, ?_⟩
  intro body hlow slot sp fn msg ud he
  obtain ⟨h2, h3, s, h4, h5⟩ := key slot sp fn msg body ud he
  exact absurd h5 (Nat.not_le.2 (hlow slot sp s h2 h3 h4))

theorem C2_threshold_respected_witness :
    demo_start.trace = [] ∧
    run 4 16 1 demo_ops
      (logger_create 4 demo_config_async (some 1) (fun _ => none) 999 demo_start).2 =
        some demo_final ∧
    (writes demo_final.trace).length = 3 ∧
    ∃ L, demo_final.loggers 1 = some L ∧
      (∀ slot sp fn msg body ud, Event.write slot sp fn msg body ud ∈ demo_final.trace →
        slot < L.sink_count ∧ L.sinks[slot]? = some (some sp) ∧
          ∃ s, demo_final.sinks sp = some s ∧ s.config.min_level ≤ body.level) ∧
      (∀ body : LogMessage,
        (∀ slot sp s, slot < L.sink_count → L.sinks[slot]? = some (some sp) →
          demo_final.sinks sp = some s → body.level < s.config.min_level) →
        ∀ slot sp fn msg ud, Event.write slot sp fn msg body ud ∉ demo_final.trace) :=
  ⟨rfl, rfl, by decide,
    C2_threshold_respected 4 16 demo_config_async 1 (fun _ => none) 999 demo_start demo_final
      demo_ops rfl rfl⟩

/-- C1 (amended): on a sync logger with registered sinks `ss`, a `logger_log` call
with a non-null format whose allocation succeeds takes the engine lock, calls
`write_fn` once for each sink whose `min_level` is at most the level, in slot
order and with that sink's `user_data`, releases the lock and leaves loggers
(the queue included), sink handles and message heap as they were; a call whose
allocation fails changes nothing. -/
theorem C1_sync_log_fan_out (MSG_SIZE : Nat) (m : Mem) (lp : Ptr) (L : Logger)
    (ss : List (Ptr × LogSink)) (level : LogLevel) (file : String) (line : Int)
    (text : List Char) (p : Ptr) (now : Int)
    (hL : m.loggers lp = some L) (hsync : L.async = false) (hreg : Registered m L ss)
    (hfresh : m.msgs p = none) :
    logger_log MSG_SIZE (some lp) level file line (some text) (some p) now m =
      some { m with trace := (m.trace ++ [.lock .engine] ++
        fan_out ss 0 p (new_message MSG_SIZE level file line now text) level ++
        [.unlock .engine]) } ∧
    logger_log MSG_SIZE (some lp) level file line (some text) none now m = some m :=
  ⟨logger_log_sync_eq MSG_SIZE m lp L ss level file line text p now hL hsync hreg hfresh, rfl⟩

theorem C1_sync_log_fan_out_witness :
    (demo_sync.loggers 1 = some demo_sync_logger ∧ demo_sync_logger.async = false ∧
      Registered demo_sync demo_sync_logger demo_sync_sinks ∧ demo_sync.msgs 10 = none) ∧
    fan_out demo_sync_sinks 0 10 (new_message 16 4 "main.c" 7 1000 ['b']) 4 =
      [.write 0 50 7 10 (new_message 16 4 "main.c" 7 1000 ['b']) 41,
        .write 1 51 9 10 (new_message 16 4 "main.c" 7 1000 ['b']) 43] ∧
    logger_log 16 (some 1) 4 "main.c" 7 (some ['b']) (some 10) 1000 demo_sync =
      some { demo_sync with trace := (demo_sync.trace ++ [.lock .engine] ++
        fan_out demo_sync_sinks 0 10 (new_message 16 4 "main.c" 7 1000 ['b']) 4 ++
        [.unlock .engine]) } ∧
    logger_log 16 (some 1) 4 "main.c" 7 (some ['b']) none 1000 demo_sync = some demo_sync :=
  ⟨⟨rfl, rfl, ⟨rfl, rfl, rfl, rfl, rfl, trivial⟩, rfl⟩, by decide,
    C1_sync_log_fan_out 16 demo_sync 1 demo_sync_logger demo_sync_sinks 4 "main.c" 7 ['b'] 10
      1000 rfl rfl ⟨rfl, rfl, rfl, rfl, rfl, trivial⟩ rfl⟩

/-- C1 as stated fails: on a sync logger whose sink 50 has threshold 1, a call at
level 4 with a non-null format whose allocation fails invokes no sink at all. -/
theorem C1_refuted_by_failed_allocation :
    demo_sync.loggers 1 = some demo_sync_logger ∧ demo_sync_logger.async = false ∧
    Registered demo_sync demo_sync_logger demo_sync_sinks ∧
    (demo_sink_debug.registered 1).config.min_level ≤ 4 ∧
    writes demo_sync.trace = [] ∧
    (logger_log 16 (some 1) 4 "main.c" 7 (some ['b']) none 1000 demo_sync).map
      (fun m => writes m.trace) = some [] := by
  refine ⟨rfl, rfl, ⟨rfl, rfl, rfl, rfl, rfl, trivial⟩, by decide, by decide, by decide⟩

theorem append_node_ne_nil (q : List (Ptr × LogMessage)) (p : Ptr) (n : LogMessage) :
    append_node q p n ≠ [] := by
  match q with
  | [] => simp [append_node]
  | [(t, tn)] => simp [append_node]
  | x :: y :: rest => simp [append_node]

theorem append_node_getLast (p : Ptr) (n : LogMessage) :
    ∀ q : List (Ptr × LogMessage), (append_node q p n).getLast? = some (p, n)
  | [] => by simp [append_node]
  | [(t, tn)] => by simp [append_node]
  | x :: y :: rest => by
    have ih := append_node_getLast p n (y :: rest)
    have hne := append_node_ne_nil (y :: rest) p n
    obtain ⟨z, r, hz⟩ := List.exists_cons_of_ne_nil hne
    simp only [append_node]
    rw [hz, List.getLast?_cons_cons, ← hz, ih]

theorem append_node_addrs (p : Ptr) (n : LogMessage) :
    ∀ q : List (Ptr × LogMessage),
      (append_node q p n).map Prod.fst = q.map Prod.fst ++ [p]
  | [] => by simp [append_node]
  | [(t, tn)] => by simp [append_node]
  | x :: y :: rest => by
    have ih := append_node_addrs p n (y :: rest)
    simp only [append_node, List.map_cons, List.cons_append, List.cons.injEq, true_and]
    simpa using ih

theorem append_node_unlinked (p : Ptr) (n : LogMessage) :
    ∀ q : List (Ptr × LogMessage),
      (append_node q p n).map (fun x => (x.1, x.2.unlinked)) =
        q.map (fun x => (x.1, x.2.unlinked)) ++ [(p, n.unlinked)]
  | [] => by simp [append_node]
  | [(t, tn)] => by simp [append_node, LogMessage.unlinked]
  | x :: y :: rest => by
    have ih := append_node_unlinked p n (y :: rest)
    simp only [append_node, List.map_cons, List.cons_append, List.cons.injEq, true_and]
    simpa using ih

theorem Chain.append_node {msgs : Ptr → Option LogMessage} (p : Ptr) (n : LogMessage)
    (hn : n.next = none) :
    ∀ (q : List (Ptr × LogMessage)) (h : Option Ptr),
      Chain msgs h q → (q.map Prod.fst).Nodup → p ∉ q.map Prod.fst →
      Chain (link_node msgs q p n) (if q = [] then some p else h) (CLog.append_node q p n)
  | [], h, _, _, _ => by
    simp [Chain, CLog.append_node, link_node, hn]
  | [(t, tn)], h, hc, _, hp => by
    obtain ⟨h1, h2, h3⟩ := hc
    have hpt : p ≠ t := by simpa using hp
    simp [Chain, CLog.append_node, link_node, hn, h1, hpt]
  | x :: y :: rest, h, hc, hnd, hp => by
    obtain ⟨a, an⟩ := x
    obtain ⟨h1, h2, h3⟩ := hc
    have hnd := List.nodup_cons.1 (by simpa using hnd :
      (a :: (y :: rest).map Prod.fst).Nodup)
    have hp2 : p ∉ (y :: rest).map Prod.fst := fun hm => hp (by
      simp only [List.map_cons, List.mem_cons] at hm ⊢
      exact Or.inr hm)
    have hpa : a ≠ p := fun hh => hp (by simp [hh])
    have ih := Chain.append_node p n hn (y :: rest) an.next h3 hnd.2 hp2
    simp only [if_neg (List.cons_ne_nil _ _)] at ih ⊢
    have hlast : (((a, an) :: y :: rest).getLast?) = (y :: rest).getLast? :=
      List.getLast?_cons_cons
    obtain ⟨⟨t, tn⟩, ht⟩ : ∃ z, (y :: rest).getLast? = some z := by
      cases hz : (y :: rest).getLast? with
      | none => simp at hz
      | some z => exact ⟨z, rfl⟩
    have htm : t ∈ (y :: rest).map Prod.fst :=
      List.mem_map.2 ⟨(t, tn), List.mem_of_getLast?_eq_some ht, rfl⟩
    have hat : a ≠ t := fun hh => hnd.1 (by simpa [hh] using htm)
    have hsame : link_node msgs ((a, an) :: y :: rest) p n = link_node msgs (y :: rest) p n := by
      simp only [link_node, hlast]
    rw [hsame]
    refine ⟨h1, ?_, ih⟩
    simp only [link_node, ht, hat, hpa, if_false]
    exact h2

theorem Chain.lookup_node {msgs : Ptr → Option LogMessage} :
    ∀ (q : List (Ptr × LogMessage)) (h : Option Ptr) (a : Ptr) (n : LogMessage),
      Chain msgs h q → (a, n) ∈ q → msgs a = some n := by
  intro q
  induction q with
  | nil => intro h a n _ hm; simp at hm
  | cons x rest ih =>
    intro h a n hc hm
    obtain ⟨p, pn⟩ := x
    obtain ⟨_, h2, h3⟩ := hc
    rcases List.mem_cons.1 hm with hm | hm
    · cases hm; exact h2
    · exact ih _ a n h3 hm

theorem logger_log_async_eq (MSG_SIZE : Nat) (m : Mem) (lp : Ptr) (L : Logger)
    (q : List (Ptr × LogMessage)) (level : LogLevel) (file : String) (line : Int)
    (text : List Char) (p : Ptr) (now : Int)
    (hL : m.loggers lp = some L) (hasync : L.async = true) (hq : Queue m L q)
    (hfresh : m.msgs p = none) :
    logger_log MSG_SIZE (some lp) level file line (some text) (some p) now m = some
      { loggers := fun a => if a = lp then some (L.linked p) else m.loggers a
        sinks := m.sinks
        msgs := link_node m.msgs q p (new_message MSG_SIZE level file line now text)
        trace := m.trace ++ [.lock .queue, .enqueue p, .unlock .queue] } := by
  obtain ⟨hc, ht⟩ := hq
  simp only [logger_log, Option.bind_eq_bind]
  have h1 : (m.setMsg p (new_message MSG_SIZE level file line now text)).loggers lp = some L := hL
  rw [h1]
  simp only [Option.some_bind, hasync, if_true]
  cases hlast : q.getLast? with
  | none =>
    have htn : L.queue_tail = none := by rw [ht, hlast]; rfl
    simp only [htn, Option.some_bind, Mem.setLogger_loggers, Mem.emit_loggers, if_true]
    congr 1
    apply Mem.ext
    · funext a
      by_cases ha : a = lp
      · simp [ha, Logger.linked, htn, hasync]
      · simp [ha]
    · rfl
    · funext a
      simp [link_node, hlast]
    · simp
  | some z =>
    obtain ⟨t, tn⟩ := z
    have htn : L.queue_tail = some t := by rw [ht, hlast]; rfl
    have hmt : m.msgs t = some tn := Chain.lookup_node q _ t tn hc (List.mem_of_getLast?_eq_some hlast)
    have htp : t ≠ p := fun h => by rw [h, hfresh] at hmt; cases hmt
    have h2 : ((m.setMsg p (new_message MSG_SIZE level file line now text)).emit
        (.lock .queue)).msgs t = some tn := by
      simp [htp, hmt]
    simp only [htn, h2, Option.some_bind, Option.bind_eq_bind]
    have h3 : ((((m.setMsg p (new_message MSG_SIZE level file line now text)).emit
        (.lock .queue)).setMsg t { tn with next := some p }).loggers lp) = some L := hL
    rw [h3]
    simp only [Option.some_bind]
    congr 1
    apply Mem.ext
    · funext a
      by_cases ha : a = lp
      · simp [ha, Logger.linked, htn, hasync]
      · simp [ha]
    · rfl
    · funext a
      simp [link_node, hlast]
    · simp

theorem Queue.linked (m : Mem) (L : Logger) (q : List (Ptr × LogMessage)) (p : Ptr)
    (n : LogMessage) (hn : n.next = none) (hq : Queue m L q) (hfresh : m.msgs p = none)
    (m2 : Mem) (hm : m2.msgs = link_node m.msgs q p n) :
    Queue m2 (L.linked p) (append_node q p n) := by
  obtain ⟨hc, ht⟩ := hq
  have hnd := Chain.nodup q _ hc
  have hp : p ∉ q.map Prod.fst := by
    intro hmem
    obtain ⟨⟨a, an⟩, hx, rfl⟩ := List.mem_map.1 hmem
    have := Chain.lookup_node q _ a an hc hx
    simp only at this
    rw [hfresh] at this
    cases this
  have key := Chain.append_node p n hn q _ hc hnd hp
  refine ⟨?_, ?_⟩
  · rw [hm]
    have hiff : (L.queue_tail = none) ↔ q = [] := by
      rw [ht]
      cases q with
      | nil => simp
      | cons x r =>
        have : (x :: r).getLast? ≠ none := by simp
        cases hz : (x :: r).getLast? with
        | none => exact absurd hz this
        | some z => simp
    have : (L.linked p).queue_head = if q = [] then some p else L.queue_head := by
      by_cases hq : q = []
      · simp [Logger.linked, hiff.2 hq, hq]
      · have : ¬ L.queue_tail = none := fun h => hq (hiff.1 h)
        simp [Logger.linked, this, hq]
    rw [this]
    exact key
  · simp [Logger.linked, append_node_getLast]

theorem writes_append (a b : List Event) : writes (a ++ b) = writes a ++ writes b := by
  simp [writes]

theorem writes_fan_out (ss : List (Ptr × LogSink)) (i : Nat) (msg : Ptr) (body : LogMessage)
    (level : LogLevel) : writes (fan_out ss i msg body level) = fan_out ss i msg body level := by
  simp only [writes, fan_out, List.filter_eq_self, List.mem_map]
  rintro e ⟨x, _, rfl⟩
  rfl

theorem writes_drain_events (ss : List (Ptr × LogSink)) :
    ∀ q : List (Ptr × LogMessage), writes (drain_events ss q) = deliveries ss q
  | [] => by simp [drain_events, deliveries, writes]
  | (p, n) :: rest => by
    have ih := writes_drain_events ss rest
    simp only [drain_events, deliveries, writes_append, writes_fan_out, ih]
    simp [writes]

theorem teardowns_append (a b : List Event) :
    teardowns (a ++ b) = teardowns a ++ teardowns b := by
  simp [teardowns]

theorem teardowns_fan_out (ss : List (Ptr × LogSink)) (i : Nat) (msg : Ptr) (body : LogMessage)
    (level : LogLevel) : teardowns (fan_out ss i msg body level) = [] := by
  simp only [teardowns, fan_out, List.filter_eq_nil_iff, List.mem_map]
  rintro e ⟨x, _, rfl⟩
  simp

theorem teardowns_drain_events (ss : List (Ptr × LogSink)) :
    ∀ q : List (Ptr × LogMessage), teardowns (drain_events ss q) = []
  | [] => by simp [drain_events, teardowns]
  | (p, n) :: rest => by
    have ih := teardowns_drain_events ss rest
    simp only [drain_events, teardowns_append, teardowns_fan_out, ih]
    simp [teardowns]

theorem deliveries_append (ss : List (Ptr × LogSink)) :
    ∀ d1 d2 : List (Ptr × LogMessage),
      deliveries ss (d1 ++ d2) = deliveries ss d1 ++ deliveries ss d2
  | [], d2 => by simp [deliveries]
  | (p, n) :: rest, d2 => by
    simp [deliveries, deliveries_append ss rest d2]

theorem dequeued_first_fan_out (ss : List (Ptr × LogSink)) (msg : Ptr) (body : LogMessage)
    (level : LogLevel) (seen : List Ptr) (hm : msg ∈ seen) (t : List Event) :
    ∀ i, dequeued_first seen (fan_out ss i msg body level ++ t) = dequeued_first seen t := by
  induction ss with
  | nil => intro i; simp [fan_out_nil]
  | cons x rest ih =>
    intro i
    obtain ⟨sp, s⟩ := x
    rw [fan_out_cons]
    split
    · simp [dequeued_first, hm, ih (i + 1)]
    · simp [ih (i + 1)]

theorem dequeued_first_append :
    ∀ (t1 t2 : List Event) (seen : List Ptr), dequeued_first seen t1 = true →
      (∀ s, dequeued_first s t2 = true) → dequeued_first seen (t1 ++ t2) = true := by
  intro t1
  induction t1 with
  | nil => intro t2 seen _ h2; simpa using h2 seen
  | cons e t ih =>
    intro t2 seen h1 h2
    cases e <;> simp only [dequeued_first, List.cons_append, Bool.and_eq_true] at h1 ⊢
    all_goals first
      | exact ih t2 _ h1 h2
      | exact ⟨h1.1, ih t2 _ h1.2 h2⟩

theorem dequeued_first_drain_events (ss : List (Ptr × LogSink)) :
    ∀ (q : List (Ptr × LogMessage)) (seen : List Ptr),
      dequeued_first seen (drain_events ss q) = true
  | [], seen => by simp [drain_events, dequeued_first]
  | (p, n) :: rest, seen => by
    have h : drain_events ss ((p, n) :: rest) =
        .lock .queue :: .dequeue p :: .unlock .queue ::
          (fan_out ss 0 p n n.level ++ drain_events ss rest) := by
      simp [drain_events]
    rw [h]
    simp only [dequeued_first]
    rw [dequeued_first_fan_out ss p n n.level (p :: seen) (by simp)]
    exact dequeued_first_drain_events ss rest _

theorem release_nil (msgs : Ptr → Option LogMessage) : release msgs [] = msgs := by
  funext a; simp [release]

theorem release_append (msgs : Ptr → Option LogMessage) (d1 d2 : List (Ptr × LogMessage)) :
    release (release msgs d1) d2 = release msgs (d1 ++ d2) := by
  funext a
  simp only [release, List.map_append, List.mem_append]
  by_cases h2 : a ∈ d2.map Prod.fst
  · simp [h2]
  · by_cases h1 : a ∈ d1.map Prod.fst
    · simp [h1, h2]
    · simp [h1, h2]

theorem Drained.drained_refl (lp : Ptr) (ss : List (Ptr × LogSink)) (m : Mem) (L : Logger)
    (hL : m.loggers lp = some L) : Drained lp ss m m [] :=
  ⟨rfl, (release_nil _).symm, fun _ _ => rfl, ⟨L, L, hL, hL, rfl⟩, [], by simp, rfl, rfl,
    fun _ => rfl⟩

theorem Drained.drained_trans {lp : Ptr} {ss : List (Ptr × LogSink)} {m1 m2 m3 : Mem}
    {d1 d2 : List (Ptr × LogMessage)} (h12 : Drained lp ss m1 m2 d1)
    (h23 : Drained lp ss m2 m3 d2) : Drained lp ss m1 m3 (d1 ++ d2) := by
  obtain ⟨a1, a2, a3, ⟨L, L2, a4, a5, a6⟩, e1, a7, a8, at1, a9⟩ := h12
  obtain ⟨b1, b2, b3, ⟨K, K2, b4, b5, b6⟩, e2, b7, b8, bt1, b9⟩ := h23
  refine ⟨b1.trans a1, by rw [b2, a2, release_append], fun a ha => (b3 a ha).trans (a3 a ha),
    ⟨L, K2, a4, b5, ?_⟩, e1 ++ e2, by rw [b7, a7, List.append_assoc],
    by rw [writes_append, a8, b8, deliveries_append],
    by rw [teardowns_append, at1, bt1]; rfl,
    fun s => dequeued_first_append e1 e2 s (a9 s) b9⟩
  rw [a5] at b4
  cases b4
  exact b6.trans a6

theorem Drained.emit_silent (lp : Ptr) (ss : List (Ptr × LogSink)) (m : Mem) (L : Logger)
    (hL : m.loggers lp = some L) (e : Event) (hw : writes [e] = []) (ht : teardowns [e] = [])
    (hd : ∀ seen, dequeued_first seen [e] = true) : Drained lp ss m (m.emit e) [] :=
  ⟨rfl, (release_nil _).symm, fun _ _ => rfl, ⟨L, L, hL, hL, rfl⟩, [e], rfl, hw, ht, hd⟩

theorem Drained.drained_setLogger (lp : Ptr) (ss : List (Ptr × LogSink)) (m : Mem) (L L2 : Logger)
    (hL : m.loggers lp = some L) (hs : L2.settings = L.settings) :
    Drained lp ss m (m.setLogger lp L2) [] :=
  ⟨rfl, (release_nil _).symm, fun a ha => by simp [ha], ⟨L, L2, hL, by simp, hs⟩, [], by simp,
    rfl, rfl, fun _ => rfl⟩

theorem Ready.emit_any {lp : Ptr} {ss : List (Ptr × LogSink)} {m : Mem}
    {q : List (Ptr × LogMessage)} (h : Ready lp ss m q) (e : Event) : Ready lp ss (m.emit e) q :=
  h

/-- The drain, from a state that is ready: the queue ends empty, its nodes are
delivered. -/
theorem process_all_messages_ready (lp : Ptr) (ss : List (Ptr × LogSink)) (m : Mem)
    (q : List (Ptr × LogMessage)) (fuel : Nat) (h : Ready lp ss m q) (hf : q.length < fuel) :
    ∃ m2, process_all_messages lp fuel m = some m2 ∧ Ready lp ss m2 [] ∧
      Drained lp ss m m2 q ∧ m2.trace = m.trace ++ drain_events ss q := by
  obtain ⟨L, hL, hreg, hq⟩ := h
  refine ⟨_, process_all_messages_drain lp ss q m L fuel hL hreg hq hf, ?_, ?_, rfl⟩
  · exact ⟨L.emptied, by simp, hreg, rfl, rfl⟩
  · exact ⟨rfl, rfl, fun a ha => by simp [ha], ⟨L, L.emptied, hL, by simp, rfl⟩,
      drain_events ss q, rfl, writes_drain_events ss q, teardowns_drain_events ss q,
      dequeued_first_drain_events ss q⟩

theorem Ready.ready_setLogger {lp : Ptr} {ss : List (Ptr × LogSink)} {m : Mem}
    {q : List (Ptr × LogMessage)} (L L2 : Logger) (hL : m.loggers lp = some L)
    (h : Ready lp ss m q) (h1 : L2.sink_count = L.sink_count) (h2 : L2.sinks = L.sinks)
    (h3 : L2.queue_head = L.queue_head) (h4 : L2.queue_tail = L.queue_tail) :
    Ready lp ss (m.setLogger lp L2) q := by
  obtain ⟨K, hK, hreg, hq⟩ := h
  rw [hL] at hK
  cases hK
  exact ⟨L2, by simp, ⟨by rw [h1]; exact hreg.1, by rw [h2]; exact hreg.2⟩,
    by rw [h3]; exact hq.1, by rw [h4]; exact hq.2⟩

/-- The auto-flush part of a worker iteration, from a state that is ready: it
delivers either nothing or the whole queue. -/
theorem worker_auto_flush_ready (fuel : Nat) (lp : Ptr) (env : WorkerEnv)
    (ss : List (Ptr × LogSink)) (m : Mem) (q : List (Ptr × LogMessage))
    (h : Ready lp ss m q) (hf : q.length < fuel) :
    ∃ m2 d r, q = d ++ r ∧ worker_auto_flush fuel lp env m = some m2 ∧ Ready lp ss m2 r ∧
      Drained lp ss m m2 d := by
  obtain ⟨L, hL, hreg, hq⟩ := h
  have hready : Ready lp ss m q := ⟨L, hL, hreg, hq⟩
  simp only [worker_auto_flush, hL, Option.bind_eq_bind, Option.some_bind]
  split
  · split
    · split
      · obtain ⟨m1, h1, r1, d1, _⟩ := process_all_messages_ready lp ss
          (m.emit (.trylock .engine true)) q fuel (hready.emit_any _) hf
        obtain ⟨L1, hL1, hreg1, hq1⟩ := r1
        refine ⟨(m1.setLogger lp { L1 with last_flush_time := env.current_time }).emit
          (.unlock .engine), q, [], by simp, ?_, ?_, ?_⟩
        · simp only [h1, Option.some_bind, hL1]
        · exact Ready.emit_any (Ready.ready_setLogger L1 { L1 with last_flush_time := env.current_time }
            hL1 ⟨L1, hL1, hreg1, hq1⟩ rfl rfl rfl rfl) _
        · have e0 : Drained lp ss m (m.emit (.trylock .engine true)) [] :=
            Drained.emit_silent lp ss m L hL _ rfl rfl (fun _ => rfl)
          have e2 := Drained.drained_setLogger lp ss m1 L1
            { L1 with last_flush_time := env.current_time } hL1 rfl
          have e3 := Drained.emit_silent lp ss (m1.setLogger lp
            { L1 with last_flush_time := env.current_time })
            { L1 with last_flush_time := env.current_time } (by simp) (.unlock .engine) rfl rfl
            (fun _ => rfl)
          simpa using Drained.drained_trans e0 (Drained.drained_trans d1 (Drained.drained_trans e2 e3))
      · exact ⟨_, [], q, rfl, rfl, hready.emit_any _, Drained.emit_silent lp ss m L hL _ rfl rfl (fun _ => rfl)⟩
    · exact ⟨m, [], q, rfl, rfl, hready, Drained.drained_refl lp ss m L hL⟩
  · exact ⟨m, [], q, rfl, rfl, hready, Drained.drained_refl lp ss m L hL⟩

/-- The single-message part of a worker iteration, from a state that is ready: it
delivers the head of the queue, if there is one. -/
theorem worker_single_step_ready (lp : Ptr) (ss : List (Ptr × LogSink)) (m : Mem)
    (q : List (Ptr × LogMessage)) (h : Ready lp ss m q) :
    ∃ m2, worker_single_step lp m = some m2 ∧ Ready lp ss m2 q.tail ∧
      Drained lp ss m m2 (q.take 1) := by
  obtain ⟨L, hL, hreg, hq⟩ := h
  cases q with
  | nil =>
    have hh : L.queue_head = none := hq.1
    refine ⟨((m.emit (.lock .queue)).emit (.unlock .queue)).emit .thrd_yield, ?_, ?_, ?_⟩
    · simp only [worker_single_step, pop_message_nil lp m L hL hh, Option.bind_eq_bind,
        Option.some_bind]
    · exact ⟨L, hL, hreg, hq⟩
    · have e0 := Drained.emit_silent lp ss m L hL (.lock .queue) rfl rfl (fun _ => rfl)
      have e1 := Drained.emit_silent lp ss (m.emit (.lock .queue)) L hL (.unlock .queue) rfl rfl
        (fun _ => rfl)
      have e2 := Drained.emit_silent lp ss ((m.emit (.lock .queue)).emit (.unlock .queue)) L hL
        .thrd_yield rfl rfl (fun _ => rfl)
      simpa using Drained.drained_trans e0 (Drained.drained_trans e1 e2)
  | cons x rest =>
    obtain ⟨p, n⟩ := x
    have hnd := Chain.nodup _ _ hq.1
    obtain ⟨⟨h1, h2, h3⟩, ht⟩ := hq
    simp only [List.map_cons, List.nodup_cons] at hnd
    obtain ⟨L2, hL2, hsc, hsk, hhd, htl, hst⟩ : ∃ L2 : Logger,
        (if n.next = none then { L with queue_head := none, queue_tail := none }
          else { L with queue_head := n.next }) = L2 ∧
        L2.sink_count = L.sink_count ∧ L2.sinks = L.sinks ∧ L2.queue_head = n.next ∧
        L2.queue_tail = (rest.getLast?).map Prod.fst ∧ L2.settings = L.settings := by
      refine ⟨_, rfl, ?_⟩
      by_cases hx : n.next = none
      · have hr : rest = [] := (Chain.next_eq_none_iff h3).1 hx
        simp [hx, hr, Logger.settings]
      · have hr : rest ≠ [] := fun h => hx ((Chain.next_eq_none_iff h3).2 h)
        simp only [hx, if_false, Logger.settings, true_and]
        obtain ⟨y, r2, rfl⟩ := List.exists_cons_of_ne_nil hr
        rw [ht, List.getLast?_cons_cons]
        exact ⟨rfl, trivial⟩
    simp only [worker_single_step, pop_message_cons lp m L p n hL h1 h2, Option.bind_eq_bind,
      Option.some_bind, hL2, Mem.emit_loggers, if_true]
    rw [hsc, ← hreg.1]
    rw [dispatch_queued_trace lp p L2 n ss 0 _ (by simp) (by simpa using h2)
      (by simpa [hsk] using hreg.2)]
    simp only [Option.some_bind]
    refine ⟨_, rfl, ?_, ?_⟩
    · refine ⟨L2, by simp [Mem.emit], ⟨by rw [hsc]; exact hreg.1, by simpa [hsk] using hreg.2⟩,
        ?_, htl⟩
      rw [hhd]
      refine Chain.congr_heap rest _ ?_ h3
      intro a ha
      have : a ≠ p := fun h => hnd.1 (h ▸ ha)
      simp [this, Mem.emit]
    · refine ⟨rfl, ?_, fun a ha => by simp [ha, Mem.emit], ⟨L, L2, hL, by simp [Mem.emit], hst⟩,
        [.lock .queue, .dequeue p, .unlock .queue, .lock .engine] ++
          fan_out ss 0 p n n.level ++ [.unlock .engine], by simp [Mem.emit], ?_, ?_, ?_⟩
      · funext a
        by_cases ha : a = p
        · simp [ha, release, Mem.emit]
        · simp [ha, release, Mem.emit]
      · simp only [writes_append, writes_fan_out, List.take_succ_cons, List.take_zero,
          deliveries, List.append_nil]
        simp [writes]
      · simp only [teardowns_append, teardowns_fan_out]
        simp [teardowns]
      · intro seen
        have hx : [Event.lock .queue, .dequeue p, .unlock .queue, .lock .engine] ++
            fan_out ss 0 p n n.level ++ [.unlock .engine] =
            .lock .queue :: .dequeue p :: .unlock .queue :: .lock .engine ::
              (fan_out ss 0 p n n.level ++ [.unlock .engine]) := by simp
        rw [hx]
        simp only [dequeued_first]
        rw [dequeued_first_fan_out ss p n n.level (p :: seen) (by simp)]
        rfl

/-- One worker iteration, from a state that is ready: it delivers a front part
of the queue, at least one node when the queue is not empty. -/
theorem worker_iteration_ready (fuel : Nat) (lp : Ptr) (env : WorkerEnv)
    (ss : List (Ptr × LogSink)) (m : Mem) (q : List (Ptr × LogMessage))
    (h : Ready lp ss m q) (hf : q.length < fuel) :
    ∃ m2 d r, q = d ++ r ∧ (q ≠ [] → d ≠ []) ∧ worker_iteration fuel lp env m = some m2 ∧
      Ready lp ss m2 r ∧ Drained lp ss m m2 d := by
  obtain ⟨m1, d1, r1, hsplit, h1, hr1, hd1⟩ := worker_auto_flush_ready fuel lp env ss m q h hf
  obtain ⟨m2, h2, hr2, hd2⟩ := worker_single_step_ready lp ss m1 r1 hr1
  refine ⟨m2, d1 ++ r1.take 1, r1.tail, ?_, ?_, ?_, hr2, Drained.drained_trans hd1 hd2⟩
  · rw [hsplit, List.append_assoc]
    congr 1
    cases r1 <;> simp
  · intro hne
    cases r1 with
    | nil =>
      rw [hsplit] at hne
      simpa using hne
    | cons x r => simp
  · simp only [worker_iteration, h1, Option.bind_eq_bind, Option.some_bind, h2]

theorem Drained.running {lp : Ptr} {ss : List (Ptr × LogSink)} {m m2 : Mem}
    {d : List (Ptr × LogMessage)} (h : Drained lp ss m m2 d)
    (hr : ∀ L, m.loggers lp = some L → L.running = false) :
    ∀ L, m2.loggers lp = some L → L.running = false := by
  obtain ⟨_, _, _, ⟨L, L2, a4, a5, a6⟩, _⟩ := h
  intro K hK
  rw [a5] at hK
  cases hK
  have := hr L a4
  simp only [Logger.settings, Prod.mk.injEq] at a6
  rw [a6.1, this]

/-- The worker loop after `running` was cleared, from a state that is ready: with
one input per queued node it reaches its exit, the queue is empty and every
node was delivered. -/
theorem worker_thread_func_ready (fuel : Nat) (lp : Ptr) (ss : List (Ptr × LogSink)) :
    ∀ (envs : List WorkerEnv) (m : Mem) (q : List (Ptr × LogMessage)),
      Ready lp ss m q → (∀ L, m.loggers lp = some L → L.running = false) →
      q.length < fuel → q.length ≤ envs.length →
      ∃ m2, worker_thread_func fuel lp envs m = some m2 ∧ Ready lp ss m2 [] ∧
        Drained lp ss m m2 q := by
  intro envs
  induction envs with
  | nil =>
    intro m q h hrun _ hlen
    have hq : q = [] := List.eq_nil_of_length_eq_zero (by simpa using hlen)
    subst hq
    obtain ⟨L, hL, hreg, hqu⟩ := h
    have hh : L.queue_head = none := hqu.1
    exact ⟨m, by simp [worker_thread_func, hL, hrun L hL, hh], ⟨L, hL, hreg, hqu⟩,
      Drained.drained_refl lp ss m L hL⟩
  | cons env envs ih =>
    intro m q h hrun hf hlen
    obtain ⟨L, hL, hreg, hqu⟩ := h
    cases q with
    | nil =>
      have hh : L.queue_head = none := hqu.1
      exact ⟨m, by simp [worker_thread_func, hL, hrun L hL, hh], ⟨L, hL, hreg, hqu⟩,
        Drained.drained_refl lp ss m L hL⟩
    | cons x rest =>
      have hh : L.queue_head = some x.1 := hqu.1.1
      obtain ⟨m1, d, r, hsplit, hne, h1, hr1, hd1⟩ :=
        worker_iteration_ready fuel lp env ss m (x :: rest) ⟨L, hL, hreg, hqu⟩ hf
      have hdl : d.length ≠ 0 := fun h0 => hne (by simp) (List.eq_nil_of_length_eq_zero h0)
      have hlen2 : (x :: rest).length = d.length + r.length := by rw [hsplit, List.length_append]
      simp only [List.length_cons] at hlen hlen2 hf
      obtain ⟨m2, h2, hr2, hd2⟩ := ih m1 r hr1 (hd1.running hrun) (by omega) (by omega)
      refine ⟨m2, ?_, hr2, ?_⟩
      · simp [worker_thread_func, hL, hh, h1, h2]
      · rw [hsplit]
        exact Drained.drained_trans hd1 hd2

theorem teardown_events_cons (sp : Ptr) (s : LogSink) (rest : List (Ptr × LogSink)) (i : Nat) :
    teardown_events ((sp, s) :: rest) i =
      (match s.destroy with
        | some fn => [Event.teardown i sp fn]
        | none => []) ++ teardown_events rest (i + 1) := by
  cases h : s.destroy <;> simp [teardown_events, List.enumFrom, List.filterMap, h]

theorem teardown_sinks_trace (lp : Ptr) (L : Logger) :
    ∀ (ss : List (Ptr × LogSink)) (i : Nat) (m : Mem),
      m.loggers lp = some L → SinksFrom m.sinks L.sinks i ss →
      teardown_sinks lp ss.length i m =
        some { m with trace := m.trace ++ teardown_events ss i } := by
  intro ss
  induction ss with
  | nil => intro i m _ _; simp [teardown_sinks, teardown_events]
  | cons x rest ih =>
    intro i m hL hs
    obtain ⟨sp, s⟩ := x
    obtain ⟨h1, h2, h3⟩ := hs
    cases hd : s.destroy with
    | none =>
      simp [teardown_sinks, hL, h1, h2, hd, ih (i + 1) m hL h3, teardown_events_cons]
    | some fn =>
      have := ih (i + 1) (m.emit (.teardown i sp fn)) hL h3
      simp [teardown_sinks, hL, h1, h2, hd, this, teardown_events_cons]

theorem teardowns_teardown_events (ss : List (Ptr × LogSink)) (i : Nat) :
    teardowns (teardown_events ss i) = teardown_events ss i := by
  simp only [teardowns, teardown_events, List.filter_eq_self, List.mem_filterMap]
  rintro e ⟨x, _, hx⟩
  cases hd : x.2.2.destroy with
  | none => simp [hd] at hx
  | some fn =>
    simp only [hd, Option.map_some', Option.some.injEq] at hx
    subst hx
    rfl

theorem writes_teardown_events (ss : List (Ptr × LogSink)) (i : Nat) :
    writes (teardown_events ss i) = [] := by
  simp only [writes, teardown_events, List.filter_eq_nil_iff, List.mem_filterMap]
  rintro e ⟨x, _, hx⟩
  cases hd : x.2.2.destroy with
  | none => simp [hd] at hx
  | some fn =>
    simp only [hd, Option.map_some', Option.some.injEq] at hx
    subst hx
    simp

/-- The whole of `logger_destroy` on a live logger with registered sinks `ss`: for
an async logger whose queue holds `q` the worker delivers `q` before the join;
then every sink with a `destroy` function is torn down in slot order and the
logger object is released. -/
theorem logger_destroy_eq (fuel : Nat) (lp : Ptr) (ss : List (Ptr × LogSink))
    (envs : List WorkerEnv) (m : Mem) (L : Logger) (q : List (Ptr × LogMessage))
    (hL : m.loggers lp = some L) (hreg : Registered m L ss)
    (hq : L.async = true → Queue m L q ∧ q.length < fuel ∧ q.length ≤ envs.length) :
    ∃ m3, logger_destroy fuel (some lp) envs m = some m3 ∧ m3.loggers lp = none ∧
      (∀ a, a ≠ lp → m3.loggers a = m.loggers a) ∧ m3.sinks = m.sinks ∧
      m3.msgs = (if L.async then release m.msgs q else m.msgs) ∧
      writes m3.trace = writes m.trace ++ (if L.async then deliveries ss q else []) ∧
      teardowns m3.trace = teardowns m.trace ++ teardown_events ss 0 := by
  obtain ⟨L1, hdef, hrun1, hview⟩ : ∃ L1 : Logger, { L with running := false } = L1 ∧
      L1.running = false ∧ (L1.sink_count = L.sink_count ∧ L1.sinks = L.sinks ∧
        L1.queue_head = L.queue_head ∧ L1.queue_tail = L.queue_tail) :=
    ⟨_, rfl, rfl, rfl, rfl, rfl, rfl⟩
  obtain ⟨v1, v2, v3, v4⟩ := hview
  have hL1 : (m.setLogger lp L1).loggers lp = some L1 := by simp
  have hreg1 : Registered (m.setLogger lp L1) L1 ss :=
    ⟨by rw [v1]; exact hreg.1, by rw [v2]; exact hreg.2⟩
  simp only [logger_destroy, hL, Option.bind_eq_bind, Option.some_bind, hdef]
  by_cases hasync : L.async = true
  · obtain ⟨hqu, hf, hlen⟩ := hq hasync
    have hready : Ready lp ss (m.setLogger lp L1) q :=
      ⟨L1, hL1, hreg1, by rw [v3]; exact hqu.1, by rw [v4]; exact hqu.2⟩
    obtain ⟨m2, h2, ⟨L2, hL2, hreg2, hq2⟩, hd⟩ := worker_thread_func_ready fuel lp ss envs _ q
      hready (fun K hK => by rw [hL1] at hK; cases hK; exact hrun1) hf hlen
    obtain ⟨d1, d2, d3, _, evs, d5, d6, d7, _⟩ := hd
    simp only [hasync, if_true, h2, Option.some_bind, Mem.emit_loggers, hL2]
    rw [← hreg2.1, teardown_sinks_trace lp L2 ss 0 _ (by simpa using hL2)
      (by simpa using hreg2.2)]
    refine ⟨_, rfl, by simp, fun a ha => ?_, ?_, ?_, ?_, ?_⟩
    · simp only [Mem.freeLogger_loggers, ha, if_false, Mem.emit_loggers]
      rw [d3 a ha]
      simp [ha]
    · simpa using d1
    · simpa using d2
    · simp only [Mem.freeLogger_trace, Mem.emit_trace, d5, Mem.setLogger_trace, writes_append,
        d6, writes_teardown_events]
      simp [writes]
    · simp only [Mem.freeLogger_trace, Mem.emit_trace, d5, Mem.setLogger_trace,
        teardowns_append, d7, teardowns_teardown_events]
      simp [teardowns]
  · simp only [hasync, Bool.false_eq_true, if_false, Option.some_bind, Mem.emit_loggers, hL1]
    rw [v1, ← hreg.1, teardown_sinks_trace lp L1 ss 0 _ (by simp) (by simpa using hreg1.2)]
    refine ⟨_, rfl, by simp, fun a ha => by simp [ha], rfl, rfl, ?_, ?_⟩
    · simp only [Mem.freeLogger_trace, Mem.emit_trace, Mem.setLogger_trace, writes_append,
        writes_teardown_events]
      simp [writes]
    · simp only [Mem.freeLogger_trace, Mem.emit_trace, Mem.setLogger_trace, teardowns_append,
        teardowns_teardown_events]
      simp [teardowns]

/-- The function `logger_flush` on an async logger, from a state that is ready. -/
theorem logger_flush_ready (fuel : Nat) (lp : Ptr) (ss : List (Ptr × LogSink)) (m : Mem)
    (L : Logger) (q : List (Ptr × LogMessage)) (hL : m.loggers lp = some L)
    (hasync : L.async = true) (hreg : Registered m L ss) (hq : Queue m L q)
    (hf : q.length < fuel) :
    logger_flush fuel (some lp) m = some
      { loggers := fun a => if a = lp then some L.emptied else m.loggers a
        sinks := m.sinks
        msgs := release m.msgs q
        trace := m.trace ++ [.lock .engine] ++ drain_events ss q ++ [.unlock .engine] } := by
  simp only [logger_flush, hL, Option.bind_eq_bind, Option.some_bind, hasync]
  rw [process_all_messages_drain lp ss q (m.emit (.lock .engine)) L fuel hL hreg hq hf]
  simp [Mem.emit]

theorem enqueued_append_node (MSG_SIZE : Nat) (c : LogCall) :
    ∀ pre : List LogCall,
      append_node (enqueued MSG_SIZE pre) c.addr (c.node MSG_SIZE) =
        enqueued MSG_SIZE (pre ++ [c])
  | [] => by simp [enqueued, append_node, LogCall.node, new_message]
  | [x] => by simp [enqueued, append_node, LogCall.node, new_message]
  | x :: y :: rest => by
    have ih := enqueued_append_node MSG_SIZE c (y :: rest)
    simp only [enqueued, List.head?_cons, Option.map_some', List.cons_append] at ih ⊢
    simp only [append_node, ih]
    rfl

theorem enqueued_foldl (MSG_SIZE : Nat) :
    ∀ (cs pre : List LogCall),
      cs.foldl (fun q c => append_node q c.addr (c.node MSG_SIZE)) (enqueued MSG_SIZE pre) =
        enqueued MSG_SIZE (pre ++ cs)
  | [], pre => by simp
  | c :: cs, pre => by
    simp only [List.foldl_cons, enqueued_append_node]
    rw [enqueued_foldl MSG_SIZE cs (pre ++ [c])]
    simp

theorem enqueued_addrs (MSG_SIZE : Nat) :
    ∀ cs : List LogCall, (enqueued MSG_SIZE cs).map Prod.fst = cs.map fun c => c.addr
  | [] => rfl
  | c :: cs => by simp [enqueued, enqueued_addrs MSG_SIZE cs]

theorem link_node_other (msgs : Ptr → Option LogMessage) (q : List (Ptr × LogMessage))
    (p : Ptr) (n : LogMessage) (a : Ptr) (hp : a ≠ p) (hq : a ∉ q.map Prod.fst) :
    link_node msgs q p n a = msgs a := by
  unfold link_node
  cases hl : q.getLast? with
  | none => simp [hp]
  | some z =>
    obtain ⟨t, tn⟩ := z
    have : a ≠ t := fun h => hq (List.mem_map.2 ⟨(t, tn), List.mem_of_getLast?_eq_some hl, h.symm⟩)
    simp [hp, this]

/-- A sequence of log calls on an async logger, from a state that is ready, with
fresh and distinct addresses: every node is linked behind the queue, no sink
is called. -/
theorem log_all_ready (MSG_SIZE : Nat) (lp : Ptr) (ss : List (Ptr × LogSink)) :
    ∀ (cs : List LogCall) (m : Mem) (L : Logger) (q : List (Ptr × LogMessage)),
      m.loggers lp = some L → L.async = true → Registered m L ss → Queue m L q →
      (∀ c ∈ cs, m.msgs c.addr = none) → (cs.map fun c => c.addr).Nodup →
      ∃ m2 L2, log_all MSG_SIZE lp cs m = some m2 ∧ m2.loggers lp = some L2 ∧
        L2.settings = L.settings ∧ L2.last_flush_time = L.last_flush_time ∧
        Registered m2 L2 ss ∧
        Queue m2 L2 (cs.foldl (fun q c => append_node q c.addr (c.node MSG_SIZE)) q) ∧
        (∀ a, a ≠ lp → m2.loggers a = m.loggers a) ∧ m2.sinks = m.sinks ∧
        (∀ a, a ∉ cs.map (fun c => c.addr) → a ∉ q.map Prod.fst → m2.msgs a = m.msgs a) ∧
        ∃ evs, m2.trace = m.trace ++ evs ∧ writes evs = [] ∧ teardowns evs = [] := by
  intro cs
  induction cs with
  | nil =>
    intro m L q hL _ hreg hq _ _
    exact ⟨m, L, rfl, hL, rfl, rfl, hreg, hq, fun _ _ => rfl, rfl, fun _ _ _ => rfl, [],
      by simp, rfl, rfl⟩
  | cons c cs ih =>
    intro m L q hL hasync hreg hq hfresh hnd
    have hfc : m.msgs c.addr = none := hfresh c (by simp)
    have h1 := logger_log_async_eq MSG_SIZE m lp L q c.level c.file c.line c.text c.addr c.now
      hL hasync hq hfc
    simp only [List.map_cons, List.nodup_cons] at hnd
    obtain ⟨m1, e1, e2, e3, e4, e5, e6⟩ : ∃ m1, c.apply MSG_SIZE lp m = some m1 ∧
        m1.loggers lp = some (L.linked c.addr) ∧ (∀ a, a ≠ lp → m1.loggers a = m.loggers a) ∧
        m1.sinks = m.sinks ∧ m1.msgs = link_node m.msgs q c.addr (c.node MSG_SIZE) ∧
        m1.trace = m.trace ++ [.lock .queue, .enqueue c.addr, .unlock .queue] :=
      ⟨_, h1, by simp, fun a ha => by simp [ha], rfl, rfl, rfl⟩
    have hq1 := Queue.linked m L q c.addr (c.node MSG_SIZE) rfl hq hfc m1 e5
    have hcq : c.addr ∉ q.map Prod.fst := by
      intro hmem
      obtain ⟨⟨a, an⟩, hx, hax⟩ := List.mem_map.1 hmem
      have := Chain.lookup_node q _ a an hq.1 hx
      simp only at hax
      rw [hax, hfc] at this
      cases this
    have hreg1 : Registered m1 (L.linked c.addr) ss := ⟨hreg.1, by rw [e4]; exact hreg.2⟩
    obtain ⟨m2, L2, g1, g2, g3, g3b, g4, g5, g6, g7, g8, evs, g9, g10, g11⟩ :=
      ih m1 (L.linked c.addr) _ e2 hasync hreg1 hq1
        (fun c2 hc2 => by
          have hne : c2.addr ≠ c.addr := fun h => hnd.1 (List.mem_map.2 ⟨c2, hc2, h⟩)
          have hnq : c2.addr ∉ q.map Prod.fst := by
            intro hmem
            obtain ⟨⟨a, an⟩, hx, hax⟩ := List.mem_map.1 hmem
            have := Chain.lookup_node q _ a an hq.1 hx
            simp only at hax
            rw [hax, hfresh c2 (by simp [hc2])] at this
            cases this
          rw [e5, link_node_other _ _ _ _ _ hne hnq]
          exact hfresh c2 (by simp [hc2])) hnd.2
    refine ⟨m2, L2, ?_, g2, g3, g3b, g4, g5, ?_, g7.trans e4, ?_, ?_⟩
    · simp only [log_all, e1, Option.some_bind]
      exact g1
    · intro a ha
      rw [g6 a ha, e3 a ha]
    · intro a ha haq
      simp only [List.map_cons, List.mem_cons, not_or] at ha
      rw [g8 a ha.2 (by
        rw [append_node_addrs]
        simp only [List.mem_append, List.mem_singleton, not_or]
        exact ⟨haq, ha.1⟩), e5]
      exact link_node_other _ _ _ _ _ ha.1 haq
    · refine ⟨[.lock .queue, .enqueue c.addr, .unlock .queue] ++ evs, ?_, ?_, ?_⟩
      · rw [g9, e6]; simp
      · rw [writes_append, g10]; rfl
      · rw [teardowns_append, g11]; rfl

theorem writes_to_append (i : Nat) (a b : List Event) :
    writes_to i (a ++ b) = writes_to i a ++ writes_to i b := by
  simp [writes_to]

theorem writes_to_writes (i : Nat) (t : List Event) : writes_to i (writes t) = writes_to i t := by
  simp only [writes_to, writes, List.filter_filter]
  congr 1
  funext e
  cases e <;> simp

theorem writes_to_fan_out_above (i : Nat) (msg : Ptr) (body : LogMessage) (level : LogLevel) :
    ∀ (ss : List (Ptr × LogSink)) (j : Nat), i < j →
      writes_to i (fan_out ss j msg body level) = [] := by
  intro ss
  induction ss with
  | nil => intro j _; simp [fan_out_nil, writes_to]
  | cons x rest ih =>
    intro j hj
    obtain ⟨sp, s⟩ := x
    rw [fan_out_cons, writes_to_append, ih (j + 1) (by omega)]
    have hne : (j == i) = false := by simp; omega
    split <;> simp [writes_to, hne]

theorem writes_to_fan_out (i : Nat) (msg : Ptr) (body : LogMessage) (level : LogLevel)
    (sp : Ptr) (s : LogSink) :
    ∀ (ss : List (Ptr × LogSink)) (j : Nat), j ≤ i → ss[i - j]? = some (sp, s) →
      writes_to i (fan_out ss j msg body level) =
        if s.config.min_level ≤ level then
          [Event.write i sp s.config.write_fn msg body s.user_data] else [] := by
  intro ss
  induction ss with
  | nil => intro j _ h; simp at h
  | cons x rest ih =>
    intro j hj h
    obtain ⟨sp2, s2⟩ := x
    rw [fan_out_cons, writes_to_append]
    by_cases hji : j = i
    · subst hji
      simp only [Nat.sub_self, List.getElem?_cons_zero, Option.some.injEq, Prod.mk.injEq] at h
      obtain ⟨rfl, rfl⟩ := h
      rw [writes_to_fan_out_above j msg body level rest (j + 1) (by omega)]
      split <;> simp [writes_to]
    · have hlt : j < i := by omega
      have hidx : i - j = (i - (j + 1)) + 1 := by omega
      rw [hidx, List.getElem?_cons_succ] at h
      rw [ih (j + 1) (by omega) h]
      have hne : (j == i) = false := by simp; omega
      split <;> simp [writes_to, hne]

theorem writes_to_deliveries (i : Nat) (ss : List (Ptr × LogSink)) (sp : Ptr) (s : LogSink)
    (hs : ss[i]? = some (sp, s)) :
    ∀ q : List (Ptr × LogMessage),
      writes_to i (deliveries ss q) =
        (q.filter fun x => decide (s.config.min_level ≤ x.2.level)).map
          fun x => Event.write i sp s.config.write_fn x.1 x.2 s.user_data
  | [] => by simp [deliveries, writes_to]
  | (p, n) :: rest => by
    rw [deliveries, writes_to_append, writes_to_deliveries i ss sp s hs rest,
      writes_to_fan_out i p n n.level sp s ss 0 (Nat.zero_le _) (by simpa using hs)]
    by_cases h : s.config.min_level ≤ n.level
    · simp [h, List.filter_cons]
    · simp [h, List.filter_cons]

theorem Logger.eq_of_settings {L L2 : Logger} (h1 : L2.settings = L.settings)
    (h2 : L2.last_flush_time = L.last_flush_time) (h3 : L2.queue_head = L.queue_head)
    (h4 : L2.queue_tail = L.queue_tail) : L2 = L := by
  cases L
  cases L2
  simp only [Logger.settings, Prod.mk.injEq] at h1
  simp only at h2 h3 h4
  simp only [Logger.mk.injEq]
  tauto

/-- C10 (amended): on an async logger whose queue holds `q`, a `logger_log` call
with a non-null format whose allocation succeeds (fresh address `p`) adds the
events lock, enqueue, unlock and no `write`; afterwards the queue is `q` with
the new node behind it: one node more, the earlier nodes in the same order and
unchanged but for the `next` link of the old last node, the new node last with
a null `next`.  And in every later flush or worker iteration (from any state
whose queue is well formed) each `write` comes after the `dequeue` of its
message. -/
theorem C10_async_log_enqueues (MSG_SIZE : Nat) (lp : Ptr) (m : Mem) (L : Logger)
    (q : List (Ptr × LogMessage)) (level : LogLevel) (file : String) (line : Int)
    (text : List Char) (p : Ptr) (now : Int)
    (hL : m.loggers lp = some L) (hasync : L.async = true) (hq : Queue m L q)
    (hfresh : m.msgs p = none) :
    (∃ m2 q2, logger_log MSG_SIZE (some lp) level file line (some text) (some p) now m =
        some m2 ∧
      m2.trace = m.trace ++ [.lock .queue, .enqueue p, .unlock .queue] ∧
      writes m2.trace = writes m.trace ∧ m2.sinks = m.sinks ∧
      m2.loggers lp = some (L.linked p) ∧ Queue m2 (L.linked p) q2 ∧
      q2.length = q.length + 1 ∧
      q2.map (fun x => (x.1, x.2.unlinked)) =
        q.map (fun x => (x.1, x.2.unlinked)) ++
          [(p, new_message MSG_SIZE level file line now text)] ∧
      q2.getLast? = some (p, new_message MSG_SIZE level file line now text) ∧
      (new_message MSG_SIZE level file line now text).next = none ∧
      ∀ a, a ≠ p → a ∉ q.map Prod.fst → m2.msgs a = m.msgs a) ∧
    ∀ (ss : List (Ptr × LogSink)) (m4 : Mem) (L4 : Logger) (q4 : List (Ptr × LogMessage))
      (fuel : Nat), m4.loggers lp = some L4 → L4.async = true → Registered m4 L4 ss →
      Queue m4 L4 q4 → q4.length < fuel →
      (∃ m5 evs, logger_flush fuel (some lp) m4 = some m5 ∧ m5.trace = m4.trace ++ evs ∧
        dequeued_first [] evs = true) ∧
      ∀ env, ∃ m5 evs, worker_iteration fuel lp env m4 = some m5 ∧
        m5.trace = m4.trace ++ evs ∧ dequeued_first [] evs = true := by
  constructor
  · have h1 := logger_log_async_eq MSG_SIZE m lp L q level file line text p now hL hasync hq
      hfresh
    obtain ⟨m2, e1, e2, e4, e5, e6⟩ : ∃ m2,
        logger_log MSG_SIZE (some lp) level file line (some text) (some p) now m = some m2 ∧
        m2.loggers lp = some (L.linked p) ∧ m2.sinks = m.sinks ∧
        m2.msgs = link_node m.msgs q p (new_message MSG_SIZE level file line now text) ∧
        m2.trace = m.trace ++ [.lock .queue, .enqueue p, .unlock .queue] :=
      ⟨_, h1, by simp, rfl, rfl, rfl⟩
    refine ⟨m2, append_node q p (new_message MSG_SIZE level file line now text), e1, e6, ?_, e4,
      e2, Queue.linked m L q p _ rfl hq hfresh m2 e5, ?_, ?_, append_node_getLast p _ q, rfl, ?_⟩
    · rw [e6, writes_append]
      simp [writes]
    · have := congrArg List.length (append_node_addrs p
        (new_message MSG_SIZE level file line now text) q)
      simpa using this
    · rw [append_node_unlinked]
      rfl
    · intro a ha haq
      rw [e5]
      exact link_node_other _ _ _ _ _ ha haq
  · intro ss m4 L4 q4 fuel hL4 hasync4 hreg4 hq4 hf4
    constructor
    · have hfl := logger_flush_ready fuel lp ss m4 L4 q4 hL4 hasync4 hreg4 hq4 hf4
      refine ⟨_, [.lock .engine] ++ drain_events ss q4 ++ [.unlock .engine], hfl,
        by simp, ?_⟩
      have h0 : [Event.lock .engine] ++ drain_events ss q4 ++ [.unlock .engine] =
          .lock .engine :: (drain_events ss q4 ++ [.unlock .engine]) := by simp
      rw [h0]
      simp only [dequeued_first]
      exact dequeued_first_append _ _ _ (dequeued_first_drain_events ss q4 [])
        (fun _ => rfl)
    · intro env
      obtain ⟨m5, d, r, _, _, h5, _, hd⟩ :=
        worker_iteration_ready fuel lp env ss m4 q4 ⟨L4, hL4, hreg4, hq4⟩ hf4
      obtain ⟨_, _, _, _, evs, d5, _, _, d8⟩ := hd
      exact ⟨m5, evs, h5, d5, d8 []⟩

theorem C10_async_log_enqueues_witness :
    (demo_queued.loggers 1 = some demo_queued_logger ∧ demo_queued_logger.async = true ∧
      Queue demo_queued demo_queued_logger demo_queue ∧ demo_queued.msgs 13 = none) ∧
    (∃ m2 q2, logger_log 16 (some 1) 5 "main.c" 13 (some ['d']) (some 13) 1002 demo_queued =
        some m2 ∧
      m2.trace = demo_queued.trace ++ [.lock .queue, .enqueue 13, .unlock .queue] ∧
      writes m2.trace = writes demo_queued.trace ∧ m2.sinks = demo_queued.sinks ∧
      m2.loggers 1 = some (demo_queued_logger.linked 13) ∧
      Queue m2 (demo_queued_logger.linked 13) q2 ∧
      q2.length = demo_queue.length + 1 ∧
      q2.map (fun x => (x.1, x.2.unlinked)) =
        demo_queue.map (fun x => (x.1, x.2.unlinked)) ++
          [(13, new_message 16 5 "main.c" 13 1002 ['d'])] ∧
      q2.getLast? = some (13, new_message 16 5 "main.c" 13 1002 ['d']) ∧
      (new_message 16 5 "main.c" 13 1002 ['d']).next = none ∧
      ∀ a, a ≠ 13 → a ∉ demo_queue.map Prod.fst → m2.msgs a = demo_queued.msgs a) ∧
    ∀ (ss : List (Ptr × LogSink)) (m4 : Mem) (L4 : Logger) (q4 : List (Ptr × LogMessage))
      (fuel : Nat), m4.loggers 1 = some L4 → L4.async = true → Registered m4 L4 ss →
      Queue m4 L4 q4 → q4.length < fuel →
      (∃ m5 evs, logger_flush fuel (some 1) m4 = some m5 ∧ m5.trace = m4.trace ++ evs ∧
        dequeued_first [] evs = true) ∧
      ∀ env, ∃ m5 evs, worker_iteration fuel 1 env m4 = some m5 ∧
        m5.trace = m4.trace ++ evs ∧ dequeued_first [] evs = true :=
  ⟨⟨rfl, rfl, ⟨⟨rfl, rfl, rfl, rfl, rfl, rfl, rfl⟩, rfl⟩, rfl⟩,
    C10_async_log_enqueues 16 1 demo_queued demo_queued_logger demo_queue 5 "main.c" 13 ['d'] 13
      1002 rfl rfl ⟨⟨rfl, rfl, rfl, rfl, rfl, rfl, rfl⟩, rfl⟩ rfl⟩

/-- C10 as stated fails: on an async logger whose queue holds three nodes, a log
call with a non-null format whose allocation fails returns the memory as it
was: the queue still holds the same three nodes, not four. -/
theorem C10_refuted_by_failed_allocation :
    demo_queued.loggers 1 = some demo_queued_logger ∧ demo_queued_logger.async = true ∧
    Queue demo_queued demo_queued_logger demo_queue ∧ demo_queue.length = 3 ∧
    logger_log 16 (some 1) 5 "main.c" 13 (some ['d']) none 1002 demo_queued =
      some demo_queued :=
  ⟨rfl, rfl, ⟨⟨rfl, rfl, rfl, rfl, rfl, rfl, rfl⟩, rfl⟩, rfl, rfl⟩

theorem pop_message_cases (lp : Ptr) (m m1 : Mem) (r : Option Ptr)
    (h : pop_message lp m = some (r, m1)) :
    ∃ L, m.loggers lp = some L ∧
      ((r = none ∧ L.queue_head = none ∧ m1.loggers = m.loggers) ∨
        (∃ L1, r ≠ none ∧ m1.loggers lp = some L1 ∧ L1.settings = L.settings)) := by
  simp only [pop_message, Option.bind_eq_bind, Option.bind_eq_some] at h
  obtain ⟨L, hL, h⟩ := h
  have hL0 : m.loggers lp = some L := hL
  refine ⟨L, hL0, ?_⟩
  split at h
  · rename_i hh
    simp only [Option.some.injEq, Prod.mk.injEq] at h
    obtain ⟨rfl, rfl⟩ := h
    exact Or.inl ⟨rfl, hh, rfl⟩
  · rename_i p hp
    simp only [Option.bind_eq_some, Option.some.injEq, Prod.mk.injEq] at h
    obtain ⟨node, _, rfl, rfl⟩ := h
    refine Or.inr ⟨if node.next = none then
        { { L with queue_head := node.next } with queue_tail := none }
      else { L with queue_head := node.next }, by simp, by simp, ?_⟩
    split <;> rfl

theorem process_all_messages_done (lp : Ptr) :
    ∀ (fuel : Nat) (m m2 : Mem), process_all_messages lp fuel m = some m2 →
      ∃ L L2, m.loggers lp = some L ∧ m2.loggers lp = some L2 ∧ L2.settings = L.settings ∧
        L2.queue_head = none := by
  intro fuel
  induction fuel with
  | zero => intro m m2 h; simp [process_all_messages] at h
  | succ k ih =>
    intro m m2 h
    simp only [process_all_messages, Option.bind_eq_bind, Option.bind_eq_some] at h
    obtain ⟨⟨r, m1⟩, hpop, h⟩ := h
    obtain ⟨L, hL, hc⟩ := pop_message_cases lp m m1 r hpop
    rcases hc with ⟨rfl, hh, hl⟩ | ⟨L1, hr, hL1, hs1⟩
    · simp only [Option.some.injEq] at h
      subst h
      exact ⟨L, L, hL, by rw [hl]; exact hL, rfl, hh⟩
    · cases r with
      | none => exact absurd rfl hr
      | some p =>
        simp only [Option.bind_eq_some] at h
        obtain ⟨K, hK, m3, hd, h⟩ := h
        obtain ⟨_, _, hlog⟩ := dispatch_queued_quiet lp p K.sink_count 0 m1 m3 (fun L0 h0 => by
          rw [hK] at h0; cases h0; omega) hd
        obtain ⟨L3, L2, a1, a2, a3, a4⟩ := ih _ m2 h
        have : L3 = L1 := by
          simp only [Mem.freeMsg_loggers, hlog, hL1, Option.some.injEq] at a1
          exact a1.symm
        subst this
        exact ⟨L, L2, hL, a2, a3.trans hs1, a4⟩

theorem logger_flush_empty (fuel : Nat) (lp : Ptr) (m : Mem) (L : Logger)
    (hL : m.loggers lp = some L) (hasync : L.async = true) (hh : L.queue_head = none)
    (hf : 0 < fuel) :
    logger_flush fuel (some lp) m = some
      { m with trace := m.trace ++
        [.lock .engine, .lock .queue, .unlock .queue, .unlock .engine] } := by
  obtain ⟨k, rfl⟩ : ∃ k, fuel = k + 1 := ⟨fuel - 1, by omega⟩
  simp only [logger_flush, hL, Option.bind_eq_bind, Option.some_bind, hasync,
    process_all_messages, pop_message_nil lp (m.emit (.lock .engine)) L hL hh]
  simp [Mem.emit]

theorem observable_of_trace (m : Mem) (evs : List Event) (h : writes evs = []) :
    Mem.observable { m with trace := m.trace ++ evs } = m.observable := by
  simp [Mem.observable, writes_append, h]

theorem logger_flush_twice (fuel : Nat) (lp : Ptr) (m m1 : Mem)
    (h : logger_flush fuel (some lp) m = some m1) :
    ∃ m2, logger_flush fuel (some lp) m1 = some m2 ∧ m2.observable = m1.observable := by
  have h0 := h
  simp only [logger_flush, Option.bind_eq_bind, Option.bind_eq_some] at h
  obtain ⟨L, hL, h⟩ := h
  split at h
  · simp only [Option.some.injEq] at h
    subst h
    exact ⟨m, h0, rfl⟩
  · rename_i hasync
    simp only [Option.bind_eq_some, Option.some.injEq] at h
    obtain ⟨mp, hp, rfl⟩ := h
    have hfuel : 0 < fuel := by
      cases fuel with
      | zero => simp [process_all_messages] at hp
      | succ k => omega
    obtain ⟨K, L2, hK, hL2, hs, hh⟩ := process_all_messages_done lp fuel _ mp hp
    have hKL : K = L := by
      simp only [Mem.emit_loggers, hL, Option.some.injEq] at hK
      exact hK.symm
    subst hKL
    have hasync2 : L2.async = true := by
      simp only [Logger.settings, Prod.mk.injEq] at hs
      rw [hs.2.2.1]
      simpa using hasync
    have := logger_flush_empty fuel lp (mp.emit (.unlock .engine)) L2 (by simpa using hL2)
      hasync2 hh hfuel
    exact ⟨_, this, observable_of_trace _ _ rfl⟩

/-- C9: on an async logger whose queue is empty, `logger_flush` adds four lock
events and nothing else: no `write`, and loggers, sink handles and messages
are as before.  And from every memory, two flushes in a row end in the same
heaps and the same `write` events as the first one alone; from a state whose
queue is well formed both flushes return. -/
theorem C9_flush_idempotent (fuel : Nat) (lp : Ptr) (m : Mem) (L : Logger)
    (hL : m.loggers lp = some L) (hasync : L.async = true) (hh : L.queue_head = none)
    (hf : 0 < fuel) :
    logger_flush fuel (some lp) m = some
      { m with trace := m.trace ++
        [.lock .engine, .lock .queue, .unlock .queue, .unlock .engine] } ∧
    (∀ (f0 : Nat) (m0 : Mem),
      ((logger_flush f0 (some lp) m0).bind (logger_flush f0 (some lp))).map Mem.observable =
        (logger_flush f0 (some lp) m0).map Mem.observable) ∧
    ∀ (f0 : Nat) (m0 : Mem) (L0 : Logger) (ss0 : List (Ptr × LogSink))
      (q0 : List (Ptr × LogMessage)), m0.loggers lp = some L0 → L0.async = true →
      Registered m0 L0 ss0 → Queue m0 L0 q0 → q0.length < f0 →
      ∃ m1 m2, logger_flush f0 (some lp) m0 = some m1 ∧
        writes m1.trace = writes m0.trace ++ deliveries ss0 q0 ∧
        logger_flush f0 (some lp) m1 = some m2 ∧ m2.observable = m1.observable := by
  refine ⟨logger_flush_empty fuel lp m L hL hasync hh hf, ?_, ?_⟩
  · intro f0 m0
    cases h : logger_flush f0 (some lp) m0 with
    | none => rfl
    | some m1 =>
      obtain ⟨m2, h2, ho⟩ := logger_flush_twice f0 lp m0 m1 h
      simp [h2, ho]
  · intro f0 m0 L0 ss0 q0 hL0 ha0 hr0 hq0 hf0
    have h1 := logger_flush_ready f0 lp ss0 m0 L0 q0 hL0 ha0 hr0 hq0 hf0
    obtain ⟨m2, h2, ho⟩ := logger_flush_twice f0 lp m0 _ h1
    refine ⟨_, m2, h1, ?_, h2, ho⟩
    simp only [writes_append, writes_drain_events]
    simp [writes]

theorem C9_flush_idempotent_witness :
    (demo_async.loggers 1 = some demo_async_logger ∧ demo_async_logger.async = true ∧
      demo_async_logger.queue_head = none ∧ 0 < 8) ∧
    (∃ m1 m2, logger_flush 8 (some 1) demo_queued = some m1 ∧
      writes m1.trace = writes demo_queued.trace ++ deliveries demo_queued_sinks demo_queue ∧
      logger_flush 8 (some 1) m1 = some m2 ∧ m2.observable = m1.observable) ∧
    logger_flush 8 (some 1) demo_async = some
      { demo_async with trace := demo_async.trace ++
        [.lock .engine, .lock .queue, .unlock .queue, .unlock .engine] } ∧
    (∀ (f0 : Nat) (m0 : Mem),
      ((logger_flush f0 (some 1) m0).bind (logger_flush f0 (some 1))).map Mem.observable =
        (logger_flush f0 (some 1) m0).map Mem.observable) ∧
    ∀ (f0 : Nat) (m0 : Mem) (L0 : Logger) (ss0 : List (Ptr × LogSink))
      (q0 : List (Ptr × LogMessage)), m0.loggers 1 = some L0 → L0.async = true →
      Registered m0 L0 ss0 → Queue m0 L0 q0 → q0.length < f0 →
      ∃ m1 m2, logger_flush f0 (some 1) m0 = some m1 ∧
        writes m1.trace = writes m0.trace ++ deliveries ss0 q0 ∧
        logger_flush f0 (some 1) m1 = some m2 ∧ m2.observable = m1.observable :=
  ⟨⟨rfl, rfl, rfl, by decide⟩,
    (C9_flush_idempotent 8 1 demo_async demo_async_logger rfl rfl rfl (by decide)).2.2 8
      demo_queued demo_queued_logger demo_queued_sinks demo_queue rfl rfl
      ⟨rfl, rfl, rfl, rfl, rfl, trivial⟩ ⟨⟨rfl, rfl, rfl, rfl, rfl, rfl, rfl⟩, rfl⟩ (by decide),
    C9_flush_idempotent 8 1 demo_async demo_async_logger rfl rfl rfl (by decide)⟩

theorem logger_add_sink_full (MAX_SINKS : Nat) (lp : Ptr) (sink : Option Ptr) (m : Mem)
    (L : Logger) (hL : m.loggers lp = some L) (hfull : MAX_SINKS ≤ L.sink_count) :
    logger_add_sink MAX_SINKS (some lp) sink m = some m := by
  cases sink with
  | none => rfl
  | some sp => simp [logger_add_sink, hL, hfull]

theorem logger_add_sink_eq (MAX_SINKS : Nat) (lp sp : Ptr) (m : Mem) (L : Logger) (s : LogSink)
    (hL : m.loggers lp = some L) (hcap : L.sink_count < MAX_SINKS)
    (hlen : L.sinks.length = MAX_SINKS) (hs : m.sinks sp = some s) :
    logger_add_sink MAX_SINKS (some lp) (some sp) m = some
      { loggers := fun a => if a = lp then some (L.with_sink sp) else m.loggers a
        sinks := fun a => if a = sp then some (s.registered lp) else m.sinks a
        msgs := m.msgs
        trace := m.trace ++ [.lock .engine, .unlock .engine] } := by
  have h1 : ¬ L.sink_count ≥ MAX_SINKS := by omega
  have h2 : L.sink_count < L.sinks.length := by omega
  simp only [logger_add_sink, hL, Option.bind_eq_bind, Option.some_bind, h1, if_false, h2,
    if_true, Mem.setLogger_sinks, Mem.emit_sinks, hs, Mem.setSink_sinks]
  congr 1
  apply Mem.ext
  · funext a
    by_cases ha : a = lp <;> simp [ha, Logger.with_sink]
  · funext a
    by_cases ha : a = sp <;> simp [ha, LogSink.registered]
  · rfl
  · simp

/-- C5: on a logger whose `sink_count` equals `MAX_SINKS`, `logger_add_sink` with
any non-null handle returns the memory exactly as it was: no logger field, no
slot of the sink list, no field of the rejected handle (or of any other
handle) and no event changes. -/
theorem C5_full_registry_rejects (MAX_SINKS : Nat) (lp sp : Ptr) (m : Mem) (L : Logger)
    (hL : m.loggers lp = some L) (hfull : L.sink_count = MAX_SINKS) :
    logger_add_sink MAX_SINKS (some lp) (some sp) m = some m :=
  logger_add_sink_full MAX_SINKS lp (some sp) m L hL (by omega)

theorem C5_full_registry_rejects_witness :
    (demo_full.loggers 1 = some demo_full_logger ∧ demo_full_logger.sink_count = 2) ∧
    demo_full.sinks 52 = some demo_sink_warn ∧
    logger_add_sink 2 (some 1) (some 52) demo_full = some demo_full :=
  ⟨⟨rfl, rfl⟩, rfl, C5_full_registry_rejects 2 1 52 demo_full demo_full_logger rfl rfl⟩

/-- C6 (amended): `logger_add_sink` hands no value back; on a logger whose
`sink_count` equals `MAX_SINKS` the call yields the unit value and the memory
as it was, and every call that returns yields the same unit value, so a
rejection shows only in the state, not in a result. -/
theorem C6_rejection_is_silent (MAX_SINKS : Nat) (lp sp : Ptr) (m : Mem) (L : Logger)
    (hL : m.loggers lp = some L) (hfull : L.sink_count = MAX_SINKS) :
    logger_add_sink_call MAX_SINKS (some lp) (some sp) m = some ((), m) ∧
    ∀ (logger sink : Option Ptr) (m0 : Mem) (r : Unit × Mem),
      logger_add_sink_call MAX_SINKS logger sink m0 = some r →
      some r.1 = (logger_add_sink_call MAX_SINKS (some lp) (some sp) m).map Prod.fst := by
  have h := logger_add_sink_full MAX_SINKS lp (some sp) m L hL (by omega)
  refine ⟨by simp [logger_add_sink_call, h], ?_⟩
  intro logger sink m0 r _
  simp [logger_add_sink_call, h]

theorem C6_rejection_is_silent_witness :
    (demo_full.loggers 1 = some demo_full_logger ∧ demo_full_logger.sink_count = 2) ∧
    logger_add_sink_call 2 (some 1) (some 52) demo_full = some ((), demo_full) ∧
    ∀ (logger sink : Option Ptr) (m0 : Mem) (r : Unit × Mem),
      logger_add_sink_call 2 logger sink m0 = some r →
      some r.1 = (logger_add_sink_call 2 (some 1) (some 52) demo_full).map Prod.fst :=
  ⟨⟨rfl, rfl⟩, C6_rejection_is_silent 2 1 52 demo_full demo_full_logger rfl rfl⟩

/-- C6 as stated fails: a registration rejected at capacity (`demo_full`, two of
two slots in use, memory unchanged) and a successful one (`demo_half`, which
it fills) hand the same value to the caller. -/
theorem C6_refuted_by_void_result :
    demo_full.loggers 1 = some demo_full_logger ∧ demo_full_logger.sink_count = 2 ∧
    logger_add_sink 2 (some 1) (some 52) demo_full = some demo_full ∧
    demo_half.loggers 1 = some demo_half_logger ∧ demo_half_logger.sink_count = 1 ∧
    (logger_add_sink 2 (some 1) (some 52) demo_half).bind (fun m => m.loggers 1) =
      some (demo_half_logger.with_sink 52) ∧
    (logger_add_sink_call 2 (some 1) (some 52) demo_full).map Prod.fst =
      (logger_add_sink_call 2 (some 1) (some 52) demo_half).map Prod.fst := by
  refine ⟨rfl, rfl, rfl, rfl, rfl, by decide, by decide⟩

theorem LogSink.registered_idem (lp : Ptr) (s : LogSink) :
    (s.registered lp).registered lp = s.registered lp := rfl

theorem SinksFrom.append {sinks : Ptr → Option LogSink} {arr : List (Option Ptr)} :
    ∀ (ss : List (Ptr × LogSink)) (i : Nat) (x : Ptr × LogSink),
      SinksFrom sinks arr i ss → arr[i + ss.length]? = some (some x.1) →
      sinks x.1 = some x.2 → SinksFrom sinks arr i (ss ++ [x]) := by
  intro ss
  induction ss with
  | nil =>
    intro i x _ h1 h2
    obtain ⟨sp, s⟩ := x
    exact ⟨by simpa using h1, h2, trivial⟩
  | cons y rest ih =>
    intro i x h h1 h2
    obtain ⟨sp, s⟩ := y
    obtain ⟨a1, a2, a3⟩ := h
    refine ⟨a1, a2, ih (i + 1) x a3 ?_ h2⟩
    rw [← h1]
    congr 1
    simp only [List.length_cons]
    omega

theorem SinksFrom.congr_slots {sinks sinks2 : Ptr → Option LogSink} {arr arr2 : List (Option Ptr)} :
    ∀ (ss : List (Ptr × LogSink)) (i : Nat),
      (∀ j, i ≤ j → j < i + ss.length → arr2[j]? = arr[j]?) →
      (∀ x ∈ ss, sinks2 x.1 = sinks x.1) →
      SinksFrom sinks arr i ss → SinksFrom sinks2 arr2 i ss := by
  intro ss
  induction ss with
  | nil => intro i _ _ _; trivial
  | cons y rest ih =>
    intro i harr hsk h
    obtain ⟨sp, s⟩ := y
    obtain ⟨a1, a2, a3⟩ := h
    refine ⟨by rw [harr i (le_refl _) (by simp)]; exact a1,
      by rw [hsk (sp, s) (by simp)]; exact a2, ih (i + 1) ?_ ?_ a3⟩
    · intro j h1 h2
      exact harr j (by omega) (by simp only [List.length_cons]; omega)
    · intro x hx
      exact hsk x (by simp [hx])

theorem SinksFrom.lookup_sink {sinks : Ptr → Option LogSink} {arr : List (Option Ptr)} :
    ∀ (ss : List (Ptr × LogSink)) (i : Nat), SinksFrom sinks arr i ss →
      ∀ x ∈ ss, sinks x.1 = some x.2 := by
  intro ss
  induction ss with
  | nil => intro i _ x hx; simp at hx
  | cons y rest ih =>
    intro i h x hx
    obtain ⟨sp, s⟩ := y
    obtain ⟨_, a2, a3⟩ := h
    rcases List.mem_cons.1 hx with rfl | hx
    · exact a2
    · exact ih (i + 1) a3 x hx

/-- One successful registration, on a logger whose registered sinks `ss` carry
records of registered form: the new handle fills the next slot. -/
theorem logger_add_sink_registered (MAX_SINKS : Nat) (lp sp : Ptr) (m : Mem) (L : Logger)
    (s : LogSink) (ss : List (Ptr × LogSink))
    (hL : m.loggers lp = some L) (hcap : L.sink_count < MAX_SINKS)
    (hlen : L.sinks.length = MAX_SINKS) (hs : m.sinks sp = some s)
    (hreg : Registered m L ss) (hform : ∀ x ∈ ss, x.2.registered lp = x.2) :
    ∃ m2, logger_add_sink MAX_SINKS (some lp) (some sp) m = some m2 ∧
      m2.loggers lp = some (L.with_sink sp) ∧ (∀ a, a ≠ lp → m2.loggers a = m.loggers a) ∧
      m2.sinks sp = some (s.registered lp) ∧ (∀ a, a ≠ sp → m2.sinks a = m.sinks a) ∧
      m2.msgs = m.msgs ∧ m2.trace = m.trace ++ [.lock .engine, .unlock .engine] ∧
      Registered m2 (L.with_sink sp) (ss ++ [(sp, s.registered lp)]) := by
  refine ⟨_, logger_add_sink_eq MAX_SINKS lp sp m L s hL hcap hlen hs, by simp,
    fun a ha => by simp [ha], by simp, fun a ha => by simp [ha], rfl, rfl, ?_⟩
  obtain ⟨h1, h2⟩ := hreg
  refine ⟨by simp [Logger.with_sink, h1], ?_⟩
  apply SinksFrom.append
  · refine SinksFrom.congr_slots ss 0 ?_ ?_ h2
    · intro j _ hj
      simp only [Logger.with_sink]
      rw [List.getElem?_set_ne (by omega)]
    · intro x hx
      by_cases hxs : x.1 = sp
      · have hx2 := SinksFrom.lookup_sink ss 0 h2 x hx
        rw [hxs, hs] at hx2
        simp only [hxs, if_true]
        cases hx2
        rw [hs, hform x hx]
      · simp [hxs]
  · simp only [Logger.with_sink, Nat.zero_add, h1]
    rw [List.getElem?_set_self (by omega)]
  · simp

theorem SinksFrom.take {sinks : Ptr → Option LogSink} {arr : List (Option Ptr)} :
    ∀ (ss : List (Ptr × LogSink)) (i : Nat), SinksFrom sinks arr i ss →
      (arr.drop i).take ss.length = ss.map fun x => some x.1 := by
  intro ss
  induction ss with
  | nil => intro i _; simp
  | cons y rest ih =>
    intro i h
    obtain ⟨sp, s⟩ := y
    obtain ⟨a1, _, a3⟩ := h
    have hi : i < arr.length := by
      by_contra hge
      rw [List.getElem?_eq_none (by omega)] at a1
      cases a1
    have hget : arr[i] = some sp := by
      rw [List.getElem?_eq_getElem hi] at a1
      exact Option.some.inj a1
    rw [List.drop_eq_getElem_cons hi, hget]
    simp only [List.length_cons, List.take_succ_cons, List.map_cons, List.cons.injEq, true_and]
    exact ih (i + 1) a3

/-- A sequence of successful registrations, on a logger whose registered sinks
`ss` carry records of registered form: the handles fill the next slots in call
order. -/
theorem register_all_registered (MAX_SINKS : Nat) (lp : Ptr) :
    ∀ (recs : List (Ptr × LogSink)) (m : Mem) (L : Logger) (ss : List (Ptr × LogSink)),
      m.loggers lp = some L → L.sinks.length = MAX_SINKS → Registered m L ss →
      (∀ x ∈ ss, x.2.registered lp = x.2) → ss.length + recs.length ≤ MAX_SINKS →
      (∀ x ∈ recs, (m.sinks x.1).map (LogSink.registered lp) = some (x.2.registered lp)) →
      ∃ m2 L2, register_all MAX_SINKS lp (recs.map Prod.fst) m = some m2 ∧
        m2.loggers lp = some L2 ∧ L2.sinks.length = MAX_SINKS ∧
        Registered m2 L2 (ss ++ recs.map fun x => (x.1, x.2.registered lp)) ∧
        m2.msgs = m.msgs := by
  intro recs
  induction recs with
  | nil =>
    intro m L ss hL hlen hreg _ _ _
    exact ⟨m, L, rfl, hL, hlen, by simpa using hreg, rfl⟩
  | cons x rest ih =>
    intro m L ss hL hlen hreg hform hcap hvalid
    obtain ⟨sp, s0⟩ := x
    have hv := hvalid (sp, s0) (by simp)
    simp only [Option.map_eq_some'] at hv
    obtain ⟨s, hs, hss⟩ := hv
    simp only [List.length_cons] at hcap
    obtain ⟨m1, e1, e2, _, e4, e5, e6, _, e8⟩ := logger_add_sink_registered MAX_SINKS lp sp m L
      s ss hL (by rw [← hreg.1]; omega) hlen hs hreg hform
    rw [hss] at e8
    obtain ⟨m2, L2, g1, g2, g3, g4, g5⟩ := ih m1 (L.with_sink sp) (ss ++ [(sp, s0.registered lp)])
      e2 (by simp [Logger.with_sink, hlen]) e8
      (by
        intro y hy
        rcases List.mem_append.1 hy with hy | hy
        · exact hform y hy
        · rw [List.mem_singleton.1 hy]
          rfl)
      (by simp only [List.length_append, List.length_singleton]; omega)
      (by
        intro y hy
        by_cases hys : y.1 = sp
        · rw [hys, e4, Option.map_some', LogSink.registered_idem, hss]
          have := hvalid y (by simp [hy])
          rw [hys, hs, Option.map_some', hss] at this
          exact this
        · rw [e5 y.1 hys]
          exact hvalid y (by simp [hy]))
    refine ⟨m2, L2, ?_, g2, g3, by simpa using g4, g5.trans e6⟩
    simp only [List.map_cons, register_all, e1, Option.some_bind]
    exact g1

/-- C7: a registration on a logger with `sink_count = n < MAX_SINKS` returns,
makes `sink_count = n + 1`, stores the handle in slot `n`, leaves every other
slot as it was and sets the back-reference of the handle to this logger.
Hence registering the handles of `recs` (at most `MAX_SINKS`) on a fresh logger
leaves the sink list equal to these handles in call order, and a dispatch then
calls the sinks whose threshold is met in that order. -/
theorem C7_registration_order (MAX_SINKS : Nat) (lp sp : Ptr) (m : Mem) (L : Logger)
    (s : LogSink) (hL : m.loggers lp = some L) (hcap : L.sink_count < MAX_SINKS)
    (hlen : L.sinks.length = MAX_SINKS) (hs : m.sinks sp = some s) :
    (∃ m2 L2 s2, logger_add_sink MAX_SINKS (some lp) (some sp) m = some m2 ∧
      m2.loggers lp = some L2 ∧ L2.sink_count = L.sink_count + 1 ∧
      L2.sinks[L.sink_count]? = some (some sp) ∧
      (∀ i, i ≠ L.sink_count → L2.sinks[i]? = L.sinks[i]?) ∧
      L2.sinks.length = L.sinks.length ∧
      m2.sinks sp = some s2 ∧ s2.logger = some lp) ∧
    ∀ (config : LogConfig) (junk : Nat → Option Ptr) (now : Int) (m0 : Mem)
      (recs : List (Ptr × LogSink)), recs.length ≤ MAX_SINKS →
      (∀ x ∈ recs, m0.sinks x.1 = some x.2) →
      ∃ m2 L2, register_all MAX_SINKS lp (recs.map Prod.fst)
          (logger_create MAX_SINKS config (some lp) junk now m0).2 = some m2 ∧
        m2.loggers lp = some L2 ∧ L2.sink_count = recs.length ∧
        L2.sinks.take recs.length = recs.map (fun x => some x.1) ∧
        Registered m2 L2 (recs.map fun x => (x.1, x.2.registered lp)) ∧
        ∀ msg body, m2.msgs msg = some body →
          dispatch_queued lp msg L2.sink_count 0 m2 = some
            { m2 with trace := (m2.trace ++
              fan_out (recs.map fun x => (x.1, x.2.registered lp)) 0 msg body body.level) } := by
  constructor
  · refine ⟨_, L.with_sink sp, s.registered lp,
      logger_add_sink_eq MAX_SINKS lp sp m L s hL hcap hlen hs, by simp, rfl, ?_, ?_, ?_,
      by simp, rfl⟩
    · simp only [Logger.with_sink]
      rw [List.getElem?_set_self (by omega)]
    · intro i hi
      simp only [Logger.with_sink]
      rw [List.getElem?_set_ne (by omega)]
    · simp [Logger.with_sink]
  · intro config junk now m0 recs hk hvalid
    obtain ⟨L1, h1, h2, h3, h4⟩ : ∃ L1,
        (logger_create MAX_SINKS config (some lp) junk now m0).2.loggers lp = some L1 ∧
        L1.sinks.length = MAX_SINKS ∧ L1.sink_count = 0 ∧
        (logger_create MAX_SINKS config (some lp) junk now m0).2.sinks = m0.sinks := by
      cases hc : config.async <;> simp [logger_create, hc]
    obtain ⟨m2, L2, g1, g2, _, g4, _⟩ := register_all_registered MAX_SINKS lp recs _ L1 [] h1 h2
      ⟨h3.symm, trivial⟩ (by simp) (by simpa using hk)
      (by
        intro x hx
        rw [h4, hvalid x hx]
        rfl)
    simp only [List.nil_append] at g4
    have hcount : L2.sink_count = recs.length := by
      have := g4.1
      simpa using this.symm
    refine ⟨m2, L2, g1, g2, hcount, ?_, g4, ?_⟩
    · have := SinksFrom.take _ 0 g4.2
      simpa using this
    · intro msg body hb
      have := dispatch_queued_trace lp msg L2 body _ 0 m2 g2 hb g4.2
      rw [← g4.1]
      exact this

theorem C7_registration_order_witness :
    (demo_half.loggers 1 = some demo_half_logger ∧ demo_half_logger.sink_count < 2 ∧
      demo_half_logger.sinks.length = 2 ∧ demo_half.sinks 51 = some demo_sink_error) ∧
    (∃ m2 L2, register_all 2 1 ([(50, demo_sink_debug), (51, demo_sink_error)].map Prod.fst)
        (logger_create 2 demo_config_sync (some 1) (fun _ => none) 999 demo_start).2 = some m2 ∧
      m2.loggers 1 = some L2 ∧ L2.sink_count = 2 ∧
      L2.sinks.take 2 = [some 50, some 51]) ∧
    (∃ m2 L2 s2, logger_add_sink 2 (some 1) (some 51) demo_half = some m2 ∧
      m2.loggers 1 = some L2 ∧ L2.sink_count = demo_half_logger.sink_count + 1 ∧
      L2.sinks[demo_half_logger.sink_count]? = some (some 51) ∧
      (∀ i, i ≠ demo_half_logger.sink_count → L2.sinks[i]? = demo_half_logger.sinks[i]?) ∧
      L2.sinks.length = demo_half_logger.sinks.length ∧
      m2.sinks 51 = some s2 ∧ s2.logger = some 1) ∧
    ∀ (config : LogConfig) (junk : Nat → Option Ptr) (now : Int) (m0 : Mem)
      (recs : List (Ptr × LogSink)), recs.length ≤ 2 →
      (∀ x ∈ recs, m0.sinks x.1 = some x.2) →
      ∃ m2 L2, register_all 2 1 (recs.map Prod.fst)
          (logger_create 2 config (some 1) junk now m0).2 = some m2 ∧
        m2.loggers 1 = some L2 ∧ L2.sink_count = recs.length ∧
        L2.sinks.take recs.length = recs.map (fun x => some x.1) ∧
        Registered m2 L2 (recs.map fun x => (x.1, x.2.registered 1)) ∧
        ∀ msg body, m2.msgs msg = some body →
          dispatch_queued 1 msg L2.sink_count 0 m2 = some
            { m2 with trace := (m2.trace ++
              fan_out (recs.map fun x => (x.1, x.2.registered 1)) 0 msg body body.level) } := by
  have h := C7_registration_order 2 1 51 demo_half demo_half_logger demo_sink_error rfl
    (by decide) rfl rfl
  refine ⟨⟨rfl, by decide, rfl, rfl⟩, ?_, h⟩
  obtain ⟨m2, L2, a1, a2, a3, a4, _⟩ := h.2 demo_config_sync (fun _ => none) 999 demo_start
    [(50, demo_sink_debug), (51, demo_sink_error)] (by decide) (by
      intro x hx
      simp only [List.mem_cons, List.mem_singleton, List.not_mem_nil, or_false] at hx
      rcases hx with rfl | rfl <;> rfl)
  exact ⟨m2, L2, a1, a2, a3, a4⟩

/-- C11: `logger_log` with a null logger or with a null format, and
`logger_add_sink` with a null logger or with a null handle, return the memory
exactly as it was: no message node is stored, nothing is enqueued, no event
(so no sink call) is added, and no logger and no sink handle changes. -/
theorem C11_null_arguments_are_no_ops (MAX_SINKS MSG_SIZE : Nat) (logger sink : Option Ptr)
    (level : LogLevel) (file : String) (line : Int) (fmt : Option (List Char))
    (alloc : Option Ptr) (now : Int) (m : Mem) :
    logger_log MSG_SIZE none level file line fmt alloc now m = some m ∧
    logger_log MSG_SIZE logger level file line none alloc now m = some m ∧
    logger_add_sink MAX_SINKS none sink m = some m ∧
    logger_add_sink MAX_SINKS logger none m = some m := by
  refine ⟨?_, ?_, ?_, ?_⟩
  · cases fmt <;> rfl
  · cases logger <;> rfl
  · cases sink <;> rfl
  · cases logger <;> rfl

/-- C19: a successful `logger_add_sink` leaves in the registered handle the
back-reference set to this logger and `config.format` null, whatever they were
before, and keeps `min_level`, `write_fn`, `destroy` and `user_data`; no other
handle changes. -/
theorem C19_registration_touches_two_fields (MAX_SINKS : Nat) (lp sp : Ptr) (m : Mem)
    (L : Logger) (s : LogSink) (hL : m.loggers lp = some L) (hcap : L.sink_count < MAX_SINKS)
    (hlen : L.sinks.length = MAX_SINKS) (hs : m.sinks sp = some s) :
    ∃ m2 s2, logger_add_sink MAX_SINKS (some lp) (some sp) m = some m2 ∧
      m2.sinks sp = some s2 ∧
      s2.logger = some lp ∧ s2.config.format = none ∧
      s2.config.min_level = s.config.min_level ∧ s2.config.write_fn = s.config.write_fn ∧
      s2.destroy = s.destroy ∧ s2.user_data = s.user_data ∧
      ∀ a, a ≠ sp → m2.sinks a = m.sinks a :=
  ⟨_, s.registered lp, logger_add_sink_eq MAX_SINKS lp sp m L s hL hcap hlen hs, by simp,
    rfl, rfl, rfl, rfl, rfl, rfl, fun a ha => by simp [ha]⟩

theorem C19_registration_touches_two_fields_witness :
    (demo_fresh.loggers 1 = some demo_fresh_logger ∧ demo_fresh_logger.sink_count < 2 ∧
      demo_fresh_logger.sinks.length = 2 ∧ demo_fresh.sinks 50 = some demo_sink_debug) ∧
    (demo_sink_debug.config.format = some 90 ∧ demo_sink_debug.logger = none) ∧
    ∃ m2 s2, logger_add_sink 2 (some 1) (some 50) demo_fresh = some m2 ∧
      m2.sinks 50 = some s2 ∧
      s2.logger = some 1 ∧ s2.config.format = none ∧
      s2.config.min_level = demo_sink_debug.config.min_level ∧
      s2.config.write_fn = demo_sink_debug.config.write_fn ∧
      s2.destroy = demo_sink_debug.destroy ∧ s2.user_data = demo_sink_debug.user_data ∧
      ∀ a, a ≠ 50 → m2.sinks a = demo_fresh.sinks a :=
  ⟨⟨rfl, by decide, rfl, rfl⟩, ⟨rfl, rfl⟩,
    C19_registration_touches_two_fields 2 1 50 demo_fresh demo_fresh_logger demo_sink_debug rfl
      (by decide) rfl rfl⟩

theorem vsnprintf_eq (size : Nat) (text : List Char) (h : 0 < size) :
    vsnprintf size text = text.take (min text.length (size - 1)) ++ [Char.ofNat 0] ∧
      (vsnprintf size text).length = min text.length (size - 1) + 1 ∧
      (vsnprintf size text).length ≤ size := by
  have hne : size ≠ 0 := by omega
  have htake : text.take (min text.length (size - 1)) = text.take (size - 1) := by
    rcases le_total text.length (size - 1) with hle | hle
    · rw [min_eq_left hle, List.take_of_length_le hle, List.take_of_length_le (le_refl _)]
    · rw [min_eq_right hle]
  refine ⟨by simp [vsnprintf, hne, htake], ?_, ?_⟩
  · simp only [vsnprintf, hne, if_false, List.length_append, List.length_take,
      List.length_singleton]
    rw [min_comm]
  · simp only [vsnprintf, hne, if_false, List.length_append, List.length_take,
      List.length_singleton]
    have := min_le_left (size - 1) text.length
    omega

/-- C12 (amended): with a message buffer of `MSG_SIZE >= 1` bytes, a `logger_log`
call whose allocation succeeds stores the first `min(len, MSG_SIZE - 1)`
characters of the formatted text and then a NUL, at most `MSG_SIZE` bytes;
whatever the length of the text, a sync logger dispatches the node with this
body to every sink whose threshold is met, and an async logger links the node
with this body at the tail of its queue. -/
theorem C12_truncated_not_dropped (MSG_SIZE : Nat) (level : LogLevel) (file : String)
    (line : Int) (text : List Char) (now : Int) (hsize : 0 < MSG_SIZE) :
    ((new_message MSG_SIZE level file line now text).message =
        text.take (min text.length (MSG_SIZE - 1)) ++ [Char.ofNat 0] ∧
      (new_message MSG_SIZE level file line now text).message.length =
        min text.length (MSG_SIZE - 1) + 1 ∧
      (new_message MSG_SIZE level file line now text).message.length ≤ MSG_SIZE) ∧
    (∀ (m : Mem) (lp p : Ptr) (L : Logger) (ss : List (Ptr × LogSink)),
      m.loggers lp = some L → L.async = false → Registered m L ss → m.msgs p = none →
      ∃ m2, logger_log MSG_SIZE (some lp) level file line (some text) (some p) now m =
          some m2 ∧
        writes m2.trace = writes m.trace ++
          fan_out ss 0 p (new_message MSG_SIZE level file line now text) level) ∧
    ∀ (m : Mem) (lp p : Ptr) (L : Logger) (q : List (Ptr × LogMessage)),
      m.loggers lp = some L → L.async = true → Queue m L q → m.msgs p = none →
      ∃ m2 q2, logger_log MSG_SIZE (some lp) level file line (some text) (some p) now m =
          some m2 ∧
        m2.msgs p = some (new_message MSG_SIZE level file line now text) ∧
        Queue m2 (L.linked p) q2 ∧ q2.length = q.length + 1 ∧
        q2.getLast? = some (p, new_message MSG_SIZE level file line now text) := by
  refine ⟨vsnprintf_eq MSG_SIZE text hsize, ?_, ?_⟩
  · intro m lp p L ss hL hsync hreg hfresh
    refine ⟨_, logger_log_sync_eq MSG_SIZE m lp L ss level file line text p now hL hsync hreg
      hfresh, ?_⟩
    simp only [writes_append, writes_fan_out]
    simp [writes]
  · intro m lp p L q hL hasync hq hfresh
    have h1 := logger_log_async_eq MSG_SIZE m lp L q level file line text p now hL hasync hq
      hfresh
    obtain ⟨m2, e1, e5⟩ : ∃ m2,
        logger_log MSG_SIZE (some lp) level file line (some text) (some p) now m = some m2 ∧
        m2.msgs = link_node m.msgs q p (new_message MSG_SIZE level file line now text) :=
      ⟨_, h1, rfl⟩
    have hq2 := Queue.linked m L q p _ rfl hq hfresh m2 e5
    refine ⟨m2, _, e1, ?_, hq2, ?_, append_node_getLast p _ q⟩
    · exact Chain.lookup_node _ _ p _ hq2.1
        (List.mem_of_getLast?_eq_some (append_node_getLast p _ q))
    · have := congrArg List.length (append_node_addrs p
        (new_message MSG_SIZE level file line now text) q)
      simpa using this

theorem C12_truncated_not_dropped_witness :
    0 < 4 ∧
    c_string (new_message 4 4 "main.c" 7 1000 demo_long_text).message = ['h', 'e', 'l'] ∧
    (∃ m2, logger_log 4 (some 1) 4 "main.c" 7 (some demo_long_text) (some 10) 1000 demo_sync =
        some m2 ∧
      writes m2.trace = writes demo_sync.trace ++
        fan_out demo_sync_sinks 0 10 (new_message 4 4 "main.c" 7 1000 demo_long_text) 4) ∧
    (∃ m2 q2, logger_log 4 (some 1) 4 "main.c" 7 (some demo_long_text) (some 13) 1000
          demo_queued = some m2 ∧
        m2.msgs 13 = some (new_message 4 4 "main.c" 7 1000 demo_long_text) ∧
        Queue m2 (demo_queued_logger.linked 13) q2 ∧ q2.length = demo_queue.length + 1 ∧
        q2.getLast? = some (13, new_message 4 4 "main.c" 7 1000 demo_long_text)) ∧
    (new_message 4 4 "main.c" 7 1000 demo_long_text).message =
        demo_long_text.take (min demo_long_text.length (4 - 1)) ++ [Char.ofNat 0] ∧
      (new_message 4 4 "main.c" 7 1000 demo_long_text).message.length =
        min demo_long_text.length (4 - 1) + 1 ∧
      (new_message 4 4 "main.c" 7 1000 demo_long_text).message.length ≤ 4 := by
  have h := C12_truncated_not_dropped 4 4 "main.c" 7 demo_long_text 1000 (by decide)
  exact ⟨by decide, by decide,
    h.2.1 demo_sync 1 10 demo_sync_logger demo_sync_sinks rfl rfl
      ⟨rfl, rfl, rfl, rfl, rfl, trivial⟩ rfl,
    h.2.2 demo_queued 1 13 demo_queued_logger demo_queue rfl rfl
      ⟨⟨rfl, rfl, rfl, rfl, rfl, rfl, rfl⟩, rfl⟩ rfl, h.1⟩

/-- C12 as stated fails: on a sync logger whose sink 50 has threshold 1, a call at
level 4 with a five-character text for a four-byte buffer whose allocation
fails stores nothing and reaches no sink: the message is dropped. -/
theorem C12_refuted_by_failed_allocation :
    demo_sync.loggers 1 = some demo_sync_logger ∧ demo_sync_logger.async = false ∧
    Registered demo_sync demo_sync_logger demo_sync_sinks ∧
    (demo_sink_debug.registered 1).config.min_level ≤ 4 ∧
    4 - 1 < demo_long_text.length ∧
    logger_log 4 (some 1) 4 "main.c" 7 (some demo_long_text) none 1000 demo_sync =
      some demo_sync :=
  ⟨rfl, rfl, ⟨rfl, rfl, rfl, rfl, rfl, trivial⟩, by decide, by decide, rfl⟩

theorem Chain.last_next {msgs : Ptr → Option LogMessage} :
    ∀ (q : List (Ptr × LogMessage)) (h : Option Ptr) (t : Ptr) (tn : LogMessage),
      Chain msgs h q → q.getLast? = some (t, tn) → tn.next = none := by
  intro q
  induction q with
  | nil => intro h t tn _ hl; simp at hl
  | cons x rest ih =>
    intro h t tn hc hl
    obtain ⟨p, n⟩ := x
    obtain ⟨_, _, h3⟩ := hc
    cases rest with
    | nil =>
      simp only [List.getLast?_singleton, Option.some.injEq, Prod.mk.injEq] at hl
      obtain ⟨_, rfl⟩ := hl
      exact h3
    | cons y r =>
      rw [List.getLast?_cons_cons] at hl
      exact ih _ t tn h3 hl

/-- What a well-formed queue says about the two pointers: both null or both
non-null, and the tail is the last node of the chain from the head, with a
null `next`. -/
theorem Queue.consistent {m : Mem} {L : Logger} {q : List (Ptr × LogMessage)}
    (hq : Queue m L q) :
    (L.queue_head = none ↔ L.queue_tail = none) ∧
      ∀ t, L.queue_tail = some t →
        ∃ tn, q.getLast? = some (t, tn) ∧ m.msgs t = some tn ∧ tn.next = none := by
  obtain ⟨hc, ht⟩ := hq
  constructor
  · rw [Chain.next_eq_none_iff hc, ht]
    cases q with
    | nil => simp
    | cons x r =>
      have : (x :: r).getLast? ≠ none := by simp
      cases hz : (x :: r).getLast? with
      | none => exact absurd hz this
      | some z => simp
  · intro t htt
    rw [ht] at htt
    cases hz : q.getLast? with
    | none => simp [hz] at htt
    | some z =>
      obtain ⟨a, tn⟩ := z
      simp only [hz, Option.map_some', Option.some.injEq] at htt
      subst htt
      exact ⟨tn, rfl, Chain.lookup_node q _ a tn hc (List.mem_of_getLast?_eq_some hz),
        Chain.last_next q _ a tn hc hz⟩

/-- A pop from a well-formed queue `q` unlinks its head and leaves the well-formed
queue `q.tail`; the unlinked node is not in `q.tail`. -/
theorem pop_message_queue (lp : Ptr) (m : Mem) (L : Logger) (q : List (Ptr × LogMessage))
    (hL : m.loggers lp = some L) (hq : Queue m L q) :
    ∃ m1 L1, pop_message lp m = some ((q.head?).map Prod.fst, m1) ∧
      m1.loggers lp = some L1 ∧ L1.settings = L.settings ∧
      L1.last_flush_time = L.last_flush_time ∧ m1.msgs = m.msgs ∧ m1.sinks = m.sinks ∧
      Queue m1 L1 q.tail ∧ ∀ p, (q.head?).map Prod.fst = some p → p ∉ q.tail.map Prod.fst := by
  cases q with
  | nil =>
    have hh : L.queue_head = none := hq.1
    exact ⟨_, L, pop_message_nil lp m L hL hh, hL, rfl, rfl, rfl, rfl, hq, by simp⟩
  | cons x rest =>
    obtain ⟨p, n⟩ := x
    have hnd := Chain.nodup _ _ hq.1
    obtain ⟨⟨h1, h2, h3⟩, ht⟩ := hq
    simp only [List.map_cons, List.nodup_cons] at hnd
    obtain ⟨L2, hL2, hhd, htl, hst, hlf⟩ : ∃ L2 : Logger,
        (if n.next = none then { L with queue_head := none, queue_tail := none }
          else { L with queue_head := n.next }) = L2 ∧ L2.queue_head = n.next ∧
        L2.queue_tail = (rest.getLast?).map Prod.fst ∧ L2.settings = L.settings ∧
        L2.last_flush_time = L.last_flush_time := by
      refine ⟨_, rfl, ?_⟩
      by_cases hx : n.next = none
      · have hr : rest = [] := (Chain.next_eq_none_iff h3).1 hx
        simp [hx, hr, Logger.settings]
      · have hr : rest ≠ [] := fun h => hx ((Chain.next_eq_none_iff h3).2 h)
        simp only [hx, if_false, Logger.settings, true_and]
        obtain ⟨y, r2, rfl⟩ := List.exists_cons_of_ne_nil hr
        rw [ht, List.getLast?_cons_cons]
        exact ⟨rfl, trivial⟩
    refine ⟨_, L2, pop_message_cons lp m L p n hL h1 h2, by simp [hL2], hst, hlf, rfl, rfl,
      ⟨by rw [hhd]; exact h3, htl⟩, ?_⟩
    intro p2 hp2
    simp only [List.head?_cons, Option.map_some', Option.some.injEq] at hp2
    subst hp2
    exact hnd.1

theorem Queue.free_popped {m : Mem} {L : Logger} {q : List (Ptr × LogMessage)} {p : Ptr}
    (hq : Queue m L q) (hp : p ∉ q.map Prod.fst) (m2 : Mem)
    (hm : ∀ a, a ≠ p → m2.msgs a = m.msgs a) : Queue m2 L q :=
  ⟨Chain.congr_heap q _ (fun a ha => hm a (fun h => hp (h ▸ ha))) hq.1, hq.2⟩

theorem dispatch_sync_frame (lp msg : Ptr) (level : LogLevel) :
    ∀ (k i : Nat) (m m2 : Mem), dispatch_sync lp msg level k i m = some m2 →
      m2.msgs = m.msgs ∧ m2.loggers = m.loggers ∧ m2.sinks = m.sinks := by
  intro k
  induction k with
  | zero =>
    intro i m m2 h
    simp only [dispatch_sync, Option.some.injEq] at h
    subst h
    exact ⟨rfl, rfl, rfl⟩
  | succ k ih =>
    intro i m m2 h
    simp only [dispatch_sync, Option.bind_eq_bind, Option.bind_eq_some] at h
    obtain ⟨L, _, sp, _, s, _, h⟩ := h
    split at h
    · simp only [Option.bind_eq_some] at h
      obtain ⟨body, _, h⟩ := h
      exact ih (i + 1) (m.emit (.write i sp s.config.write_fn msg body s.user_data)) m2 h
    · exact ih (i + 1) m m2 h

theorem dispatch_queued_frame (lp msg : Ptr) :
    ∀ (k i : Nat) (m m2 : Mem), dispatch_queued lp msg k i m = some m2 →
      m2.msgs = m.msgs ∧ m2.loggers = m.loggers ∧ m2.sinks = m.sinks := by
  intro k
  induction k with
  | zero =>
    intro i m m2 h
    simp only [dispatch_queued, Option.some.injEq] at h
    subst h
    exact ⟨rfl, rfl, rfl⟩
  | succ k ih =>
    intro i m m2 h
    simp only [dispatch_queued, Option.bind_eq_bind, Option.bind_eq_some] at h
    obtain ⟨L, _, body, _, sp, _, s, _, h⟩ := h
    split at h
    · exact ih (i + 1) (m.emit (.write i sp s.config.write_fn msg body s.user_data)) m2 h
    · exact ih (i + 1) m m2 h

theorem process_all_messages_queue (lp : Ptr) :
    ∀ (fuel : Nat) (m m2 : Mem) (L : Logger) (q : List (Ptr × LogMessage)),
      m.loggers lp = some L → Queue m L q → process_all_messages lp fuel m = some m2 →
      ∃ L2, m2.loggers lp = some L2 ∧ Queue m2 L2 [] ∧ L2.settings = L.settings := by
  intro fuel
  induction fuel with
  | zero => intro m m2 L q _ _ h; simp [process_all_messages] at h
  | succ k ih =>
    intro m m2 L q hL hq h
    obtain ⟨m1, L1, e1, e2, e3, _, e5, _, e7, e8⟩ := pop_message_queue lp m L q hL hq
    simp only [process_all_messages, e1, Option.bind_eq_bind, Option.some_bind] at h
    cases q with
    | nil =>
      simp only [List.head?_nil, Option.map_none', Option.some.injEq] at h
      subst h
      exact ⟨L1, e2, e7, e3⟩
    | cons x rest =>
      simp only [List.head?_cons, Option.map_some', e2, Option.some_bind,
        Option.bind_eq_some] at h
      obtain ⟨m3, hd, h⟩ := h
      obtain ⟨f1, f2, _⟩ := dispatch_queued_frame lp x.1 _ 0 m1 m3 hd
      have hq3 : Queue (m3.freeMsg x.1) L1 rest :=
        Queue.free_popped e7 (e8 x.1 rfl) _ (fun a ha => by simp [ha, f1])
      obtain ⟨L2, g1, g2, g3⟩ := ih _ m2 L1 rest (by simp [f2, e2]) hq3 h
      exact ⟨L2, g1, g2, g3.trans e3⟩

theorem worker_single_step_queue (lp : Ptr) (m m2 : Mem) (L : Logger)
    (q : List (Ptr × LogMessage)) (hL : m.loggers lp = some L) (hq : Queue m L q)
    (h : worker_single_step lp m = some m2) :
    ∃ L2, m2.loggers lp = some L2 ∧ Queue m2 L2 q.tail ∧ L2.settings = L.settings := by
  obtain ⟨m1, L1, e1, e2, e3, _, e5, _, e7, e8⟩ := pop_message_queue lp m L q hL hq
  simp only [worker_single_step, e1, Option.bind_eq_bind, Option.some_bind] at h
  cases q with
  | nil =>
    simp only [List.head?_nil, Option.map_none', Option.some.injEq] at h
    subst h
    exact ⟨L1, e2, e7, e3⟩
  | cons x rest =>
    simp only [List.head?_cons, Option.map_some', Mem.emit_loggers, e2, Option.some_bind,
      Option.bind_eq_some, Option.some.injEq] at h
    obtain ⟨m3, hd, rfl⟩ := h
    obtain ⟨f1, f2, _⟩ := dispatch_queued_frame lp x.1 _ 0 _ m3 hd
    refine ⟨L1, by simp [f2, e2], ?_, e3⟩
    exact Queue.free_popped e7 (e8 x.1 rfl) _ (fun a ha => by simp [ha, f1])

theorem worker_auto_flush_queue (fuel : Nat) (lp : Ptr) (env : WorkerEnv) (m m2 : Mem)
    (L : Logger) (q : List (Ptr × LogMessage)) (hL : m.loggers lp = some L) (hq : Queue m L q)
    (h : worker_auto_flush fuel lp env m = some m2) :
    ∃ L2 q2, m2.loggers lp = some L2 ∧ Queue m2 L2 q2 ∧ L2.settings = L.settings ∧
      q2.length ≤ q.length := by
  simp only [worker_auto_flush, hL, Option.bind_eq_bind, Option.some_bind] at h
  split at h
  · split at h
    · split at h
      · simp only [Option.bind_eq_some, Option.some.injEq] at h
        obtain ⟨m1, hd, L1, hL1, rfl⟩ := h
        obtain ⟨K, g1, g2, g3⟩ := process_all_messages_queue lp fuel
          (m.emit (.trylock .engine true)) m1 L q hL hq hd
        rw [hL1] at g1
        cases g1
        exact ⟨{ L1 with last_flush_time := env.current_time }, [], by simp, g2, g3, by simp⟩
      · simp only [Option.some.injEq] at h
        subst h
        exact ⟨L, q, hL, hq, rfl, le_refl _⟩
    · simp only [Option.some.injEq] at h
      subst h
      exact ⟨L, q, hL, hq, rfl, le_refl _⟩
  · simp only [Option.some.injEq] at h
    subst h
    exact ⟨L, q, hL, hq, rfl, le_refl _⟩

theorem worker_iteration_queue (fuel : Nat) (lp : Ptr) (env : WorkerEnv) (m m2 : Mem)
    (L : Logger) (q : List (Ptr × LogMessage)) (hL : m.loggers lp = some L) (hq : Queue m L q)
    (h : worker_iteration fuel lp env m = some m2) :
    ∃ L2 q2, m2.loggers lp = some L2 ∧ Queue m2 L2 q2 ∧ L2.settings = L.settings ∧
      (q2.length < q.length ∨ (q = [] ∧ q2 = [])) := by
  simp only [worker_iteration, Option.bind_eq_bind, Option.bind_eq_some] at h
  obtain ⟨m1, h1, h2⟩ := h
  obtain ⟨L1, q1, a1, a2, a3, a4⟩ := worker_auto_flush_queue fuel lp env m m1 L q hL hq h1
  obtain ⟨L2, b1, b2, b3⟩ := worker_single_step_queue lp m1 m2 L1 q1 a1 a2 h2
  refine ⟨L2, q1.tail, b1, b2, b3.trans a3, ?_⟩
  cases q1 with
  | nil =>
    cases q with
    | nil => exact Or.inr ⟨rfl, rfl⟩
    | cons x r => exact Or.inl (by simp)
  | cons y r =>
    refine Or.inl ?_
    simp only [List.tail_cons, List.length_cons] at a4 ⊢
    omega

theorem logger_flush_queue (fuel : Nat) (lp : Ptr) (m m2 : Mem) (L : Logger)
    (q : List (Ptr × LogMessage)) (hL : m.loggers lp = some L) (hq : Queue m L q)
    (h : logger_flush fuel (some lp) m = some m2) :
    ∃ L2 q2, m2.loggers lp = some L2 ∧ Queue m2 L2 q2 ∧ L2.settings = L.settings := by
  simp only [logger_flush, hL, Option.bind_eq_bind, Option.some_bind] at h
  split at h
  · simp only [Option.some.injEq] at h
    subst h
    exact ⟨L, q, hL, hq, rfl⟩
  · simp only [Option.bind_eq_some, Option.some.injEq] at h
    obtain ⟨m1, hd, rfl⟩ := h
    obtain ⟨L2, g1, g2, g3⟩ := process_all_messages_queue lp fuel (m.emit (.lock .engine)) m1
      L q hL hq hd
    exact ⟨L2, [], g1, g2, g3⟩

theorem Queue.fresh_not_mem {m : Mem} {L : Logger} {q : List (Ptr × LogMessage)} {p : Ptr}
    (hq : Queue m L q) (hfresh : m.msgs p = none) : p ∉ q.map Prod.fst := by
  intro hmem
  obtain ⟨⟨a, an⟩, hx, hax⟩ := List.mem_map.1 hmem
  have := Chain.lookup_node q _ a an hq.1 hx
  simp only at hax
  rw [hax, hfresh] at this
  cases this

theorem logger_log_queue (MSG_SIZE : Nat) (lp : Ptr) (level : LogLevel) (file : String)
    (line : Int) (fmt : Option (List Char)) (alloc : Option Ptr) (now : Int) (m m2 : Mem)
    (L : Logger) (q : List (Ptr × LogMessage)) (hL : m.loggers lp = some L) (hq : Queue m L q)
    (hfresh : ∀ text p, fmt = some text → alloc = some p → m.msgs p = none)
    (h : logger_log MSG_SIZE (some lp) level file line fmt alloc now m = some m2) :
    ∃ L2 q2, m2.loggers lp = some L2 ∧ Queue m2 L2 q2 ∧ L2.settings = L.settings := by
  cases fmt with
  | none =>
    simp only [logger_log, Option.some.injEq] at h
    subst h
    exact ⟨L, q, hL, hq, rfl⟩
  | some text =>
    cases alloc with
    | none =>
      simp only [logger_log, Option.some.injEq] at h
      subst h
      exact ⟨L, q, hL, hq, rfl⟩
    | some p =>
      have hf := hfresh text p rfl rfl
      by_cases hasync : L.async = true
      · rw [logger_log_async_eq MSG_SIZE m lp L q level file line text p now hL hasync hq hf] at h
        simp only [Option.some.injEq] at h
        subst h
        exact ⟨L.linked p, _, by simp, Queue.linked m L q p _ rfl hq hf _ rfl, rfl⟩
      · simp only [logger_log, Option.bind_eq_bind, Mem.setMsg_loggers, hL, Option.some_bind,
          hasync, Bool.false_eq_true, if_false, Option.bind_eq_some, Option.some.injEq] at h
        obtain ⟨m3, hd, rfl⟩ := h
        obtain ⟨f1, f2, _⟩ := dispatch_sync_frame lp p level _ 0 _ m3 hd
        refine ⟨L, q, by simp [f2, hL], ?_, rfl⟩
        exact Queue.free_popped hq (Queue.fresh_not_mem hq hf) _ (fun a ha => by simp [ha, f1])

theorem logger_add_sink_queue (MAX_SINKS : Nat) (lp : Ptr) (sink : Option Ptr) (m m2 : Mem)
    (L : Logger) (q : List (Ptr × LogMessage)) (hL : m.loggers lp = some L) (hq : Queue m L q)
    (h : logger_add_sink MAX_SINKS (some lp) sink m = some m2) :
    ∃ L2, m2.loggers lp = some L2 ∧ Queue m2 L2 q := by
  cases sink with
  | none =>
    simp only [logger_add_sink, Option.some.injEq] at h
    subst h
    exact ⟨L, hL, hq⟩
  | some sp =>
    simp only [logger_add_sink, hL, Option.bind_eq_bind, Option.some_bind] at h
    split at h
    · simp only [Option.some.injEq] at h
      subst h
      exact ⟨L, hL, hq⟩
    · split at h
      · simp only [Option.bind_eq_some, Option.some.injEq] at h
        obtain ⟨s, _, s1, _, rfl⟩ := h
        exact ⟨L.with_sink sp, by simp [Logger.with_sink], hq⟩
      · simp at h

theorem Op.apply_queue (MAX_SINKS MSG_SIZE : Nat) (lp : Ptr) (op : Op) (m m2 : Mem)
    (hok : QueueOk lp m) (hf : op.fresh m = true)
    (h : op.apply MAX_SINKS MSG_SIZE lp m = some m2) : QueueOk lp m2 := by
  obtain ⟨L, q, hL, hq⟩ := hok
  cases op with
  | add_sink sink =>
    obtain ⟨L2, a, b⟩ := logger_add_sink_queue MAX_SINKS lp sink m m2 L q hL hq h
    exact ⟨L2, q, a, b⟩
  | log level file line fmt alloc now =>
    obtain ⟨L2, q2, a, b, _⟩ := logger_log_queue MSG_SIZE lp level file line fmt alloc now m m2
      L q hL hq (by
        intro text p ht hp
        subst ht hp
        simpa [Op.fresh] using hf) h
    exact ⟨L2, q2, a, b⟩
  | flush fuel =>
    obtain ⟨L2, q2, a, b, _⟩ := logger_flush_queue fuel lp m m2 L q hL hq h
    exact ⟨L2, q2, a, b⟩
  | worker fuel env =>
    obtain ⟨L2, q2, a, b, _⟩ := worker_iteration_queue fuel lp env m m2 L q hL hq h
    exact ⟨L2, q2, a, b⟩

theorem run_fresh_queue (MAX_SINKS MSG_SIZE : Nat) (lp : Ptr) :
    ∀ (ops : List Op) (m m2 : Mem), QueueOk lp m →
      run_fresh MAX_SINKS MSG_SIZE lp ops m = some m2 → QueueOk lp m2 := by
  intro ops
  induction ops with
  | nil =>
    intro m m2 hok h
    simp only [run_fresh, Option.some.injEq] at h
    subst h
    exact hok
  | cons op ops ih =>
    intro m m2 hok h
    simp only [run_fresh] at h
    split at h
    · rename_i hf
      simp only [Option.bind_eq_some] at h
      obtain ⟨m1, h1, h2⟩ := h
      exact ih m1 m2 (Op.apply_queue MAX_SINKS MSG_SIZE lp op m m1 hok hf h1) h2
    · cases h

/-- The logger object `logger_create` leaves at the address it was given. -/
theorem logger_create_logger (MAX_SINKS : Nat) (config : LogConfig) (lp : Ptr)
    (junk : Nat → Option Ptr) (now : Int) (m0 : Mem) :
    ∃ L1, (logger_create MAX_SINKS config (some lp) junk now m0).2.loggers lp = some L1 ∧
      L1.sinks.length = MAX_SINKS ∧ L1.sink_count = 0 ∧ L1.queue_head = none ∧
      L1.queue_tail = none ∧ L1.running = true ∧ L1.async = config.async ∧
      L1.auto_flush = config.auto_flush ∧ L1.flush_interval_ms = config.flush_interval_ms ∧
      L1.last_flush_time = now ∧
      (logger_create MAX_SINKS config (some lp) junk now m0).2.sinks = m0.sinks ∧
      (logger_create MAX_SINKS config (some lp) junk now m0).2.msgs = m0.msgs := by
  cases hc : config.async <;> simp [logger_create, hc]

theorem logger_create_queue (MAX_SINKS : Nat) (config : LogConfig) (lp : Ptr)
    (junk : Nat → Option Ptr) (now : Int) (m0 : Mem) :
    QueueOk lp (logger_create MAX_SINKS config (some lp) junk now m0).2 := by
  obtain ⟨L1, h1, _, _, h4, h5, _⟩ := logger_create_logger MAX_SINKS config lp junk now m0
  exact ⟨L1, [], h1, h4, by simpa using h5⟩

/-- C13: in every state reached from `logger_create` by registrations, log calls,
flushes and worker iterations (with `malloc` handing out free addresses) the
queue of the logger is a well-formed list: `queue_head` is null exactly when
`queue_tail` is, and a non-null `queue_tail` is the last node of the chain that
starts at `queue_head`, with a null `next`.  Every pop (the one of
`process_all_messages` and the one of the worker loop) and every enqueue of
`logger_log` takes a well-formed queue to a well-formed queue. -/
theorem C13_queue_consistent (MAX_SINKS MSG_SIZE : Nat) (config : LogConfig) (lp : Ptr)
    (junk : Nat → Option Ptr) (now : Int) (m0 m : Mem) (ops : List Op)
    (hrun : run_fresh MAX_SINKS MSG_SIZE lp ops
      (logger_create MAX_SINKS config (some lp) junk now m0).2 = some m) :
    (∃ L q, m.loggers lp = some L ∧ Queue m L q ∧
      (L.queue_head = none ↔ L.queue_tail = none) ∧
      ∀ t, L.queue_tail = some t →
        ∃ tn, q.getLast? = some (t, tn) ∧ m.msgs t = some tn ∧ tn.next = none) ∧
    (∀ (m1 : Mem) (L1 : Logger) (q1 : List (Ptr × LogMessage)),
      m1.loggers lp = some L1 → Queue m1 L1 q1 →
      ∃ m2 L2, pop_message lp m1 = some ((q1.head?).map Prod.fst, m2) ∧
        m2.loggers lp = some L2 ∧ Queue m2 L2 q1.tail ∧
        (L2.queue_head = none ↔ L2.queue_tail = none)) ∧
    ∀ (m1 : Mem) (L1 : Logger) (q1 : List (Ptr × LogMessage)) (level : LogLevel)
      (file : String) (line : Int) (text : List Char) (p : Ptr) (t1 : Int),
      m1.loggers lp = some L1 → L1.async = true → Queue m1 L1 q1 → m1.msgs p = none →
      ∃ m2 L2 q2, logger_log MSG_SIZE (some lp) level file line (some text) (some p) t1 m1 =
          some m2 ∧
        m2.loggers lp = some L2 ∧ Queue m2 L2 q2 ∧
        (L2.queue_head = none ↔ L2.queue_tail = none) ∧ L2.queue_tail = some p := by
  refine ⟨?_, ?_, ?_⟩
  · obtain ⟨L, q, hL, hq⟩ := run_fresh_queue MAX_SINKS MSG_SIZE lp ops _ m
      (logger_create_queue MAX_SINKS config lp junk now m0) hrun
    exact ⟨L, q, hL, hq, hq.consistent.1, hq.consistent.2⟩
  · intro m1 L1 q1 hL1 hq1
    obtain ⟨m2, L2, e1, e2, _, _, _, _, e7, _⟩ := pop_message_queue lp m1 L1 q1 hL1 hq1
    exact ⟨m2, L2, e1, e2, e7, e7.consistent.1⟩
  · intro m1 L1 q1 level file line text p t1 hL1 hasync hq1 hfresh
    have h1 := logger_log_async_eq MSG_SIZE m1 lp L1 q1 level file line text p t1 hL1 hasync
      hq1 hfresh
    obtain ⟨m2, e1, e2, e5⟩ : ∃ m2,
        logger_log MSG_SIZE (some lp) level file line (some text) (some p) t1 m1 = some m2 ∧
        m2.loggers lp = some (L1.linked p) ∧
        m2.msgs = link_node m1.msgs q1 p (new_message MSG_SIZE level file line t1 text) :=
      ⟨_, h1, by simp, rfl⟩
    have hq2 := Queue.linked m1 L1 q1 p (new_message MSG_SIZE level file line t1 text) rfl hq1
      hfresh m2 e5
    exact ⟨m2, L1.linked p, _, e1, e2, hq2, hq2.consistent.1, rfl⟩

theorem C13_queue_consistent_witness :
    run_fresh 4 16 1 demo_ops
      (logger_create 4 demo_config_async (some 1) (fun _ => none) 999 demo_start).2 =
        some demo_final ∧
    (∃ m2 L2, pop_message 1 demo_queued = some ((demo_queue.head?).map Prod.fst, m2) ∧
        m2.loggers 1 = some L2 ∧ Queue m2 L2 demo_queue.tail ∧
        (L2.queue_head = none ↔ L2.queue_tail = none)) ∧
    (∃ L q, demo_final.loggers 1 = some L ∧ Queue demo_final L q ∧
      (L.queue_head = none ↔ L.queue_tail = none) ∧
      ∀ t, L.queue_tail = some t →
        ∃ tn, q.getLast? = some (t, tn) ∧ demo_final.msgs t = some tn ∧ tn.next = none) := by
  have h := C13_queue_consistent 4 16 demo_config_async 1 (fun _ => none) 999 demo_start
    demo_final demo_ops rfl
  exact ⟨rfl, h.2.1 demo_queued demo_queued_logger demo_queue rfl
    ⟨⟨rfl, rfl, rfl, rfl, rfl, rfl, rfl⟩, rfl⟩, h.1⟩

theorem worker_auto_flush_due (fuel : Nat) (lp : Ptr) (env : WorkerEnv)
    (ss : List (Ptr × LogSink)) (m : Mem) (L : Logger) (q : List (Ptr × LogMessage))
    (hL : m.loggers lp = some L) (hen : L.auto_flush = true) (hpos : 0 < L.flush_interval_ms)
    (hdue : L.flush_interval_ms ≤ elapsed_ms env.current_time L.last_flush_time)
    (htry : env.trylock_ok = true) (hreg : Registered m L ss) (hq : Queue m L q)
    (hf : q.length < fuel) :
    worker_auto_flush fuel lp env m = some
      { loggers := fun a => if a = lp then some (L.flushed env.current_time) else m.loggers a
        sinks := m.sinks
        msgs := release m.msgs q
        trace := m.trace ++ [.trylock .engine true] ++ drain_events ss q ++ [.unlock .engine] } := by
  have hd := process_all_messages_drain lp ss q (m.emit (.trylock .engine true)) L fuel hL hreg
    hq hf
  simp only [worker_auto_flush, hL, Option.bind_eq_bind, Option.some_bind, hen, hpos,
    decide_True, Bool.and_self, if_true, ge_iff_le, hdue, htry, hd]
  congr 1
  apply Mem.ext
  · funext a
    by_cases ha : a = lp
    · simp [ha, Logger.flushed]
    · simp [ha]
  · rfl
  · rfl
  · simp [Mem.emit]

theorem worker_auto_flush_skip (fuel : Nat) (lp : Ptr) (env : WorkerEnv) (m : Mem) (L : Logger)
    (hL : m.loggers lp = some L)
    (h : L.auto_flush = false ∨ L.flush_interval_ms ≤ 0 ∨
      elapsed_ms env.current_time L.last_flush_time < L.flush_interval_ms) :
    worker_auto_flush fuel lp env m = some m := by
  simp only [worker_auto_flush, hL, Option.bind_eq_bind, Option.some_bind]
  rcases h with h | h | h
  · simp [h]
  · have : ¬ L.flush_interval_ms > 0 := by omega
    simp [this]
  · have : ¬ elapsed_ms env.current_time L.last_flush_time ≥ L.flush_interval_ms := by
      omega
    split
    · simp [this]
    · rfl

theorem time_t_wrap_fits (x : Int) (h : time_t_fits x) : time_t_wrap x = x := by
  obtain ⟨h1, h2⟩ := h
  unfold time_t_wrap
  rw [Int.emod_eq_of_lt (by omega) (by omega)]
  omega

theorem time_t_wrap_sub (a b : Int) :
    time_t_wrap (time_t_wrap a - time_t_wrap b) = time_t_wrap (a - b) := by
  unfold time_t_wrap
  omega

/-- The expression of line 47 is the elapsed time in milliseconds whenever that
time fits in `time_t`. -/
theorem elapsed_ms_exact (current_time last_flush_time : Int)
    (hd : time_t_fits ((current_time - last_flush_time) * 1000)) :
    elapsed_ms current_time last_flush_time = (current_time - last_flush_time) * 1000 := by
  unfold elapsed_ms
  rw [time_t_wrap_sub, ← time_t_wrap_fits _ hd]
  congr 1
  ring

/-- With overflow the expression of line 47 is not the elapsed time: at the clock
value 9223372036855777 the milliseconds elapsed since 999 exceed the range of
`time_t`, the expression is negative, and the auto-flush part skips the drain
although far more than the interval of 1000 ms has passed.  Likewise at the
clock value 9223372036854777 with `last_flush_time` 0 the expression is
`1192 - 2 ^ 63`. -/
theorem worker_auto_flush_overflow :
    demo_queued.loggers 1 = some demo_queued_logger ∧
    demo_queued_logger.auto_flush = true ∧ demo_queued_logger.flush_interval_ms = 1000 ∧
    demo_queued_logger.last_flush_time = 999 ∧ demo_env_overflow.trylock_ok = true ∧
    ¬ time_t_fits ((demo_env_overflow.current_time - 999) * 1000) ∧
    1000 ≤ (demo_env_overflow.current_time - 999) * 1000 ∧
    elapsed_ms demo_env_overflow.current_time 999 < 0 ∧
    elapsed_ms 9223372036854777 0 = 1192 - 2 ^ 63 ∧
    worker_auto_flush 8 1 demo_env_overflow demo_queued = some demo_queued := by
  refine ⟨rfl, rfl, rfl, rfl, rfl, by unfold time_t_fits; decide, by decide, by decide,
    by decide, ?_⟩
  exact worker_auto_flush_skip 8 1 demo_env_overflow demo_queued demo_queued_logger rfl
    (Or.inr (Or.inr (by decide)))

/-- C14 (amended): in a worker iteration with auto-flush enabled, an interval
greater than 0, the engine lock free and the elapsed time at least the
interval, the worker drains and dispatches the whole queue and sets
`last_flush_time` to the current time.  The elapsed time is what line 47
computes, `current_time * 1000 - last_flush_time * 1000` in `time_t`; it is the
elapsed time in milliseconds whenever that time fits in `time_t`.  When auto-flush is disabled, or the interval is 0 or
negative, or the elapsed time is below the interval, the auto-flush part
changes nothing; when the engine lock is taken it only records the failed
attempt. -/
theorem C14_auto_flush_when_due (fuel : Nat) (lp : Ptr) (env : WorkerEnv) (m : Mem)
    (L : Logger) (hL : m.loggers lp = some L) :
    (∀ (ss : List (Ptr × LogSink)) (q : List (Ptr × LogMessage)),
      L.auto_flush = true → 0 < L.flush_interval_ms →
      L.flush_interval_ms ≤ elapsed_ms env.current_time L.last_flush_time →
      env.trylock_ok = true → Registered m L ss → Queue m L q → q.length < fuel →
      ∃ m2 m3 L2, worker_auto_flush fuel lp env m = some m2 ∧
        m2.loggers lp = some L2 ∧ L2.last_flush_time = env.current_time ∧
        L2.queue_head = none ∧ L2.queue_tail = none ∧ L2.settings = L.settings ∧
        m2.msgs = release m.msgs q ∧
        writes m2.trace = writes m.trace ++ deliveries ss q ∧
        worker_iteration fuel lp env m = some m3 ∧ m3.loggers lp = some L2 ∧
        writes m3.trace = writes m.trace ++ deliveries ss q) ∧
    (L.auto_flush = false ∨ L.flush_interval_ms ≤ 0 ∨
        elapsed_ms env.current_time L.last_flush_time < L.flush_interval_ms →
      worker_auto_flush fuel lp env m = some m) ∧
    (L.auto_flush = true → 0 < L.flush_interval_ms →
      L.flush_interval_ms ≤ elapsed_ms env.current_time L.last_flush_time →
      env.trylock_ok = false →
      worker_auto_flush fuel lp env m = some (m.emit (.trylock .engine false))) ∧
    (time_t_fits ((env.current_time - L.last_flush_time) * 1000) →
      elapsed_ms env.current_time L.last_flush_time =
        (env.current_time - L.last_flush_time) * 1000) := by
  refine ⟨?_, worker_auto_flush_skip fuel lp env m L hL, ?_,
    elapsed_ms_exact env.current_time L.last_flush_time⟩
  · intro ss q hen hpos hdue htry hreg hq hf
    have h1 := worker_auto_flush_due fuel lp env ss m L q hL hen hpos hdue htry hreg hq hf
    obtain ⟨m2, e1, e2, e3, e4⟩ : ∃ m2, worker_auto_flush fuel lp env m = some m2 ∧
        m2.loggers lp = some (L.flushed env.current_time) ∧ m2.msgs = release m.msgs q ∧
        m2.trace = m.trace ++ [.trylock .engine true] ++ drain_events ss q ++
          [.unlock .engine] := ⟨_, h1, by simp, rfl, rfl⟩
    have hw : writes m2.trace = writes m.trace ++ deliveries ss q := by
      rw [e4]
      simp only [writes_append, writes_drain_events]
      simp [writes]
    refine ⟨m2, ((m2.emit (.lock .queue)).emit (.unlock .queue)).emit .thrd_yield,
      L.flushed env.current_time, e1, e2, rfl, rfl, rfl, rfl, e3, hw, ?_, by simpa using e2, ?_⟩
    · simp only [worker_iteration, e1, Option.bind_eq_bind, Option.some_bind,
        worker_single_step, pop_message_nil lp m2 _ e2 rfl]
    · simp only [Mem.emit_trace, writes_append, hw]
      simp [writes]
  · intro hen hpos hdue htry
    simp [worker_auto_flush, hL, hen, hpos, hdue, htry]

theorem C14_auto_flush_when_due_witness :
    demo_queued.loggers 1 = some demo_queued_logger ∧
    (∃ m2 m3 L2, worker_auto_flush 8 1 demo_env_late demo_queued = some m2 ∧
        m2.loggers 1 = some L2 ∧ L2.last_flush_time = demo_env_late.current_time ∧
        L2.queue_head = none ∧ L2.queue_tail = none ∧
        L2.settings = demo_queued_logger.settings ∧
        m2.msgs = release demo_queued.msgs demo_queue ∧
        writes m2.trace = writes demo_queued.trace ++ deliveries demo_queued_sinks demo_queue ∧
        worker_iteration 8 1 demo_env_late demo_queued = some m3 ∧ m3.loggers 1 = some L2 ∧
        writes m3.trace = writes demo_queued.trace ++ deliveries demo_queued_sinks demo_queue) ∧
    worker_auto_flush 8 1 demo_env_late demo_zero = some demo_zero ∧
    elapsed_ms demo_env_late.current_time demo_queued_logger.last_flush_time =
      (demo_env_late.current_time - demo_queued_logger.last_flush_time) * 1000 ∧
    (demo_env_late.current_time - demo_queued_logger.last_flush_time) * 1000 = 6000 := by
  have h := C14_auto_flush_when_due 8 1 demo_env_late demo_queued demo_queued_logger rfl
  have h0 := C14_auto_flush_when_due 8 1 demo_env_late demo_zero demo_zero_logger rfl
  exact ⟨rfl, h.1 demo_queued_sinks demo_queue rfl (by decide) (by decide) rfl
    ⟨rfl, rfl, rfl, rfl, rfl, trivial⟩ ⟨⟨rfl, rfl, rfl, rfl, rfl, rfl, rfl⟩, rfl⟩ (by decide),
    h0.2.1 (Or.inr (Or.inl (by decide))),
    h.2.2.2 (by unfold time_t_fits; decide), by decide⟩

/-- C14 as stated fails for the interval 0: with auto-flush enabled, the engine
lock free and 6000 ms elapsed (at least the interval), the auto-flush part
changes nothing, and after the whole iteration two of the three queued nodes
are still queued and `last_flush_time` is still 999. -/
theorem C14_refuted_by_zero_interval :
    demo_zero.loggers 1 = some demo_zero_logger ∧ demo_zero_logger.auto_flush = true ∧
    demo_zero_logger.flush_interval_ms = 0 ∧ demo_env_late.trylock_ok = true ∧
    demo_zero_logger.flush_interval_ms ≤
      elapsed_ms demo_env_late.current_time demo_zero_logger.last_flush_time ∧
    worker_auto_flush 8 1 demo_env_late demo_zero = some demo_zero ∧
    (worker_iteration 8 1 demo_env_late demo_zero).bind (fun m => m.loggers 1) =
      some { demo_zero_logger with queue_head := some 11 } := by
  refine ⟨rfl, rfl, rfl, rfl, by decide, rfl, by decide⟩

theorem worker_thread_func_continue (fuel : Nat) (lp : Ptr) (m : Mem) (L : Logger)
    (hL : m.loggers lp = some L) (hc : (L.running || L.queue_head.isSome) = true) :
    worker_thread_func fuel lp [] m = none ∧
    ∀ env envs, worker_thread_func fuel lp (env :: envs) m =
      (worker_iteration fuel lp env m).bind (worker_thread_func fuel lp envs) := by
  refine ⟨?_, ?_⟩
  · simp only [worker_thread_func, hL, Option.bind_eq_bind, Option.some_bind, hc, if_true]
  · intro env envs
    simp only [worker_thread_func, hL, Option.bind_eq_bind, Option.some_bind, hc, if_true]

theorem worker_thread_func_stop (fuel : Nat) (lp : Ptr) (m : Mem) (L : Logger)
    (hL : m.loggers lp = some L) (hc : (L.running || L.queue_head.isSome) = false) :
    ∀ envs, worker_thread_func fuel lp envs m = some m := by
  intro envs
  cases envs <;>
    simp only [worker_thread_func, hL, Option.bind_eq_bind, Option.some_bind, hc,
      Bool.false_eq_true, if_false]

/-- The loop of `worker_thread_func` returns only from a state in which `running`
is false and `queue_head` is null. -/
theorem worker_thread_func_exit (fuel : Nat) (lp : Ptr) :
    ∀ (envs : List WorkerEnv) (m m2 : Mem), worker_thread_func fuel lp envs m = some m2 →
      ∃ L2, m2.loggers lp = some L2 ∧ L2.running = false ∧ L2.queue_head = none := by
  intro envs
  induction envs with
  | nil =>
    intro m m2 h
    cases hL : m.loggers lp with
    | none => simp [worker_thread_func, hL] at h
    | some L =>
      cases hc : (L.running || L.queue_head.isSome) with
      | true =>
        rw [(worker_thread_func_continue fuel lp m L hL hc).1] at h
        cases h
      | false =>
        rw [worker_thread_func_stop fuel lp m L hL hc] at h
        cases h
        refine ⟨L, hL, ?_⟩
        cases hr : L.running <;> cases hh : L.queue_head <;> simp [hr, hh] at hc ⊢
  | cons env envs ih =>
    intro m m2 h
    cases hL : m.loggers lp with
    | none => simp [worker_thread_func, hL] at h
    | some L =>
      cases hc : (L.running || L.queue_head.isSome) with
      | true =>
        rw [(worker_thread_func_continue fuel lp m L hL hc).2, Option.bind_eq_some] at h
        obtain ⟨m1, _, h2⟩ := h
        exact ih m1 m2 h2
      | false =>
        rw [worker_thread_func_stop fuel lp m L hL hc] at h
        cases h
        refine ⟨L, hL, ?_⟩
        cases hr : L.running <;> cases hh : L.queue_head <;> simp [hr, hh] at hc ⊢

/-- Inputs beyond the ones consumed before the exit do not matter. -/
theorem worker_thread_func_more (fuel : Nat) (lp : Ptr) (extra : List WorkerEnv) :
    ∀ (envs : List WorkerEnv) (m m2 : Mem), worker_thread_func fuel lp envs m = some m2 →
      worker_thread_func fuel lp (envs ++ extra) m = some m2 := by
  intro envs
  induction envs with
  | nil =>
    intro m m2 h
    cases hL : m.loggers lp with
    | none => simp [worker_thread_func, hL] at h
    | some L =>
      cases hc : (L.running || L.queue_head.isSome) with
      | true =>
        rw [(worker_thread_func_continue fuel lp m L hL hc).1] at h
        cases h
      | false =>
        rw [worker_thread_func_stop fuel lp m L hL hc] at h ⊢
        exact h
  | cons env envs ih =>
    intro m m2 h
    cases hL : m.loggers lp with
    | none => simp [worker_thread_func, hL] at h
    | some L =>
      cases hc : (L.running || L.queue_head.isSome) with
      | true =>
        rw [(worker_thread_func_continue fuel lp m L hL hc).2, Option.bind_eq_some] at h
        obtain ⟨m1, h1, h2⟩ := h
        rw [List.cons_append, (worker_thread_func_continue fuel lp m L hL hc).2, h1]
        exact ih m1 m2 h2
      | false =>
        rw [worker_thread_func_stop fuel lp m L hL hc] at h ⊢
        exact h

/-- The loop of `worker_thread_func` keeps the queue a well-formed list. -/
theorem worker_thread_func_queue (fuel : Nat) (lp : Ptr) :
    ∀ (envs : List WorkerEnv) (m m2 : Mem) (L : Logger) (q : List (Ptr × LogMessage)),
      m.loggers lp = some L → Queue m L q → worker_thread_func fuel lp envs m = some m2 →
      ∃ L2 q2, m2.loggers lp = some L2 ∧ Queue m2 L2 q2 := by
  intro envs
  induction envs with
  | nil =>
    intro m m2 L q hL hq h
    cases hc : (L.running || L.queue_head.isSome) with
    | true =>
      rw [(worker_thread_func_continue fuel lp m L hL hc).1] at h
      cases h
    | false =>
      rw [worker_thread_func_stop fuel lp m L hL hc] at h
      cases h
      exact ⟨L, q, hL, hq⟩
  | cons env envs ih =>
    intro m m2 L q hL hq h
    cases hc : (L.running || L.queue_head.isSome) with
    | true =>
      rw [(worker_thread_func_continue fuel lp m L hL hc).2, Option.bind_eq_some] at h
      obtain ⟨m1, h1, h2⟩ := h
      obtain ⟨L1, q1, a1, a2, _⟩ := worker_iteration_queue fuel lp env m m1 L q hL hq h1
      exact ih m1 m2 L1 q1 a1 a2 h2
    | false =>
      rw [worker_thread_func_stop fuel lp m L hL hc] at h
      cases h
      exact ⟨L, q, hL, hq⟩

/-- C15: the worker loop runs another iteration while `running` is true or the
queue is non-empty, and it returns only in a state where `running` is false and
the queue is empty.  Every iteration from a well-formed state succeeds, keeps
`running`, and removes at least one node when the queue is non-empty.  Once
`running` is false and nothing is enqueued, a queue of n nodes is emptied and
the loop returns after at most n iterations: the first n inputs decide the
result. -/
theorem C15_worker_loop_exit (fuel : Nat) (lp : Ptr) (ss : List (Ptr × LogSink)) (m : Mem)
    (L : Logger) (q : List (Ptr × LogMessage)) (hL : m.loggers lp = some L)
    (hreg : Registered m L ss) (hq : Queue m L q) (hf : q.length < fuel) :
    (L.running = true ∨ q ≠ [] →
      worker_thread_func fuel lp [] m = none ∧
      ∀ env envs, worker_thread_func fuel lp (env :: envs) m =
        (worker_iteration fuel lp env m).bind (worker_thread_func fuel lp envs)) ∧
    (L.running = false → q = [] → ∀ envs, worker_thread_func fuel lp envs m = some m) ∧
    (∀ envs m2, worker_thread_func fuel lp envs m = some m2 →
      ∃ L2, m2.loggers lp = some L2 ∧ L2.running = false ∧ L2.queue_head = none ∧
        Queue m2 L2 []) ∧
    (∀ env, ∃ m2 L2 d r, worker_iteration fuel lp env m = some m2 ∧
      m2.loggers lp = some L2 ∧ L2.running = L.running ∧ Registered m2 L2 ss ∧
      Queue m2 L2 r ∧ q = d ++ r ∧ (q ≠ [] → r.length < q.length)) ∧
    (L.running = false → ∀ envs, q.length ≤ envs.length →
      ∃ m2 L2, worker_thread_func fuel lp envs m = some m2 ∧
        worker_thread_func fuel lp (envs.take q.length) m = some m2 ∧
        m2.loggers lp = some L2 ∧ L2.running = false ∧ Queue m2 L2 [] ∧
        writes m2.trace = writes m.trace ++ deliveries ss q) := by
  have hrdy : Ready lp ss m q := ⟨L, hL, hreg, hq⟩
  have hterm : L.running = false → ∀ envs : List WorkerEnv, q.length ≤ envs.length →
      ∃ m2 L2, worker_thread_func fuel lp envs m = some m2 ∧
        m2.loggers lp = some L2 ∧ L2.running = false ∧ Queue m2 L2 [] ∧
        writes m2.trace = writes m.trace ++ deliveries ss q := by
    intro hr envs hlen
    have hrun : ∀ K, m.loggers lp = some K → K.running = false := by
      intro K hK
      rw [hL] at hK
      cases hK
      exact hr
    obtain ⟨m2, h1, ⟨L2, b1, _, b3⟩, hd⟩ := worker_thread_func_ready fuel lp ss envs m q hrdy hrun hf hlen
    have hr2 := hd.running hrun L2 b1
    obtain ⟨_, _, _, _, evs, e1, e2, _, _⟩ := hd
    exact ⟨m2, L2, h1, b1, hr2, b3, by rw [e1, writes_append, e2]⟩
  refine ⟨?_, ?_, ?_, ?_, ?_⟩
  · intro hc
    have hcond : (L.running || L.queue_head.isSome) = true := by
      rcases hc with hr | hne
      · simp [hr]
      · cases q with
        | nil => exact absurd rfl hne
        | cons x rest =>
          have hh : L.queue_head = some x.1 := hq.1.1
          simp [hh]
    exact worker_thread_func_continue fuel lp m L hL hcond
  · intro hr hnil envs
    subst hnil
    have hh : L.queue_head = none := hq.1
    exact worker_thread_func_stop fuel lp m L hL (by simp [hr, hh]) envs
  · intro envs m2 h
    obtain ⟨L2, a1, a2, a3⟩ := worker_thread_func_exit fuel lp envs m m2 h
    obtain ⟨K, q2, k1, k2⟩ := worker_thread_func_queue fuel lp envs m m2 L q hL hq h
    rw [a1] at k1
    cases k1
    cases q2 with
    | nil => exact ⟨L2, a1, a2, a3, k2⟩
    | cons x rest =>
      have hh : L2.queue_head = some x.1 := k2.1.1
      rw [a3] at hh
      cases hh
  · intro env
    obtain ⟨m2, d, r, hsplit, hne, h1, ⟨L2, b1, b2, b3⟩, hd⟩ :=
      worker_iteration_ready fuel lp env ss m q hrdy hf
    refine ⟨m2, L2, d, r, h1, b1, ?_, b2, b3, hsplit, ?_⟩
    · obtain ⟨_, _, _, ⟨K, K2, a4, a5, a6⟩, _⟩ := hd
      rw [hL] at a4
      rw [b1] at a5
      cases a4
      cases a5
      simp only [Logger.settings, Prod.mk.injEq] at a6
      exact a6.1
    · intro hq0
      have hdl : d.length ≠ 0 := fun h0 => hne hq0 (List.eq_nil_of_length_eq_zero h0)
      rw [hsplit, List.length_append]
      omega
  · intro hr envs hlen
    obtain ⟨m2, L2, h1, rest⟩ := hterm hr envs hlen
    obtain ⟨m3, L3, h3, _⟩ := hterm hr (envs.take q.length) (by simp [hlen])
    have h4 := worker_thread_func_more fuel lp (envs.drop q.length) _ m m3 h3
    rw [List.take_append_drop, h1] at h4
    cases h4
    exact ⟨m2, L2, h1, h3, rest⟩

theorem C15_worker_loop_exit_witness :
    demo_stopping.loggers 1 = some demo_stopping_logger ∧
    demo_stopping_logger.running = false ∧ demo_queue.length = 3 ∧
    ∃ m2 L2, worker_thread_func 8 1 demo_envs demo_stopping = some m2 ∧
      worker_thread_func 8 1 (demo_envs.take demo_queue.length) demo_stopping = some m2 ∧
      m2.loggers 1 = some L2 ∧ L2.running = false ∧ Queue m2 L2 [] ∧
      writes m2.trace = writes demo_stopping.trace ++ deliveries demo_queued_sinks demo_queue :=
  ⟨rfl, rfl, rfl, (C15_worker_loop_exit 8 1 demo_queued_sinks demo_stopping demo_stopping_logger
    demo_queue rfl ⟨rfl, rfl, rfl, rfl, rfl, trivial⟩ ⟨⟨rfl, rfl, rfl, rfl, rfl, rfl, rfl⟩, rfl⟩
    (by decide)).2.2.2.2 rfl demo_envs (by decide)⟩

theorem lock_run_append (nested : Bool) :
    ∀ (a b : List Event) (h : Bool × Bool),
      lock_run nested h (a ++ b) = (lock_run nested h a).bind fun h2 => lock_run nested h2 b := by
  intro a
  induction a with
  | nil => intro b h; simp [lock_run]
  | cons e t ih =>
    intro b h
    simp only [List.cons_append, lock_run]
    cases lock_step nested h e with
    | none => simp
    | some h2 => simp [ih b h2]

theorem Locked.locked_refl (nested : Bool) (h : Bool × Bool) (m : Mem) : Locked nested h h m m :=
  ⟨[], by simp, rfl⟩

theorem Locked.locked_trans {nested : Bool} {h1 h2 h3 : Bool × Bool} {m1 m2 m3 : Mem}
    (a : Locked nested h1 h2 m1 m2) (b : Locked nested h2 h3 m2 m3) :
    Locked nested h1 h3 m1 m3 := by
  obtain ⟨e1, a1, a2⟩ := a
  obtain ⟨e2, b1, b2⟩ := b
  exact ⟨e1 ++ e2, by rw [b1, a1, List.append_assoc], by rw [lock_run_append, a2]; exact b2⟩

/-- A step that leaves the trace alone. -/
theorem Locked.of_trace (nested : Bool) (h : Bool × Bool) {m m2 : Mem}
    (ht : m2.trace = m.trace) : Locked nested h h m m2 :=
  ⟨[], by simp [ht], rfl⟩

theorem Locked.emit_step (nested : Bool) (h h2 : Bool × Bool) (m : Mem) (e : Event)
    (hs : lock_step nested h e = some h2) : Locked nested h h2 m (m.emit e) :=
  ⟨[e], rfl, by simp [lock_run, hs]⟩

theorem dispatch_queued_locked (nested : Bool) (h : Bool × Bool) (lp msg : Ptr) :
    ∀ (k i : Nat) (m m2 : Mem), dispatch_queued lp msg k i m = some m2 →
      Locked nested h h m m2 := by
  intro k
  induction k with
  | zero =>
    intro i m m2 hd
    simp only [dispatch_queued, Option.some.injEq] at hd
    subst hd
    exact Locked.locked_refl _ _ _
  | succ k ih =>
    intro i m m2 hd
    simp only [dispatch_queued, Option.bind_eq_bind, Option.bind_eq_some] at hd
    obtain ⟨L, _, body, _, sp, _, s, _, hd⟩ := hd
    split at hd
    · exact Locked.locked_trans
        (Locked.emit_step nested h h m (.write i sp s.config.write_fn msg body s.user_data)
          (by obtain ⟨e, q⟩ := h; rfl))
        (ih (i + 1) (m.emit (.write i sp s.config.write_fn msg body s.user_data)) m2 hd)
    · exact ih (i + 1) m m2 hd

theorem dispatch_sync_locked (nested : Bool) (h : Bool × Bool) (lp msg : Ptr)
    (level : LogLevel) :
    ∀ (k i : Nat) (m m2 : Mem), dispatch_sync lp msg level k i m = some m2 →
      Locked nested h h m m2 := by
  intro k
  induction k with
  | zero =>
    intro i m m2 hd
    simp only [dispatch_sync, Option.some.injEq] at hd
    subst hd
    exact Locked.locked_refl _ _ _
  | succ k ih =>
    intro i m m2 hd
    simp only [dispatch_sync, Option.bind_eq_bind, Option.bind_eq_some] at hd
    obtain ⟨L, _, sp, _, s, _, hd⟩ := hd
    split at hd
    · simp only [Option.bind_eq_some] at hd
      obtain ⟨body, _, hd⟩ := hd
      exact Locked.locked_trans
        (Locked.emit_step nested h h m (.write i sp s.config.write_fn msg body s.user_data)
          (by obtain ⟨e, q⟩ := h; rfl))
        (ih (i + 1) (m.emit (.write i sp s.config.write_fn msg body s.user_data)) m2 hd)
    · exact ih (i + 1) m m2 hd

/-- The pop takes and releases the queue lock; it keeps the discipline when the
engine lock is not held or nesting is allowed. -/
theorem pop_message_locked (nested e : Bool) (he : e = false ∨ nested = true) (lp : Ptr)
    (m m2 : Mem) (r : Option Ptr) (h : pop_message lp m = some (r, m2)) :
    Locked nested (e, false) (e, false) m m2 ∧
      ∃ rest, m2.trace = m.trace ++ Event.lock .queue :: rest := by
  have hs : lock_step nested (e, false) (.lock .queue) = some (e, true) := by
    rcases he with rfl | rfl <;> simp [lock_step]
  simp only [pop_message, Option.bind_eq_bind, Option.bind_eq_some] at h
  obtain ⟨L, hL, h⟩ := h
  split at h
  · simp only [Option.some.injEq, Prod.mk.injEq] at h
    obtain ⟨_, rfl⟩ := h
    exact ⟨⟨[.lock .queue, .unlock .queue], by simp [Mem.emit], by simp only [lock_run, hs, Option.some_bind]; rfl⟩,
      [.unlock .queue], by simp [Mem.emit]⟩
  · rename_i p hp
    simp only [Option.bind_eq_some, Option.some.injEq, Prod.mk.injEq] at h
    obtain ⟨node, hnode, _, rfl⟩ := h
    exact ⟨⟨[.lock .queue, .dequeue p, .unlock .queue], by simp [Mem.emit, Mem.setLogger],
      by simp only [lock_run, hs, Option.some_bind]; rfl⟩,
      [.dequeue p, .unlock .queue], by simp [Mem.emit, Mem.setLogger]⟩

theorem process_all_messages_locked (nested e : Bool) (he : e = false ∨ nested = true)
    (lp : Ptr) :
    ∀ (fuel : Nat) (m m2 : Mem), process_all_messages lp fuel m = some m2 →
      Locked nested (e, false) (e, false) m m2 ∧
        ∃ rest, m2.trace = m.trace ++ Event.lock .queue :: rest := by
  intro fuel
  induction fuel with
  | zero => intro m m2 h; simp [process_all_messages] at h
  | succ k ih =>
    intro m m2 h
    simp only [process_all_messages, Option.bind_eq_bind, Option.bind_eq_some] at h
    obtain ⟨⟨r, m1⟩, hpop, h⟩ := h
    obtain ⟨q1, r1, t1⟩ := pop_message_locked nested e he lp m m1 r hpop
    cases r with
    | none =>
      simp only [Option.some.injEq] at h
      subst h
      exact ⟨q1, r1, t1⟩
    | some p =>
      simp only [Option.bind_eq_some] at h
      obtain ⟨L, hL, m3, hd, h⟩ := h
      have q2 := dispatch_queued_locked nested (e, false) lp p L.sink_count 0 m1 m3 hd
      have q3 : Locked nested (e, false) (e, false) m3 (m3.freeMsg p) :=
        Locked.of_trace nested (e, false) rfl
      obtain ⟨q4, _⟩ := ih (m3.freeMsg p) m2 h
      have q := Locked.locked_trans q2 (Locked.locked_trans q3 q4)
      refine ⟨Locked.locked_trans q1 q, ?_⟩
      obtain ⟨evs, hevs, _⟩ := q
      exact ⟨r1 ++ evs, by rw [hevs, t1]; simp⟩

theorem worker_auto_flush_locked (fuel : Nat) (lp : Ptr) (env : WorkerEnv) (m m2 : Mem)
    (h : worker_auto_flush fuel lp env m = some m2) :
    Locked true (false, false) (false, false) m m2 := by
  simp only [worker_auto_flush, Option.bind_eq_bind, Option.bind_eq_some] at h
  obtain ⟨L, hL, h⟩ := h
  split at h
  · split at h
    · split at h
      · simp only [Option.bind_eq_some, Option.some.injEq] at h
        obtain ⟨m1, hd, L1, hL1, rfl⟩ := h
        obtain ⟨q1, _⟩ := process_all_messages_locked true true (Or.inr rfl) lp fuel
          (m.emit (.trylock .engine true)) m1 hd
        have q0 : Locked true (false, false) (true, false) m (m.emit (.trylock .engine true)) :=
          Locked.emit_step true _ _ m _ rfl
        have q2 : Locked true (true, false) (true, false) m1
            (m1.setLogger lp { L1 with last_flush_time := env.current_time }) :=
          Locked.of_trace true _ rfl
        exact Locked.locked_trans q0 (Locked.locked_trans q1 (Locked.locked_trans q2
          (Locked.emit_step true _ _ _ (.unlock .engine) rfl)))
      · simp only [Option.some.injEq] at h
        subst h
        exact Locked.emit_step true _ _ m _ rfl
    · simp only [Option.some.injEq] at h
      subst h
      exact Locked.locked_refl _ _ _
  · simp only [Option.some.injEq] at h
    subst h
    exact Locked.locked_refl _ _ _

theorem worker_single_step_locked (nested : Bool) (lp : Ptr) (m m2 : Mem)
    (h : worker_single_step lp m = some m2) :
    Locked nested (false, false) (false, false) m m2 := by
  simp only [worker_single_step, Option.bind_eq_bind, Option.bind_eq_some] at h
  obtain ⟨⟨r, m3⟩, hpop, h⟩ := h
  obtain ⟨q2, _⟩ := pop_message_locked nested false (Or.inl rfl) lp m m3 r hpop
  cases r with
  | none =>
    simp only [Option.some.injEq] at h
    subst h
    exact Locked.locked_trans q2 (Locked.emit_step nested _ _ m3 .thrd_yield rfl)
  | some p =>
    simp only [Option.bind_eq_some, Option.some.injEq] at h
    obtain ⟨L, hL, m4, hd, rfl⟩ := h
    have q3 := dispatch_queued_locked nested (true, false) lp p L.sink_count 0
      (m3.emit (.lock .engine)) m4 hd
    have q0 : Locked nested (false, false) (true, false) m3 (m3.emit (.lock .engine)) :=
      Locked.emit_step nested _ _ m3 _ rfl
    have q4 : Locked nested (true, false) (false, false) m4 (m4.emit (.unlock .engine)) :=
      Locked.emit_step nested _ _ m4 _ rfl
    have q5 : Locked nested (false, false) (false, false) (m4.emit (.unlock .engine))
        ((m4.emit (.unlock .engine)).freeMsg p) := Locked.of_trace nested _ rfl
    exact Locked.locked_trans q2 (Locked.locked_trans q0 (Locked.locked_trans q3
      (Locked.locked_trans q4 q5)))

theorem worker_iteration_locked (fuel : Nat) (lp : Ptr) (env : WorkerEnv) (m m2 : Mem)
    (h : worker_iteration fuel lp env m = some m2) :
    Locked true (false, false) (false, false) m m2 := by
  simp only [worker_iteration, Option.bind_eq_bind, Option.bind_eq_some] at h
  obtain ⟨m1, hf, h⟩ := h
  exact Locked.locked_trans (worker_auto_flush_locked fuel lp env m m1 hf)
    (worker_single_step_locked true lp m1 m2 h)

theorem logger_flush_locked (fuel : Nat) (logger : Option Ptr) (m m2 : Mem)
    (h : logger_flush fuel logger m = some m2) :
    Locked true (false, false) (false, false) m m2 := by
  cases logger with
  | none =>
    simp only [logger_flush, Option.some.injEq] at h
    subst h
    exact Locked.locked_refl _ _ _
  | some lp =>
    simp only [logger_flush, Option.bind_eq_bind, Option.bind_eq_some] at h
    obtain ⟨L, hL, h⟩ := h
    split at h
    · simp only [Option.some.injEq] at h
      subst h
      exact Locked.locked_refl _ _ _
    · simp only [Option.bind_eq_some, Option.some.injEq] at h
      obtain ⟨m1, hd, rfl⟩ := h
      obtain ⟨q1, _⟩ := process_all_messages_locked true true (Or.inr rfl) lp fuel
        (m.emit (.lock .engine)) m1 hd
      exact Locked.locked_trans (Locked.emit_step true _ _ m (.lock .engine) rfl)
        (Locked.locked_trans q1 (Locked.emit_step true _ _ m1 (.unlock .engine) rfl))

/-- An async flush takes the queue lock right after the engine lock. -/
theorem logger_flush_nests (fuel : Nat) (lp : Ptr) (m m2 : Mem) (L : Logger)
    (hL : m.loggers lp = some L) (hasync : L.async = true)
    (h : logger_flush fuel (some lp) m = some m2) :
    ∃ rest, m2.trace = m.trace ++ Event.lock .engine :: Event.lock .queue :: rest := by
  simp only [logger_flush, hL, Option.bind_eq_bind, Option.some_bind, hasync,
    Bool.not_true, Bool.false_eq_true, if_false, Option.bind_eq_some, Option.some.injEq] at h
  obtain ⟨m1, hd, rfl⟩ := h
  obtain ⟨_, rest, hr⟩ := process_all_messages_locked true true (Or.inr rfl) lp fuel
    (m.emit (.lock .engine)) m1 hd
  exact ⟨rest ++ [.unlock .engine], by simp [Mem.emit, hr]⟩

theorem logger_log_locked (nested : Bool) (MSG_SIZE : Nat) (logger : Option Ptr)
    (level : LogLevel) (file : String) (line : Int) (fmt : Option (List Char))
    (alloc : Option Ptr) (now : Int) (m m2 : Mem)
    (h : logger_log MSG_SIZE logger level file line fmt alloc now m = some m2) :
    Locked nested (false, false) (false, false) m m2 := by
  cases logger with
  | none =>
    simp only [logger_log, Option.some.injEq] at h
    subst h
    exact Locked.locked_refl _ _ _
  | some lp =>
    cases fmt with
    | none =>
      simp only [logger_log, Option.some.injEq] at h
      subst h
      exact Locked.locked_refl _ _ _
    | some text =>
      cases alloc with
      | none =>
        simp only [logger_log, Option.some.injEq] at h
        subst h
        exact Locked.locked_refl _ _ _
      | some p =>
        simp only [logger_log, Option.bind_eq_bind, Option.bind_eq_some] at h
        obtain ⟨L, hL, h⟩ := h
        have q0 : Locked nested (false, false) (false, false) m
            (m.setMsg p (new_message MSG_SIZE level file line now text)) :=
          Locked.of_trace nested _ rfl
        have qa : Locked nested (false, false) (false, true)
            (m.setMsg p (new_message MSG_SIZE level file line now text))
            ((m.setMsg p (new_message MSG_SIZE level file line now text)).emit (.lock .queue)) :=
          Locked.emit_step nested _ _ _ _ rfl
        refine Locked.locked_trans q0 ?_
        split at h
        · split at h
          · simp only [Option.some_bind, Option.bind_eq_some, Option.some.injEq] at h
            obtain ⟨L1, hL1, rfl⟩ := h
            refine Locked.locked_trans qa ⟨[.enqueue p, .unlock .queue], ?_, rfl⟩
            simp [Mem.emit, Mem.setLogger]
          · rename_i t _
            simp only [Option.some_bind, Option.bind_eq_some, Option.some.injEq] at h
            obtain ⟨tn, _, L1, hL1, rfl⟩ := h
            refine Locked.locked_trans qa ⟨[.enqueue p, .unlock .queue], ?_, rfl⟩
            simp [Mem.emit, Mem.setLogger, Mem.setMsg]
        · simp only [Option.bind_eq_some, Option.some.injEq] at h
          obtain ⟨m1, hd, rfl⟩ := h
          have q1 := dispatch_sync_locked nested (true, false) lp p level L.sink_count 0 _ m1 hd
          have q5 : Locked nested (false, false) (false, false) (m1.emit (.unlock .engine))
              ((m1.emit (.unlock .engine)).freeMsg p) := Locked.of_trace nested _ rfl
          exact Locked.locked_trans (Locked.emit_step nested (false, false) (true, false) _
            (.lock .engine) rfl) (Locked.locked_trans q1
              (Locked.locked_trans (Locked.emit_step nested _ _ m1 (.unlock .engine) rfl) q5))

/-- From a well-formed state every operation returns. -/
theorem operations_return (MSG_SIZE fuel : Nat) (lp : Ptr) (ss : List (Ptr × LogSink))
    (m : Mem) (L : Logger) (q : List (Ptr × LogMessage)) (hL : m.loggers lp = some L)
    (hreg : Registered m L ss) (hq : Queue m L q) (hf : q.length < fuel) :
    (∀ level file line fmt alloc now, (∀ p, alloc = some p → m.msgs p = none) →
      (logger_log MSG_SIZE (some lp) level file line fmt alloc now m).isSome = true) ∧
    (logger_flush fuel (some lp) m).isSome = true ∧
    (worker_single_step lp m).isSome = true ∧
    ∀ env, (worker_iteration fuel lp env m).isSome = true := by
  refine ⟨?_, ?_, ?_, ?_⟩
  · intro level file line fmt alloc now hfresh
    cases fmt with
    | none => simp [logger_log]
    | some text =>
      cases alloc with
      | none => simp [logger_log]
      | some p =>
        by_cases hasync : L.async = true
        · rw [logger_log_async_eq MSG_SIZE m lp L q level file line text p now hL hasync hq
            (hfresh p rfl)]
          rfl
        · rw [logger_log_sync_eq MSG_SIZE m lp L ss level file line text p now hL
            (by simpa using hasync) hreg (hfresh p rfl)]
          rfl
  · by_cases hasync : L.async = true
    · rw [logger_flush_ready fuel lp ss m L q hL hasync hreg hq hf]
      rfl
    · simp [logger_flush, hL, hasync]
  · obtain ⟨m2, h2, _⟩ := worker_single_step_ready lp ss m q ⟨L, hL, hreg, hq⟩
    rw [h2]
    rfl
  · intro env
    obtain ⟨m2, d, r, _, _, h1, _⟩ := worker_iteration_ready fuel lp env ss m q ⟨L, hL, hreg, hq⟩ hf
    rw [h1]
    rfl

/-- C16 (amended): on every execution path of `logger_log`, `logger_flush` and a
worker iteration the engine lock is never acquired while the queue lock is
held, no lock is acquired twice, and every lock taken is released at the end.
In `logger_log` and in the single-message part of a worker iteration the two
locks are never held together.  In `logger_flush` and in the auto-flush part the
drain in `process_all_messages` acquires the queue lock while the engine lock
is held: an async flush starts with `lock engine, lock queue`. -/
theorem C16_lock_order (MSG_SIZE fuel : Nat) (lp : Ptr) (m : Mem) :
    (∀ level file line fmt alloc now m2,
      logger_log MSG_SIZE (some lp) level file line fmt alloc now m = some m2 →
      Locked false (false, false) (false, false) m m2) ∧
    (∀ m2, worker_single_step lp m = some m2 →
      Locked false (false, false) (false, false) m m2) ∧
    (∀ m2, logger_flush fuel (some lp) m = some m2 →
      Locked true (false, false) (false, false) m m2) ∧
    (∀ env m2, worker_iteration fuel lp env m = some m2 →
      Locked true (false, false) (false, false) m m2) ∧
    (∀ L m2, m.loggers lp = some L → L.async = true →
      logger_flush fuel (some lp) m = some m2 →
      ∃ rest, m2.trace = m.trace ++ Event.lock .engine :: Event.lock .queue :: rest) ∧
    (∀ ss q L, m.loggers lp = some L → Registered m L ss → Queue m L q → q.length < fuel →
      (∀ level file line fmt alloc now, (∀ p, alloc = some p → m.msgs p = none) →
        (logger_log MSG_SIZE (some lp) level file line fmt alloc now m).isSome = true) ∧
      (logger_flush fuel (some lp) m).isSome = true ∧
      (worker_single_step lp m).isSome = true ∧
      ∀ env, (worker_iteration fuel lp env m).isSome = true) :=
  ⟨fun level file line fmt alloc now m2 h =>
      logger_log_locked false MSG_SIZE (some lp) level file line fmt alloc now m m2 h,
    fun m2 h => worker_single_step_locked false lp m m2 h,
    fun m2 h => logger_flush_locked fuel (some lp) m m2 h,
    fun env m2 h => worker_iteration_locked fuel lp env m m2 h,
    fun L m2 hL hasync h => logger_flush_nests fuel lp m m2 L hL hasync h,
    fun ss q L hL hreg hq hf => operations_return MSG_SIZE fuel lp ss m L q hL hreg hq hf⟩

theorem C16_lock_order_witness :
    logger_log 16 (some 1) 4 "main.c" 13 (some ['d']) (some 13) 1002 demo_queued =
      some ((logger_log 16 (some 1) 4 "main.c" 13 (some ['d']) (some 13) 1002
        demo_queued).getD demo_queued) ∧
    Locked false (false, false) (false, false) demo_queued
      ((logger_log 16 (some 1) 4 "main.c" 13 (some ['d']) (some 13) 1002
        demo_queued).getD demo_queued) ∧
    logger_flush 8 (some 1) demo_queued =
      some ((logger_flush 8 (some 1) demo_queued).getD demo_queued) ∧
    Locked true (false, false) (false, false) demo_queued
      ((logger_flush 8 (some 1) demo_queued).getD demo_queued) ∧
    (∃ rest, ((logger_flush 8 (some 1) demo_queued).getD demo_queued).trace =
      demo_queued.trace ++ Event.lock .engine :: Event.lock .queue :: rest) ∧
    worker_iteration 8 1 demo_env_late demo_queued =
      some ((worker_iteration 8 1 demo_env_late demo_queued).getD demo_queued) ∧
    Locked true (false, false) (false, false) demo_queued
      ((worker_iteration 8 1 demo_env_late demo_queued).getD demo_queued) :=
  ⟨rfl, (C16_lock_order 16 8 1 demo_queued).1 4 "main.c" 13 (some ['d']) (some 13) 1002 _ rfl,
    rfl, (C16_lock_order 16 8 1 demo_queued).2.2.1 _ rfl,
    (C16_lock_order 16 8 1 demo_queued).2.2.2.2.1 demo_queued_logger _ rfl rfl rfl,
    rfl, (C16_lock_order 16 8 1 demo_queued).2.2.2.1 demo_env_late _ rfl⟩

/-- C16 as stated fails for `logger_flush`: on an async logger with an empty
queue the flush adds `lock engine, lock queue, unlock queue, unlock engine`;
after the second event both locks are held, so the strict discipline (no queue
lock while the engine lock is held) rejects the run. -/
theorem C16_refuted_by_flush :
    logger_flush 8 (some 1) demo_async = some { demo_async with trace := demo_async.trace ++
      [.lock .engine, .lock .queue, .unlock .queue, .unlock .engine] } ∧
    lock_run true (false, false) [.lock .engine, .lock .queue] = some (true, true) ∧
    lock_run false (false, false)
      [.lock .engine, .lock .queue, .unlock .queue, .unlock .engine] = none ∧
    ¬ Locked false (false, false) (false, false) demo_async
      { demo_async with trace := demo_async.trace ++
        [.lock .engine, .lock .queue, .unlock .queue, .unlock .engine] } := by
  refine ⟨logger_flush_empty 8 1 demo_async demo_async_logger rfl rfl rfl (by decide), rfl, rfl, ?_⟩
  rintro ⟨evs, h1, h2⟩
  have h3 : evs = [.lock .engine, .lock .queue, .unlock .queue, .unlock .engine] :=
    (List.append_cancel_left h1).symm
  rw [h3] at h2
  cases h2

/-- Single-message steps from a state that is ready: with one step per queued
node the queue is emptied and every node is delivered. -/
theorem single_steps_ready (lp : Ptr) (ss : List (Ptr × LogSink)) :
    ∀ (k : Nat) (m : Mem) (q : List (Ptr × LogMessage)),
      Ready lp ss m q → q.length ≤ k →
      ∃ m2, single_steps lp k m = some m2 ∧ Ready lp ss m2 [] ∧ Drained lp ss m m2 q := by
  intro k
  induction k with
  | zero =>
    intro m q h hlen
    have hq : q = [] := List.eq_nil_of_length_eq_zero (by simpa using hlen)
    subst hq
    obtain ⟨L, hL, hreg, hqu⟩ := h
    have hh : L.queue_head = none := hqu.1
    exact ⟨m, by simp [single_steps, hL, hh], ⟨L, hL, hreg, hqu⟩,
      Drained.drained_refl lp ss m L hL⟩
  | succ k ih =>
    intro m q h hlen
    obtain ⟨L, hL, hreg, hqu⟩ := h
    cases q with
    | nil =>
      have hh : L.queue_head = none := hqu.1
      exact ⟨m, by simp [single_steps, hL, hh], ⟨L, hL, hreg, hqu⟩,
        Drained.drained_refl lp ss m L hL⟩
    | cons x rest =>
      have hh : L.queue_head = some x.1 := hqu.1.1
      obtain ⟨m1, h1, hr1, hd1⟩ := worker_single_step_ready lp ss m (x :: rest) ⟨L, hL, hreg, hqu⟩
      obtain ⟨m2, h2, hr2, hd2⟩ := ih m1 rest hr1 (by simpa using hlen)
      refine ⟨m2, by simp [single_steps, hL, hh, h1, h2], hr2, ?_⟩
      have := Drained.drained_trans hd1 hd2
      simpa using this

theorem SinksFrom.slot {sinks : Ptr → Option LogSink} {arr : List (Option Ptr)} :
    ∀ (ss : List (Ptr × LogSink)) (i : Nat), SinksFrom sinks arr i ss →
      ∀ j, j < ss.length → ∃ x, x ∈ ss ∧ arr[i + j]? = some (some x.1) ∧
        sinks x.1 = some x.2 := by
  intro ss
  induction ss with
  | nil => intro i _ j hj; simp at hj
  | cons x rest ih =>
    intro i h j hj
    obtain ⟨sp, s⟩ := x
    obtain ⟨h1, h2, h3⟩ := h
    cases j with
    | zero => exact ⟨(sp, s), by simp, by simpa using h1, h2⟩
    | succ j =>
      obtain ⟨y, hy, a, b⟩ := ih (i + 1) h3 j (by simpa using hj)
      refine ⟨y, List.mem_cons_of_mem _ hy, ?_, b⟩
      rw [← a]
      congr 1
      omega

theorem invocations_append (a b : List Event) :
    invocations (a ++ b) = invocations a ++ invocations b := by
  simp [invocations, List.filterMap_append]

theorem invocations_fan_out (ss : List (Ptr × LogSink)) (msg : Ptr) (body : LogMessage) :
    invocations (fan_out ss 0 msg body body.level) = invoked ss body.unlinked := by
  simp only [invocations, fan_out, invoked, List.filterMap_map, Function.comp_def,
    Event.invocation, LogMessage.unlinked]
  exact congrFun (List.filterMap_eq_map _) _

theorem invocations_deliveries (ss : List (Ptr × LogSink)) :
    ∀ q : List (Ptr × LogMessage),
      invocations (deliveries ss q) = invoked_all ss (q.map fun x => x.2.unlinked)
  | [] => rfl
  | (p, n) :: rest => by
    simp only [deliveries, invocations_append, invocations_fan_out, List.map_cons, invoked_all,
      invocations_deliveries ss rest]

theorem invocations_writes (t : List Event) : invocations (writes t) = invocations t := by
  induction t with
  | nil => rfl
  | cons e t ih =>
    cases e <;> simp_all [writes, invocations, List.filter_cons, List.filterMap_cons,
      Event.invocation]

theorem unlinked_node (MSG_SIZE : Nat) (c : LogCall) (nx : Option Ptr) :
    LogMessage.unlinked { c.node MSG_SIZE with next := nx } = c.node MSG_SIZE := by
  simp [LogMessage.unlinked, LogCall.node, new_message]

theorem unlinked_enqueued (MSG_SIZE : Nat) :
    ∀ cs : List LogCall,
      (enqueued MSG_SIZE cs).map (fun x => x.2.unlinked) = cs.map (LogCall.node MSG_SIZE)
  | [] => rfl
  | c :: cs => by
    simp only [enqueued, List.map_cons, unlinked_node, unlinked_enqueued MSG_SIZE cs]

/-- A sequence of log calls on a sync logger: every call fans out at once and
releases its node, so the memory changes in its trace only, and an address may
be handed out again. -/
theorem log_all_sync (MSG_SIZE : Nat) (lp : Ptr) (ss : List (Ptr × LogSink)) :
    ∀ (cs : List LogCall) (m : Mem) (L : Logger),
      m.loggers lp = some L → L.async = false → Registered m L ss →
      (∀ c ∈ cs, m.msgs c.addr = none) →
      ∃ evs, log_all MSG_SIZE lp cs m = some { m with trace := m.trace ++ evs } ∧
        invocations evs = invoked_all ss (cs.map (LogCall.node MSG_SIZE)) := by
  intro cs
  induction cs with
  | nil =>
    intro m L _ _ _ _
    exact ⟨[], by simp [log_all], rfl⟩
  | cons c cs ih =>
    intro m L hL hsync hreg hfresh
    have h1 := logger_log_sync_eq MSG_SIZE m lp L ss c.level c.file c.line c.text c.addr c.now
      hL hsync hreg (hfresh c (List.mem_cons_self _ _))
    obtain ⟨m1, e1, e2, e3, e4, e5⟩ : ∃ m1, c.apply MSG_SIZE lp m = some m1 ∧
        m1.loggers = m.loggers ∧ m1.sinks = m.sinks ∧ m1.msgs = m.msgs ∧
        m1.trace = m.trace ++ [.lock .engine] ++
          fan_out ss 0 c.addr (c.node MSG_SIZE) c.level ++ [.unlock .engine] :=
      ⟨_, h1, rfl, rfl, rfl, rfl⟩
    obtain ⟨evs, h2, h3⟩ := ih m1 L (by rw [e2]; exact hL) hsync
      ⟨hreg.1, by rw [e3]; exact hreg.2⟩
      (fun c2 hc2 => by rw [e4]; exact hfresh c2 (List.mem_cons_of_mem _ hc2))
    refine ⟨[.lock .engine] ++ fan_out ss 0 c.addr (c.node MSG_SIZE) c.level ++
      [.unlock .engine] ++ evs, ?_, ?_⟩
    · simp only [log_all, e1, Option.some_bind, h2, Option.some.injEq]
      apply Mem.ext
      · exact e2
      · exact e3
      · exact e4
      · simp [e5]
    · have hfo : invocations (fan_out ss 0 c.addr (c.node MSG_SIZE) c.level) =
          invoked ss (c.node MSG_SIZE) := by
        have := invocations_fan_out ss c.addr (c.node MSG_SIZE)
        simpa [LogMessage.unlinked, LogCall.node, new_message] using this
      simp only [invocations_append, hfo, h3, List.map_cons, invoked_all]
      simp [invocations, Event.invocation]

/-- C17 (amended): the three dispatch paths agree on messages whose allocations
succeed.  For registered sinks `ss`, let the calls `cs_s` on a sync logger and
the calls `cs_a` on an async logger with an empty queue fill in the same nodes
(non-null formats, successful allocations; on the sync logger an address may
be handed out again after the `free`, on the async logger the addresses are
distinct).  Then (a) the calls on the sync logger, (b) the calls on the async
logger followed by one `logger_flush`, and (c) the calls on the async logger
followed by single-message worker steps until `queue_head` is null, all
return, and the (sink, message) invocations they add are the same list:
message-major in call order, sink-minor in slot order.  A call whose allocation
fails returns the memory unchanged on every path. -/
theorem C17_dispatch_paths_agree (MSG_SIZE fuel : Nat) (lp : Ptr) (ss : List (Ptr × LogSink))
    (cs_s cs_a : List LogCall) (ms ma : Mem) (Ls La : Logger)
    (hLs : ms.loggers lp = some Ls) (hsync : Ls.async = false) (hregs : Registered ms Ls ss)
    (hLa : ma.loggers lp = some La) (hasync : La.async = true) (hrega : Registered ma La ss)
    (hhead : La.queue_head = none) (htail : La.queue_tail = none)
    (hsame : cs_s.map (LogCall.node MSG_SIZE) = cs_a.map (LogCall.node MSG_SIZE))
    (hfs : ∀ c ∈ cs_s, ms.msgs c.addr = none) (hfa : ∀ c ∈ cs_a, ma.msgs c.addr = none)
    (hnd : (cs_a.map fun c => c.addr).Nodup) (hf : cs_a.length < fuel) :
    (∃ m1 m2 m3 e1 e2 e3,
      log_all MSG_SIZE lp cs_s ms = some m1 ∧ m1.trace = ms.trace ++ e1 ∧
      (log_all MSG_SIZE lp cs_a ma).bind (logger_flush fuel (some lp)) = some m2 ∧
      m2.trace = ma.trace ++ e2 ∧
      (log_all MSG_SIZE lp cs_a ma).bind (single_steps lp cs_a.length) = some m3 ∧
      m3.trace = ma.trace ++ e3 ∧
      (∃ L3, m3.loggers lp = some L3 ∧ L3.queue_head = none) ∧
      invocations e1 = invoked_all ss (cs_a.map (LogCall.node MSG_SIZE)) ∧
      invocations e2 = invoked_all ss (cs_a.map (LogCall.node MSG_SIZE)) ∧
      invocations e3 = invoked_all ss (cs_a.map (LogCall.node MSG_SIZE))) ∧
    ∀ (m : Mem) (level : LogLevel) (file : String) (line : Int) (text : List Char) (now : Int),
      logger_log MSG_SIZE (some lp) level file line (some text) none now m = some m := by
  refine ⟨?_, fun m level file line text now => by simp [logger_log]⟩
  obtain ⟨e1, a1, a2⟩ := log_all_sync MSG_SIZE lp ss cs_s ms Ls hLs hsync hregs hfs
  rw [hsame] at a2
  have hq : Queue ma La [] := ⟨hhead, by simpa using htail⟩
  obtain ⟨m0, L0, g1, g2, g3, _, g4, g5, _, _, _, evs, g9, g10, _⟩ :=
    log_all_ready MSG_SIZE lp ss cs_a ma La [] hLa hasync hrega hq hfa hnd
  have hfold : cs_a.foldl (fun q c => append_node q c.addr (c.node MSG_SIZE)) [] =
      enqueued MSG_SIZE cs_a := by
    simpa [enqueued] using enqueued_foldl MSG_SIZE cs_a []
  rw [hfold] at g5
  have hasync2 : L0.async = true := by
    simp only [Logger.settings, Prod.mk.injEq] at g3
    rw [g3.2.2.1]; exact hasync
  have hlen : (enqueued MSG_SIZE cs_a).length = cs_a.length := by
    have := congrArg List.length (enqueued_addrs MSG_SIZE cs_a)
    simpa using this
  have hfl := logger_flush_ready fuel lp ss m0 L0 _ g2 hasync2 g4 g5 (by rw [hlen]; exact hf)
  obtain ⟨m2, f1, f5⟩ : ∃ m2, logger_flush fuel (some lp) m0 = some m2 ∧
      m2.trace = m0.trace ++ [.lock .engine] ++ drain_events ss (enqueued MSG_SIZE cs_a) ++
        [.unlock .engine] := ⟨_, hfl, rfl⟩
  obtain ⟨m3, s1, ⟨L3, s2, _, s3⟩, sd⟩ := single_steps_ready lp ss cs_a.length m0
    (enqueued MSG_SIZE cs_a) ⟨L0, g2, g4, g5⟩ (by rw [hlen])
  obtain ⟨_, _, _, _, e3, t1, t2, _, _⟩ := sd
  have hinv : ∀ evs2 : List Event, writes evs2 = deliveries ss (enqueued MSG_SIZE cs_a) →
      invocations evs2 = invoked_all ss (cs_a.map (LogCall.node MSG_SIZE)) := by
    intro evs2 h
    rw [← invocations_writes, h, invocations_deliveries, unlinked_enqueued]
  refine ⟨_, m2, m3, e1, evs ++ ([.lock .engine] ++ drain_events ss (enqueued MSG_SIZE cs_a) ++
    [.unlock .engine]), evs ++ e3, a1, rfl, by rw [g1, Option.some_bind, f1],
    by simp [f5, g9], by rw [g1, Option.some_bind, s1], by simp [t1, g9], ⟨L3, s2, s3.1⟩,
    a2, ?_, ?_⟩
  · apply hinv
    simp only [writes_append, g10, writes_drain_events]
    simp [writes]
  · apply hinv
    simp only [writes_append, g10, t2]
    simp

theorem C17_dispatch_paths_agree_witness :
    (invoked_all demo_sync_sinks (demo_calls.map (LogCall.node 16))).map
        (fun x => (x.1, c_string x.2.2.2.1.message)) =
      [(0, ['a']), (0, ['b']), (1, ['b']), (0, ['c'])] ∧
    ∃ m1 m2 m3 e1 e2 e3,
      log_all 16 1 demo_calls_reuse demo_sync = some m1 ∧ m1.trace = demo_sync.trace ++ e1 ∧
      (log_all 16 1 demo_calls demo_async_two).bind (logger_flush 8 (some 1)) = some m2 ∧
      m2.trace = demo_async_two.trace ++ e2 ∧
      (log_all 16 1 demo_calls demo_async_two).bind (single_steps 1 demo_calls.length) =
        some m3 ∧
      m3.trace = demo_async_two.trace ++ e3 ∧
      (∃ L3, m3.loggers 1 = some L3 ∧ L3.queue_head = none) ∧
      invocations e1 = invoked_all demo_sync_sinks (demo_calls.map (LogCall.node 16)) ∧
      invocations e2 = invoked_all demo_sync_sinks (demo_calls.map (LogCall.node 16)) ∧
      invocations e3 = invoked_all demo_sync_sinks (demo_calls.map (LogCall.node 16)) :=
  ⟨by decide,
    (C17_dispatch_paths_agree 16 8 1 demo_sync_sinks demo_calls_reuse demo_calls demo_sync
      demo_async_two demo_sync_logger demo_async_two_logger rfl rfl
      ⟨rfl, rfl, rfl, rfl, rfl, trivial⟩ rfl rfl ⟨rfl, rfl, rfl, rfl, rfl, trivial⟩ rfl rfl
      rfl (fun _ _ => rfl) (fun _ _ => rfl) (by decide) (by decide)).1⟩

/-- C17 as stated fails: the message (Error, "b") logged on the sync logger with a
failing allocation reaches no sink, while the same message logged on the async
logger with a successful allocation and then flushed reaches both sinks; the
two loggers have the same sink list. -/
theorem C17_refuted_by_failed_allocation :
    Registered demo_sync demo_sync_logger demo_sync_sinks ∧
    Registered demo_async_two demo_async_two_logger demo_sync_sinks ∧
    invocations demo_sync.trace = [] ∧ invocations demo_async_two.trace = [] ∧
    (logger_log 16 (some 1) 4 "main.c" 11 (some ['b']) none 1000 demo_sync).map
      (fun m => (invocations m.trace).map fun x => (x.1, c_string x.2.2.2.1.message)) =
        some [] ∧
    ((logger_log 16 (some 1) 4 "main.c" 11 (some ['b']) (some 11) 1000 demo_async_two).bind
      (logger_flush 8 (some 1))).map
      (fun m => (invocations m.trace).map fun x => (x.1, c_string x.2.2.2.1.message)) =
        some [(0, ['b']), (1, ['b'])] := by
  refine ⟨⟨rfl, rfl, rfl, rfl, rfl, trivial⟩, ⟨rfl, rfl, rfl, rfl, rfl, trivial⟩, by decide,
    by decide, by decide, by decide⟩

theorem writes_of_append (sp : Ptr) (a b : List Event) :
    writes_of sp (a ++ b) = writes_of sp a ++ writes_of sp b := by
  simp [writes_of]

theorem writes_of_writes (sp : Ptr) (t : List Event) : writes_of sp (writes t) = writes_of sp t := by
  simp only [writes_of, writes, List.filter_filter]
  congr 1
  funext e
  cases e <;> simp

/-- Every event of a fan-out is the call of a registered handle in its slot. -/
theorem mem_fan_out {ss : List (Ptr × LogSink)} {i : Nat} {msg : Ptr} {body : LogMessage}
    {level : LogLevel} {e : Event} (h : e ∈ fan_out ss i msg body level) :
    ∃ j sp s, ss[j]? = some (sp, s) ∧
      e = .write (i + j) sp s.config.write_fn msg body s.user_data := by
  simp only [fan_out, List.mem_map, List.mem_filter] at h
  obtain ⟨⟨k, sp, s⟩, ⟨hmem, _⟩, rfl⟩ := h
  obtain ⟨hle, hk⟩ := List.mk_mem_enumFrom_iff_le_and_getElem?_sub.1 hmem
  refine ⟨k - i, sp, s, hk, ?_⟩
  have : i + (k - i) = k := by omega
  rw [this]

theorem mem_deliveries {ss : List (Ptr × LogSink)} {e : Event} :
    ∀ {q : List (Ptr × LogMessage)}, e ∈ deliveries ss q →
      ∃ j sp s p n, ss[j]? = some (sp, s) ∧ e = .write j sp s.config.write_fn p n s.user_data
  | [], h => by simp [deliveries] at h
  | (p, n) :: rest, h => by
    simp only [deliveries, List.mem_append] at h
    rcases h with h | h
    · obtain ⟨j, sp, s, h1, h2⟩ := mem_fan_out h
      exact ⟨j, sp, s, p, n, h1, by simpa using h2⟩
    · exact mem_deliveries h

/-- A handle that is registered once occupies one slot. -/
theorem slot_unique {ss : List (Ptr × LogSink)} (hnd : (ss.map Prod.fst).Nodup) {i j : Nat}
    {sp : Ptr} {s s2 : LogSink} (hi : ss[i]? = some (sp, s)) (hj : ss[j]? = some (sp, s2)) :
    j = i := by
  have h1 : (ss.map Prod.fst)[i]? = some sp := by simp [List.getElem?_map, hi]
  have h2 : (ss.map Prod.fst)[j]? = some sp := by simp [List.getElem?_map, hj]
  have hlt : j < (ss.map Prod.fst).length := by
    by_contra hc
    rw [List.getElem?_eq_none (by omega)] at h2
    cases h2
  exact List.getElem?_inj hlt hnd (h2.trans h1.symm)

/-- With pairwise distinct handles the calls of a handle are the calls of its
slot. -/
theorem writes_of_deliveries (ss : List (Ptr × LogSink)) (hnd : (ss.map Prod.fst).Nodup)
    (i : Nat) (sp : Ptr) (s : LogSink) (hi : ss[i]? = some (sp, s))
    (q : List (Ptr × LogMessage)) :
    writes_of sp (deliveries ss q) = writes_to i (deliveries ss q) := by
  unfold writes_of writes_to
  apply List.filter_congr
  intro e he
  obtain ⟨j, sp2, s2, p, n, h1, rfl⟩ := mem_deliveries he
  by_cases hsp : sp2 = sp
  · subst hsp
    have := slot_unique hnd hi h1
    simp [this]
  · have hji : j ≠ i := by
      intro hji
      subst hji
      rw [hi] at h1
      cases h1
      exact hsp rfl
    simp [hsp, hji]

/-- A handle that is not registered is not called. -/
theorem writes_of_deliveries_other (ss : List (Ptr × LogSink)) (sp : Ptr)
    (hsp : sp ∉ ss.map Prod.fst) (q : List (Ptr × LogMessage)) :
    writes_of sp (deliveries ss q) = [] := by
  unfold writes_of
  rw [List.filter_eq_nil_iff]
  intro e he
  obtain ⟨j, sp2, s2, p, n, h1, rfl⟩ := mem_deliveries he
  have hmem : sp2 ∈ ss.map Prod.fst :=
    List.mem_map.2 ⟨(sp2, s2), List.getElem?_mem h1, rfl⟩
  have hne : sp2 ≠ sp := fun h => hsp (h ▸ hmem)
  simp [hne]

/-- From the deliveries per slot to the calls per handle: a handle that is not
registered gets no call, and with pairwise distinct handles the handle in slot
`i` gets exactly the nodes that meet its `min_level`, each once, in queue
order. -/
theorem writes_of_delivered (ss : List (Ptr × LogSink)) (q : List (Ptr × LogMessage))
    (t0 t : List Event) (h : writes t = writes t0 ++ deliveries ss q) :
    (∀ sp, sp ∉ ss.map Prod.fst → writes_of sp t = writes_of sp t0) ∧
    ((ss.map Prod.fst).Nodup → ∀ i sp s, ss[i]? = some (sp, s) →
      writes_of sp t = writes_of sp t0 ++
        (q.filter fun x => decide (s.config.min_level ≤ x.2.level)).map
          fun x => Event.write i sp s.config.write_fn x.1 x.2 s.user_data) := by
  have hsplit : ∀ sp, writes_of sp t = writes_of sp t0 ++ writes_of sp (deliveries ss q) := by
    intro sp
    rw [← writes_of_writes sp t, h, writes_of_append, writes_of_writes]
  refine ⟨?_, ?_⟩
  · intro sp hsp
    rw [hsplit, writes_of_deliveries_other ss sp hsp q, List.append_nil]
  · intro hnd i sp s hi
    rw [hsplit, writes_of_deliveries ss hnd i sp s hi q, writes_to_deliveries i ss sp s hi q]

/-- C4 (amended): on an async logger with registered sinks `ss` whose queue holds
`q` when `logger_destroy` clears `running`, the worker loop reaches its exit for
every choice of clock values and trylock outcomes (one input per queued node is
enough), and the `write` events added are exactly the deliveries of `q`: each
node, in queue order, once for each slot whose handle has a `min_level` it
meets, in slot order; every node is released.  A handle that is not registered
gets no call.  When the registered handles are pairwise distinct, each handle
gets exactly the nodes of `q` that meet its `min_level`, each once, in queue
order. -/
theorem C4_shutdown_delivers_queue (fuel : Nat) (lp : Ptr) (ss : List (Ptr × LogSink))
    (envs : List WorkerEnv) (m : Mem) (L : Logger) (q : List (Ptr × LogMessage))
    (hL : m.loggers lp = some L) (hasync : L.async = true) (hreg : Registered m L ss)
    (hq : Queue m L q) (hf : q.length < fuel) (hlen : q.length ≤ envs.length) :
    (∃ m2, worker_thread_func fuel lp envs (m.setLogger lp { L with running := false }) =
        some m2 ∧ Ready lp ss m2 [] ∧ m2.msgs = release m.msgs q ∧
        writes m2.trace = writes m.trace ++ deliveries ss q ∧
        (∀ sp, sp ∉ ss.map Prod.fst → writes_of sp m2.trace = writes_of sp m.trace) ∧
        ((ss.map Prod.fst).Nodup → ∀ i sp s, ss[i]? = some (sp, s) →
          writes_of sp m2.trace = writes_of sp m.trace ++
            (q.filter fun x => decide (s.config.min_level ≤ x.2.level)).map
              fun x => Event.write i sp s.config.write_fn x.1 x.2 s.user_data)) ∧
    ∃ m3, logger_destroy fuel (some lp) envs m = some m3 ∧ m3.msgs = release m.msgs q ∧
      writes m3.trace = writes m.trace ++ deliveries ss q ∧
      (∀ sp, sp ∉ ss.map Prod.fst → writes_of sp m3.trace = writes_of sp m.trace) ∧
      ((ss.map Prod.fst).Nodup → ∀ i sp s, ss[i]? = some (sp, s) →
        writes_of sp m3.trace = writes_of sp m.trace ++
          (q.filter fun x => decide (s.config.min_level ≤ x.2.level)).map
            fun x => Event.write i sp s.config.write_fn x.1 x.2 s.user_data) := by
  constructor
  · have hready : Ready lp ss (m.setLogger lp { L with running := false }) q :=
      ⟨{ L with running := false }, by simp, hreg, hq⟩
    obtain ⟨m2, h2, hr2, hd⟩ := worker_thread_func_ready fuel lp ss envs _ q hready
      (fun K hK => by
        simp only [Mem.setLogger_loggers, if_true, Option.some.injEq] at hK
        subst hK; rfl) hf hlen
    obtain ⟨_, d2, _, _, evs, d5, d6, _, _⟩ := hd
    have hw2 : writes m2.trace = writes m.trace ++ deliveries ss q := by
      rw [d5, writes_append, d6]; rfl
    have hw3 : writes m2.trace = writes (writes m.trace) ++ deliveries ss q := by
      rw [hw2]
      congr 1
      simp [writes, List.filter_filter]
    obtain ⟨k1, k2⟩ := writes_of_delivered ss q (writes m.trace) m2.trace hw3
    refine ⟨m2, h2, hr2, by simpa using d2, hw2, ?_, ?_⟩
    · intro sp hsp
      rw [k1 sp hsp, writes_of_writes]
    · intro hnd i sp s hi
      rw [k2 hnd i sp s hi, writes_of_writes]
  · obtain ⟨m3, h3, _, _, _, hm, hw, _⟩ :=
      logger_destroy_eq fuel lp ss envs m L q hL hreg (fun _ => ⟨hq, hf, hlen⟩)
    have hw2 : writes m3.trace = writes m.trace ++ deliveries ss q := by
      simpa [hasync] using hw
    have hw3 : writes m3.trace = writes (writes m.trace) ++ deliveries ss q := by
      rw [hw2]
      congr 1
      simp [writes, List.filter_filter]
    obtain ⟨k1, k2⟩ := writes_of_delivered ss q (writes m.trace) m3.trace hw3
    refine ⟨m3, h3, by simpa [hasync] using hm, hw2, ?_, ?_⟩
    · intro sp hsp
      rw [k1 sp hsp, writes_of_writes]
    · intro hnd i sp s hi
      rw [k2 hnd i sp s hi, writes_of_writes]

theorem C4_shutdown_delivers_queue_witness :
    (demo_queued.loggers 1 = some demo_queued_logger ∧ demo_queued_logger.async = true ∧
      Registered demo_queued demo_queued_logger demo_queued_sinks ∧
      Queue demo_queued demo_queued_logger demo_queue ∧
      demo_queue.length < 8 ∧ demo_queue.length ≤ demo_envs.length ∧
      (demo_queued_sinks.map Prod.fst).Nodup) ∧
    (deliveries demo_queued_sinks demo_queue).length = 3 ∧
    ((∃ m2, worker_thread_func 8 1 demo_envs
        (demo_queued.setLogger 1 { demo_queued_logger with running := false }) = some m2 ∧
        Ready 1 demo_queued_sinks m2 [] ∧ m2.msgs = release demo_queued.msgs demo_queue ∧
        writes m2.trace = writes demo_queued.trace ++ deliveries demo_queued_sinks demo_queue ∧
        (∀ sp, sp ∉ demo_queued_sinks.map Prod.fst →
          writes_of sp m2.trace = writes_of sp demo_queued.trace) ∧
        ∀ i sp s, demo_queued_sinks[i]? = some (sp, s) →
          writes_of sp m2.trace = writes_of sp demo_queued.trace ++
            (demo_queue.filter fun x => decide (s.config.min_level ≤ x.2.level)).map
              fun x => Event.write i sp s.config.write_fn x.1 x.2 s.user_data) ∧
    ∃ m3, logger_destroy 8 (some 1) demo_envs demo_queued = some m3 ∧
      m3.msgs = release demo_queued.msgs demo_queue ∧
      writes m3.trace = writes demo_queued.trace ++ deliveries demo_queued_sinks demo_queue ∧
      (∀ sp, sp ∉ demo_queued_sinks.map Prod.fst →
        writes_of sp m3.trace = writes_of sp demo_queued.trace) ∧
      ∀ i sp s, demo_queued_sinks[i]? = some (sp, s) →
        writes_of sp m3.trace = writes_of sp demo_queued.trace ++
          (demo_queue.filter fun x => decide (s.config.min_level ≤ x.2.level)).map
            fun x => Event.write i sp s.config.write_fn x.1 x.2 s.user_data) := by
  obtain ⟨⟨m2, b1, b2, b3, b4, b5, b6⟩, m3, a1, a2, a3, a4, a5⟩ :=
    C4_shutdown_delivers_queue 8 1 demo_queued_sinks demo_envs demo_queued demo_queued_logger
      demo_queue rfl rfl ⟨rfl, rfl, rfl, rfl, rfl, trivial⟩
      ⟨⟨rfl, rfl, rfl, rfl, rfl, rfl, rfl⟩, rfl⟩ (by decide) (by decide)
  exact ⟨⟨rfl, rfl, ⟨rfl, rfl, rfl, rfl, rfl, trivial⟩, ⟨⟨rfl, rfl, rfl, rfl, rfl, rfl, rfl⟩, rfl⟩,
      by decide, by decide, by decide⟩, by decide, ⟨m2, b1, b2, b3, b4, b5, b6 (by decide)⟩,
    m3, a1, a2, a3, a4, a5 (by decide)⟩

/-- C4 as stated fails: `logger_add_sink` accepts the handle 50 twice, so it
fills the slots 0 and 1; with (Info, "a"), (Error, "b"), (Warn, "c") queued,
`logger_destroy` passes every message to the write function of that one sink
twice. -/
theorem C4_refuted_by_duplicate_handle :
    run 4 16 1 [.add_sink (some 50), .add_sink (some 50)]
      (logger_create 4 demo_config_async (some 1) (fun _ => none) 999 demo_start).2 =
        some demo_twice ∧
    (demo_twice.loggers 1).map (fun L => (L.async, L.sink_count, L.sinks)) =
      some (true, 2, [some 50, some 50, none, none]) ∧
    log_all 16 1 demo_calls demo_twice = some demo_twice_queued ∧
    writes_of 50 demo_twice_queued.trace = [] ∧
    (logger_destroy 8 (some 1) demo_envs demo_twice_queued).map
      (fun m => (writes_of 50 m.trace).map Event.text) =
        some [['a'], ['a'], ['b'], ['b'], ['c'], ['c']] := by
  refine ⟨rfl, by decide, rfl, by decide, by decide⟩

/-- C3 (amended): on an async logger with an empty queue and registered sinks
`ss`, log calls `cs` with non-null formats whose allocations succeed (fresh,
distinct addresses), followed by one `logger_flush`, return; the `write` events
added are the deliveries of the nodes of `cs` in call order, so the handle in
slot `i` is called, for that slot, on exactly the nodes whose level meets its
`min_level`, in call order; afterwards `queue_head` and `queue_tail` are null,
the logger object is as before the calls and every node has been released.  A
handle that is not registered gets no call.  When the registered handles are
pairwise distinct, each handle is called on exactly the nodes whose level
meets its `min_level`, each once, in call order. -/
theorem C3_log_then_flush (MSG_SIZE fuel : Nat) (lp : Ptr) (ss : List (Ptr × LogSink))
    (cs : List LogCall) (m : Mem) (L : Logger)
    (hL : m.loggers lp = some L) (hasync : L.async = true) (hreg : Registered m L ss)
    (hhead : L.queue_head = none) (htail : L.queue_tail = none)
    (hfresh : ∀ c ∈ cs, m.msgs c.addr = none) (hnd : (cs.map fun c => c.addr).Nodup)
    (hf : cs.length < fuel) :
    ∃ m3 evs, (log_all MSG_SIZE lp cs m).bind (logger_flush fuel (some lp)) = some m3 ∧
      m3.trace = m.trace ++ evs ∧
      writes evs = deliveries ss (enqueued MSG_SIZE cs) ∧
      (∀ i sp s, ss[i]? = some (sp, s) →
        writes_to i evs =
          ((enqueued MSG_SIZE cs).filter fun x => decide (s.config.min_level ≤ x.2.level)).map
            fun x => Event.write i sp s.config.write_fn x.1 x.2 s.user_data) ∧
      (∃ L3, m3.loggers lp = some L3 ∧ L3.queue_head = none ∧ L3.queue_tail = none ∧ L3 = L) ∧
      m3.sinks = m.sinks ∧ m3.msgs = m.msgs ∧
      (∀ sp, sp ∉ ss.map Prod.fst → writes_of sp evs = []) ∧
      ((ss.map Prod.fst).Nodup → ∀ i sp s, ss[i]? = some (sp, s) →
        writes_of sp evs =
          ((enqueued MSG_SIZE cs).filter fun x => decide (s.config.min_level ≤ x.2.level)).map
            fun x => Event.write i sp s.config.write_fn x.1 x.2 s.user_data) := by
  have hq : Queue m L [] := ⟨hhead, by simpa using htail⟩
  obtain ⟨m2, L2, g1, g2, g3, g3b, g4, g5, _, g7, g8, evs, g9, g10, _⟩ :=
    log_all_ready MSG_SIZE lp ss cs m L [] hL hasync hreg hq hfresh hnd
  have hfold : cs.foldl (fun q c => append_node q c.addr (c.node MSG_SIZE)) [] =
      enqueued MSG_SIZE cs := by
    simpa [enqueued] using enqueued_foldl MSG_SIZE cs []
  rw [hfold] at g5
  have hasync2 : L2.async = true := by
    simp only [Logger.settings, Prod.mk.injEq] at g3
    rw [g3.2.2.1]; exact hasync
  have hlen : (enqueued MSG_SIZE cs).length = cs.length := by
    have := congrArg List.length (enqueued_addrs MSG_SIZE cs)
    simpa using this
  have hfl := logger_flush_ready fuel lp ss m2 L2 _ g2 hasync2 g4 g5 (by rw [hlen]; exact hf)
  have hw : writes (evs ++ ([.lock .engine] ++ drain_events ss (enqueued MSG_SIZE cs) ++
      [.unlock .engine])) = deliveries ss (enqueued MSG_SIZE cs) := by
    simp only [writes_append, g10, writes_drain_events]
    simp [writes]
  obtain ⟨m3, f1, f2, f3, f4, f5⟩ : ∃ m3, logger_flush fuel (some lp) m2 = some m3 ∧
      m3.loggers lp = some L2.emptied ∧ m3.sinks = m2.sinks ∧
      m3.msgs = release m2.msgs (enqueued MSG_SIZE cs) ∧
      m3.trace = m2.trace ++ [.lock .engine] ++ drain_events ss (enqueued MSG_SIZE cs) ++
        [.unlock .engine] := ⟨_, hfl, by simp, rfl, rfl, rfl⟩
  obtain ⟨k1, k2⟩ := writes_of_delivered ss (enqueued MSG_SIZE cs) []
    (evs ++ ([.lock .engine] ++ drain_events ss (enqueued MSG_SIZE cs) ++ [.unlock .engine]))
    (by rw [hw]; rfl)
  refine ⟨m3, evs ++ ([.lock .engine] ++ drain_events ss (enqueued MSG_SIZE cs) ++
    [.unlock .engine]), by rw [g1, Option.some_bind, f1], by simp [f5, g9], hw, ?_, ?_,
    f3.trans g7, ?_, ?_, ?_⟩
  · intro i sp s hs
    rw [← writes_to_writes, hw]
    exact writes_to_deliveries i ss sp s hs _
  · refine ⟨L2.emptied, f2, rfl, rfl, ?_⟩
    exact Logger.eq_of_settings g3 g3b (by simp [Logger.emptied, hhead])
      (by simp [Logger.emptied, htail])
  · rw [f4]
    funext a
    simp only [release, enqueued_addrs]
    by_cases ha : a ∈ cs.map fun c => c.addr
    · obtain ⟨c, hc, hca⟩ := List.mem_map.1 ha
      simp only [ha, if_true]
      rw [← hca]
      exact (hfresh c hc).symm
    · simp only [ha, if_false]
      exact g8 a ha (by simp)
  · intro sp hsp
    simpa [writes_of] using k1 sp hsp
  · intro hnd2 i sp s hi
    simpa [writes_of] using k2 hnd2 i sp s hi

theorem C3_log_then_flush_witness :
    (demo_async.loggers 1 = some demo_async_logger ∧ demo_async_logger.async = true ∧
      Registered demo_async demo_async_logger demo_async_sinks ∧
      demo_async_logger.queue_head = none ∧ demo_async_logger.queue_tail = none ∧
      (∀ c ∈ demo_calls, demo_async.msgs c.addr = none) ∧
      (demo_calls.map fun c => c.addr).Nodup ∧ demo_calls.length < 8 ∧
      (demo_async_sinks.map Prod.fst).Nodup) ∧
    (deliveries demo_async_sinks (enqueued 16 demo_calls)).map Event.text = [['b'], ['c']] ∧
    ∃ m3 evs, (log_all 16 1 demo_calls demo_async).bind (logger_flush 8 (some 1)) = some m3 ∧
      m3.trace = demo_async.trace ++ evs ∧
      writes evs = deliveries demo_async_sinks (enqueued 16 demo_calls) ∧
      (∀ i sp s, demo_async_sinks[i]? = some (sp, s) →
        writes_to i evs =
          ((enqueued 16 demo_calls).filter fun x => decide (s.config.min_level ≤ x.2.level)).map
            fun x => Event.write i sp s.config.write_fn x.1 x.2 s.user_data) ∧
      (∃ L3, m3.loggers 1 = some L3 ∧ L3.queue_head = none ∧ L3.queue_tail = none ∧
        L3 = demo_async_logger) ∧
      m3.sinks = demo_async.sinks ∧ m3.msgs = demo_async.msgs ∧
      (∀ sp, sp ∉ demo_async_sinks.map Prod.fst → writes_of sp evs = []) ∧
      (writes_of 52 evs).map Event.text = [['b'], ['c']] := by
  obtain ⟨m3, evs, a1, a2, a3, a4, a5, a6, a7, a8, a9⟩ :=
    C3_log_then_flush 16 8 1 demo_async_sinks demo_calls demo_async demo_async_logger rfl rfl
      ⟨rfl, rfl, rfl, trivial⟩ rfl rfl (fun _ _ => rfl) (by decide) (by decide)
  refine ⟨⟨rfl, rfl, ⟨rfl, rfl, rfl, trivial⟩, rfl, rfl, fun _ _ => rfl, by decide, by decide,
    by decide⟩, by decide, m3, evs, a1, a2, a3, a4, a5, a6, a7, a8, ?_⟩
  rw [a9 (by decide) 0 52 (demo_sink_warn.registered 1) rfl]
  decide

/-- C3 as stated fails in two ways.  On an async logger whose only sink has
threshold 3, a log call at level 4 with a non-null format whose allocation
fails, followed by a flush, reaches no sink.  And on an async logger on which
the handle 50 was registered twice, the calls (Info, "a"), (Error, "b"),
(Warn, "c") followed by a flush pass every message to the write function of
that one sink twice. -/
theorem C3_refuted_by_allocation_and_duplicate :
    (demo_async.loggers 1 = some demo_async_logger ∧ demo_async_logger.async = true ∧
      Registered demo_async demo_async_logger demo_async_sinks ∧
      (demo_sink_warn.registered 1).config.min_level ≤ 4 ∧
      writes demo_async.trace = [] ∧
      ((logger_log 16 (some 1) 4 "main.c" 11 (some ['b']) none 1000 demo_async).bind
        (logger_flush 8 (some 1))).map (fun m => writes m.trace) = some []) ∧
    run 4 16 1 [.add_sink (some 50), .add_sink (some 50)]
      (logger_create 4 demo_config_async (some 1) (fun _ => none) 999 demo_start).2 =
        some demo_twice ∧
    (demo_twice.loggers 1).map (fun L => (L.async, L.sink_count, L.sinks, L.queue_head)) =
      some (true, 2, [some 50, some 50, none, none], none) ∧
    writes_of 50 demo_twice.trace = [] ∧
    ((log_all 16 1 demo_calls demo_twice).bind (logger_flush 8 (some 1))).map
      (fun m => (writes_of 50 m.trace).map Event.text) =
        some [['a'], ['a'], ['b'], ['b'], ['c'], ['c']] := by
  refine ⟨⟨rfl, rfl, ⟨rfl, rfl, rfl, trivial⟩, by decide, by decide, by decide⟩, rfl, by decide,
    by decide, by decide⟩

end CLog
